import Mathlib

set_option maxRecDepth 8192

/-!
Verification development for the FST (fast succinct trie) builder of this
repository.  The builder (`src/include/fst_builder.hpp`, class
`mmphf_fst::FSTBuilder`) performs a single pass over a sorted key list and
fills per-level LOUDS-sparse vectors (labels, child-indicator bits, LOUDS
bits, per-level position lists), then optionally chooses a dense/sparse
cutoff level and rewrites the upper levels into 256-ary bitmaps.  The
select structure (`src/include/select.hpp`, class `surf::BitvectorSelect`)
is embedded separately below.

Machine integers are modelled as `Nat` with explicit `% 2 ^ w` where
overflow matters; `word_t` values produced here always stay below `2 ^ 64`.
Bit vectors are lists of words, MSB-first inside each word, exactly as in
the source.  Every C++ `while`/`for` loop becomes a fuel-indexed structural
recursion (the fuel chosen at each call site is an upper bound on the
number of iterations the C++ loop can perform, so the two agree on every
run; sufficiency is part of the proofs).  `assert` statements of the source
are tracked in two boolean fields of the builder state: `bitsOk` records
the in-range assertions of `readBit`/`setBit`, `assertsOk` records the
remaining assertions.
-/

namespace FST

/-- Modelled from the spec: `config.hpp` is not under `src/`.  Word width of
`word_t` (spec section 4.1: "typically 64"; the normative bit layout is
MSB-first within a 64-bit word). -/
def kWordSize : Nat := 64

/-- Modelled from the spec: `config.hpp` is not under `src/`.  The mask
`(1 << (W-1))`, i.e. the most significant bit of a word (spec section 4.1). -/
def kMsbMask : Nat := 2 ^ 63

/-- Modelled from the spec: `config.hpp` is not under `src/`.  Fan-out of a
dense node: 256 bits per node per bitmap (spec sections 3 and 4.7). -/
def kFanout : Nat := 256

/-- Modelled from the spec: `config.hpp` is not under `src/`.  The reserved
terminator label, "a byte value outside the expected key alphabet" (spec
sections 3 and 9); we fix the conventional value 255. -/
def kTerminator : Nat := 255

/-- Modelled from the spec: `config.hpp` is not under `src/`.  `position_t`
is an unsigned machine integer (spec section 7 speaks of "the integer width
used for positions"); we use 32 bits.  Only its wrap-around on `0 - 1`
matters below. -/
def posMax : Nat := 2 ^ 32 - 1

/-- `n - 1` on the unsigned `position_t`: wraps to `posMax` when `n = 0`.
The source writes `getNumItems(level) - 1` on unsigned arithmetic. -/
def decPos (n : Nat) : Nat := if n = 0 then posMax else n - 1

/-- The in-range condition asserted by `FSTBuilder::readBit` / `setBit`:
`pos < bits.size() * kWordSize`. -/
def bitOK (bits : List Nat) (pos : Nat) : Bool :=
  decide (pos < bits.length * kWordSize)

/-- `FSTBuilder::readBit`: `bits[word_id] & (kMsbMask >> offset)` with
`word_id = pos / kWordSize`, `offset = pos % kWordSize`.  Reading an
out-of-range word yields 0 (the recorded assertion fails there). -/
def readBit (bits : List Nat) (pos : Nat) : Bool :=
  decide ((bits.getD (pos / kWordSize) 0) &&& (kMsbMask >>> (pos % kWordSize)) ≠ 0)

/-- `FSTBuilder::setBit`: `bits[word_id] |= (kMsbMask >> offset)`.
An out-of-range write is a no-op (`List.set` out of range); the recorded
assertion fails there. -/
def setBitW (bits : List Nat) (pos : Nat) : List Nat :=
  bits.set (pos / kWordSize)
    ((bits.getD (pos / kWordSize) 0) ||| (kMsbMask >>> (pos % kWordSize)))

/-- The state of `FSTBuilder` (the member variables of the class), plus the
two assertion-tracking flags. -/
structure Builder where
  include_dense : Bool
  sparse_dense_ratio : Nat
  sparse_start_level : Nat
  positions : List (List Nat)
  labels : List (List Nat)
  child_indicator_bits : List (List Nat)
  louds_bits : List (List Nat)
  positions_sparse : List Nat
  bitmap_labels : List (List Nat)
  bitmap_child_indicator_bits : List (List Nat)
  prefixkey_indicator_bits : List (List Nat)
  positions_dense : List Nat
  node_counts : List Nat
  is_last_item_terminator : List Bool
  bitsOk : Bool
  assertsOk : Bool
deriving Repr, DecidableEq

/-- `FSTBuilder(include_dense, sparse_dense_ratio)`: the freshly constructed
builder (all vectors empty, `sparse_start_level_ = 0`). -/
def mkBuilder (include_dense : Bool) (ratio : Nat) : Builder :=
  { include_dense := include_dense
    sparse_dense_ratio := ratio
    sparse_start_level := 0
    positions := []
    labels := []
    child_indicator_bits := []
    louds_bits := []
    positions_sparse := []
    bitmap_labels := []
    bitmap_child_indicator_bits := []
    prefixkey_indicator_bits := []
    positions_dense := []
    node_counts := []
    is_last_item_terminator := []
    bitsOk := true
    assertsOk := true }

/-- `FSTBuilder::getTreeHeight()`: `labels_.size()`. -/
def Builder.height (b : Builder) : Nat := b.labels.length

/-- `FSTBuilder::getNumItems(level)`: `labels_[level].size()`. -/
def Builder.numItems (b : Builder) (level : Nat) : Nat :=
  (b.labels.getD level []).length

/-- `setBit(child_indicator_bits_[level], pos)` together with its in-range
assertion. -/
def setCI (b : Builder) (level pos : Nat) : Builder :=
  { b with
    child_indicator_bits := b.child_indicator_bits.set level
      (setBitW (b.child_indicator_bits.getD level []) pos)
    bitsOk := b.bitsOk && bitOK (b.child_indicator_bits.getD level []) pos }

/-- `setBit(louds_bits_[level], pos)` together with its in-range assertion. -/
def setLouds (b : Builder) (level pos : Nat) : Builder :=
  { b with
    louds_bits := b.louds_bits.set level
      (setBitW (b.louds_bits.getD level []) pos)
    bitsOk := b.bitsOk && bitOK (b.louds_bits.getD level []) pos }

/-- `FSTBuilder::isLevelEmpty`: `level >= getTreeHeight() || labels_[level].empty()`. -/
def isLevelEmpty (b : Builder) (level : Nat) : Bool :=
  decide (level ≥ b.height) || decide ((b.labels.getD level []) = [])

/-- `FSTBuilder::isCharCommonPrefix` (the byte `c` is compared after the
`(label_t)` cast, i.e. modulo 256, against `labels_[level].back()`). -/
def isCharCommonPref (b : Builder) (c : Nat) (level : Nat) : Bool :=
  decide (level < b.height) &&
  !(b.is_last_item_terminator.getD level false) &&
  decide (c % 256 = ((b.labels.getD level []).getLast?.getD 0))

/-- `FSTBuilder::addLevel`: appends one empty entry to every per-level
vector, then pushes one zero word onto the bit vectors of the new level. -/
def addLevel (b : Builder) : Builder :=
  let b :=
    { b with
      labels := b.labels ++ [[]]
      positions := b.positions ++ [[]]
      child_indicator_bits := b.child_indicator_bits ++ [[]]
      louds_bits := b.louds_bits ++ [[]]
      node_counts := b.node_counts ++ [0]
      is_last_item_terminator := b.is_last_item_terminator ++ [false] }
  { b with
    child_indicator_bits := b.child_indicator_bits.set (b.height - 1)
      ((b.child_indicator_bits.getD (b.height - 1) []) ++ [0])
    louds_bits := b.louds_bits.set (b.height - 1)
      ((b.louds_bits.getD (b.height - 1) []) ++ [0]) }

/-- `FSTBuilder::moveToNextItemSlot`: if the slot count reached a word
boundary, push a fresh zero word onto both per-level bit vectors.  The
`assert(level < getTreeHeight())` is recorded in `assertsOk`. -/
def moveToNextItemSlot (b : Builder) (level : Nat) : Builder :=
  let b := { b with assertsOk := b.assertsOk && decide (level < b.height) }
  if b.numItems level % kWordSize = 0 then
    { b with
      child_indicator_bits := b.child_indicator_bits.set level
        ((b.child_indicator_bits.getD level []) ++ [0])
      louds_bits := b.louds_bits.set level
        ((b.louds_bits.getD level []) ++ [0]) }
  else b

/-- First step of `FSTBuilder::insertKeyByte`:
`if (level >= getTreeHeight()) addLevel();`. -/
def maybeAddLevel (b : Builder) (level : Nat) : Builder :=
  if level ≥ b.height then addLevel b else b

/-- The `assert(level < getTreeHeight())` of `FSTBuilder::insertKeyByte`. -/
def recordInsAssert (b : Builder) (level : Nat) : Builder :=
  { b with assertsOk := b.assertsOk && decide (level < b.height) }

/-- `FSTBuilder::insertKeyByte`, parent update:
`if (level > 0) setBit(child_indicator_bits_[level-1], getNumItems(level-1) - 1);`. -/
def maybeParent (b : Builder) (level : Nat) : Builder :=
  if level > 0 then setCI b (level - 1) (decPos (b.numItems (level - 1))) else b

/-- `labels_[level].push_back(c)`: the pushed label is the `char` argument
converted to `label_t`, i.e. taken modulo 256. -/
def pushLabel (b : Builder) (c : Nat) (level : Nat) : Builder :=
  { b with labels := b.labels.set level ((b.labels.getD level []) ++ [c % 256]) }

/-- `FSTBuilder::insertKeyByte`, node-start case: set the LOUDS bit of the
new slot and increment `node_counts_[level]`. -/
def maybeBump (b : Builder) (level : Nat) (is_start_of_node : Bool) : Builder :=
  if is_start_of_node then
    let b1 := setLouds b level (decPos (b.numItems level))
    { b1 with node_counts := b1.node_counts.set level (b1.node_counts.getD level 0 + 1) }
  else b

/-- `is_last_item_terminator_[level] = is_term;`. -/
def setTermFlag (b : Builder) (level : Nat) (is_term : Bool) : Builder :=
  { b with is_last_item_terminator := b.is_last_item_terminator.set level is_term }

/-- `FSTBuilder::insertKeyByte`, as the composition of its steps in source
order. -/
def insertKeyByte (b : Builder) (c : Nat) (level : Nat)
    (is_start_of_node is_term : Bool) : Builder :=
  moveToNextItemSlot
    (setTermFlag
      (maybeBump (pushLabel (maybeParent (recordInsAssert (maybeAddLevel b level) level) level)
        c level) level is_start_of_node)
      level is_term)
    level

/-- The `while` loop of `FSTBuilder::skipCommonPrefix`, fuel-indexed (the
loop runs at most `key.length` times since it requires `level < key.length`). -/
def skipLoop (key : List Nat) : Nat → Builder → Nat → Builder × Nat
  | 0, b, level => (b, level)
  | fuel + 1, b, level =>
    if decide (level < key.length) && isCharCommonPref b (key.getD level 0) level then
      skipLoop key fuel (setCI b level (decPos (b.numItems level))) (level + 1)
    else (b, level)

/-- `FSTBuilder::skipCommonPrefix`. -/
def skipCommonPref (b : Builder) (key : List Nat) : Builder × Nat :=
  skipLoop key key.length b 0

/-- `positions_[idx].emplace_back(val)`. -/
def pushPos (ps : List (List Nat)) (idx val : Nat) : List (List Nat) :=
  ps.set idx ((ps.getD idx []) ++ [val])

/-- The second `while` loop of `FSTBuilder::insertKeyBytesToTrieUntilUnique`
("all the following bytes inserted must be the start of a new node"),
fuel-indexed; it requires `level < key.length`, so `key.length` fuel is
enough. -/
def insLoop (key next_key : List Nat) : Nat → Builder → Nat → Builder × Nat
  | 0, b, level => (b, level)
  | fuel + 1, b, level =>
    if decide (level < key.length) && decide (level < next_key.length) &&
        decide (key.getD (level - 1) 0 = next_key.getD (level - 1) 0) then
      insLoop key next_key fuel (insertKeyByte b (key.getD level 0) level true false) (level + 1)
    else (b, level)

/-- `FSTBuilder::insertKeyBytesToTrieUntilUnique`.  `key[level]` at
`level = key.length()` is the C++ `std::string::operator[]` at `size()`,
which yields `'\0'`; `List.getD _ 0` models this.  The
`assert(start_level < key.length())` is recorded in `assertsOk`. -/
def insertKeyBytesToTrieUntilUnique (b : Builder) (key : List Nat)
    (position : Nat) (next_key : List Nat) (start_level : Nat) : Builder × Nat :=
  let b := { b with assertsOk := b.assertsOk && decide (start_level < key.length) }
  let is_start_of_node := isLevelEmpty b start_level
  let b := insertKeyByte b (key.getD start_level 0) start_level is_start_of_node false
  let level := start_level + 1
  if decide (level > next_key.length) || !(decide (key.take level = next_key.take level)) then
    ({ b with positions := pushPos b.positions (level - 1) position }, level)
  else
    let r := insLoop key next_key key.length b level
    ({ r.1 with positions := pushPos r.1.positions (r.2 - 1) position }, r.2)

/-- The run of input keys equal to `keys[curpos]` directly following it:
the number of steps of the duplicate-collapsing `while` loop of
`FSTBuilder::buildSparse`. -/
def countRun (k : List Nat) : List (List Nat) → Nat
  | [] => 0
  | x :: xs => if x = k then countRun k xs + 1 else 0

/-- The `for` loop of `FSTBuilder::buildSparse`, fuel-indexed (the index
advances by at least one per iteration, so `keys.length` fuel is enough).
The loop state is the pair (builder, loop index). -/
def buildSparseLoop (keys : List (List Nat)) : Nat → Builder → Nat → Builder × Nat
  | 0, b, i => (b, i)
  | fuel + 1, b, i =>
    if i < keys.length then
      let k := keys.getD i []
      let r := skipCommonPref b k
      let d := countRun k (keys.drop (i + 1))
      let i2 := i + d
      let b2 :=
        if i2 < keys.length - 1 then
          (insertKeyBytesToTrieUntilUnique r.1 k i (keys.getD (i2 + 1) []) r.2).1
        else
          (insertKeyBytesToTrieUntilUnique r.1 k i [] r.2).1
      buildSparseLoop keys fuel b2 (i2 + 1)
    else (b, i)

/-- `FSTBuilder::buildSparse`. -/
def buildSparse (b : Builder) (keys : List (List Nat)) : Builder :=
  (buildSparseLoop keys keys.length b 0).1

/-- `FSTBuilder::computeDenseMem`:
`Σ_{level < downto} 2 * kFanout * node_counts_[level] +
 (level > 0 ? node_counts_[level-1] / 8 + 1 : 0)` (integer division). -/
def computeDenseMem (b : Builder) (downto_level : Nat) : Nat :=
  ((List.range downto_level).map fun level =>
    2 * kFanout * (b.node_counts.getD level 0) +
      if level > 0 then (b.node_counts.getD (level - 1) 0) / 8 + 1 else 0).sum

/-- `FSTBuilder::computeSparseMem`:
`Σ_{level ∈ [start, H)} num_items + 2 * num_items / 8 + 1` (integer
division, C++ operator precedence: `(2 * num_items) / 8`). -/
def computeSparseMem (b : Builder) (start_level : Nat) : Nat :=
  ((List.range (b.height - start_level)).map fun j =>
    let n := b.numItems (start_level + j)
    n + 2 * n / 8 + 1).sum

/-- The `while` loop of `FSTBuilder::determineCutoffLevel`, fuel-indexed
(the level grows up to `getTreeHeight()`, so `height + 1` fuel is enough). -/
def cutoffLoop (b : Builder) (ratio : Nat) : Nat → Nat → Nat
  | 0, cutoff_level => cutoff_level
  | fuel + 1, cutoff_level =>
    if cutoff_level < b.height ∧
        computeDenseMem b cutoff_level * ratio < computeSparseMem b cutoff_level then
      cutoffLoop b ratio fuel (cutoff_level + 1)
    else cutoff_level

/-- `FSTBuilder::determineCutoffLevel`: runs the cutoff loop, stores the
result in `sparse_start_level_`, splits the per-level position lists into
`positions_dense_` / `positions_sparse_`, and clears `positions_`. -/
def determineCutoffLevel (b : Builder) : Builder :=
  let c := cutoffLoop b b.sparse_dense_ratio (b.height + 1) 0
  { b with
    sparse_start_level := c
    positions_dense := b.positions_dense ++ (b.positions.take c).flatten
    positions_sparse := b.positions_sparse ++ (b.positions.drop c).flatten
    positions := [] }

/-- `FSTBuilder::initDenseVectors`: appends one entry per dense vector for
`level`; the nested loop pushes `kFanout / kWordSize = 4` zero words per
node onto both bitmaps and one zero word onto the prefix-key vector for
every 64 nodes (i.e. `⌈node_counts/64⌉` words in total). -/
def initDenseVectors (b : Builder) (level : Nat) : Builder :=
  let nc := b.node_counts.getD level 0
  { b with
    bitmap_labels := b.bitmap_labels ++ [List.replicate (4 * nc) 0]
    bitmap_child_indicator_bits := b.bitmap_child_indicator_bits ++ [List.replicate (4 * nc) 0]
    prefixkey_indicator_bits := b.prefixkey_indicator_bits ++ [List.replicate ((nc + 63) / 64) 0] }

/-- `FSTBuilder::isStartOfNode` is `readBit(louds_bits_[level], pos)`; this
is the state update recording that read's in-range assertion. -/
def flagLouds (b : Builder) (level pos : Nat) : Builder :=
  { b with bitsOk := b.bitsOk && bitOK (b.louds_bits.getD level []) pos }

/-- `FSTBuilder::isTerminator` reads `child_indicator_bits_[level]`; this is
the state update recording that read's in-range assertion. -/
def flagCI (b : Builder) (level pos : Nat) : Builder :=
  { b with bitsOk := b.bitsOk && bitOK (b.child_indicator_bits.getD level []) pos }

/-- `FSTBuilder::isStartOfNode` (pure value). -/
def isStartOfNode (b : Builder) (level pos : Nat) : Bool :=
  readBit (b.louds_bits.getD level []) pos

/-- `FSTBuilder::isTerminator` (pure value): the label equals `kTerminator`
and the child-indicator bit is clear. -/
def isTerminator (b : Builder) (level pos : Nat) : Bool :=
  decide ((b.labels.getD level []).getD pos 0 = kTerminator) &&
  !(readBit (b.child_indicator_bits.getD level []) pos)

/-- `setBit(bitmap_labels_[level], pos)` with its in-range assertion. -/
def setBL (b : Builder) (level pos : Nat) : Builder :=
  { b with
    bitmap_labels := b.bitmap_labels.set level
      (setBitW (b.bitmap_labels.getD level []) pos)
    bitsOk := b.bitsOk && bitOK (b.bitmap_labels.getD level []) pos }

/-- `setBit(bitmap_child_indicator_bits_[level], pos)` with its in-range
assertion. -/
def setBCI (b : Builder) (level pos : Nat) : Builder :=
  { b with
    bitmap_child_indicator_bits := b.bitmap_child_indicator_bits.set level
      (setBitW (b.bitmap_child_indicator_bits.getD level []) pos)
    bitsOk := b.bitsOk && bitOK (b.bitmap_child_indicator_bits.getD level []) pos }

/-- `setBit(prefixkey_indicator_bits_[level], pos)` with its in-range
assertion. -/
def setPK (b : Builder) (level pos : Nat) : Builder :=
  { b with
    prefixkey_indicator_bits := b.prefixkey_indicator_bits.set level
      (setBitW (b.prefixkey_indicator_bits.getD level []) pos)
    bitsOk := b.bitsOk && bitOK (b.prefixkey_indicator_bits.getD level []) pos }

/-- `FSTBuilder::setLabelAndChildIndicatorBitmap`. -/
def setLabelAndChildIndicatorBitmap (b : Builder) (level node_num pos : Nat) : Builder :=
  let label := (b.labels.getD level []).getD pos 0
  let b := setBL b level (node_num * kFanout + label)
  let b := flagCI b level pos
  if readBit (b.child_indicator_bits.getD level []) pos then
    setBCI b level (node_num * kFanout + label)
  else b

/-- The inner `for` loop of `FSTBuilder::buildDense` (positions `1, 2, ...`
of a level), fuel-indexed by the number of remaining slots. -/
def denseInner (level : Nat) : Nat → Builder → Nat → Nat → Builder
  | 0, b, _, _ => b
  | fuel + 1, b, pos, node_num =>
    if pos < b.numItems level then
      let b := flagLouds b level pos
      if isStartOfNode b level pos then
        let node_num := node_num + 1
        let b := flagCI b level pos
        if isTerminator b level pos then
          denseInner level fuel (setPK b level node_num) (pos + 1) node_num
        else
          denseInner level fuel (setLabelAndChildIndicatorBitmap b level node_num pos)
            (pos + 1) node_num
      else
        denseInner level fuel (setLabelAndChildIndicatorBitmap b level node_num pos)
          (pos + 1) node_num
    else b

/-- The body of `FSTBuilder::buildDense` for one level. -/
def denseLevel (b : Builder) (level : Nat) : Builder :=
  let b := initDenseVectors b level
  if b.numItems level = 0 then b
  else
    let b := flagCI b level 0
    let b :=
      if isTerminator b level 0 then setPK b level 0
      else setLabelAndChildIndicatorBitmap b level 0 0
    denseInner level (b.numItems level) b 1 0

/-- The outer `for` loop of `FSTBuilder::buildDense` over the dense levels. -/
def denseLevels : Nat → Builder → Nat → Builder
  | 0, b, _ => b
  | fuel + 1, b, level =>
    if level < b.sparse_start_level then
      denseLevels fuel (denseLevel b level) (level + 1)
    else b

/-- `FSTBuilder::buildDense`. -/
def buildDense (b : Builder) : Builder :=
  denseLevels b.sparse_start_level b 0

/-- `FSTBuilder::build`: `assert(keys.size() > 0)` (recorded), then
`buildSparse`, then (when `include_dense_`) `determineCutoffLevel` and
`buildDense`. -/
def build (b : Builder) (keys : List (List Nat)) : Builder :=
  let b := { b with assertsOk := b.assertsOk && decide (keys.length > 0) }
  let b := buildSparse b keys
  if b.include_dense then buildDense (determineCutoffLevel b) else b

/-- A whole run: construct the builder and `build` the key list. -/
def runBuild (include_dense : Bool) (ratio : Nat) (keys : List (List Nat)) : Builder :=
  build (mkBuilder include_dense ratio) keys

/-! ### Spec-side cutoff formulas

The next three definitions follow the words of the specification (section
4.8), for comparison with `computeDenseMem` / `computeSparseMem` /
`determineCutoffLevel` above, which are translated from the source: the
spec uses ceilings `⌈node_counts[ℓ-1] / 8⌉ + 1` and
`2 * ⌈|labels[ℓ]| / 8⌉`, where the source divides with truncation. -/

/-- The spec's `dense_mem(L)`:
`Σ_{ℓ < L} 2 * 256 * node_counts[ℓ] + (ℓ > 0 ? ⌈node_counts[ℓ-1] / 8⌉ + 1 : 0)`. -/
def specDenseMem (b : Builder) (downto_level : Nat) : Nat :=
  ((List.range downto_level).map fun level =>
    2 * kFanout * (b.node_counts.getD level 0) +
      if level > 0 then (b.node_counts.getD (level - 1) 0 + 7) / 8 + 1 else 0).sum

/-- The spec's `sparse_mem(L)`:
`Σ_{ℓ ∈ [L, H)} |labels[ℓ]| + 2 * ⌈|labels[ℓ]| / 8⌉ + 1`. -/
def specSparseMem (b : Builder) (start_level : Nat) : Nat :=
  ((List.range (b.height - start_level)).map fun j =>
    let n := b.numItems (start_level + j)
    n + 2 * ((n + 7) / 8) + 1).sum

/-- The spec's cutoff: starting at `L = 0`, increment `L` while
`L < H ∧ dense_mem(L) * R < sparse_mem(L)` (with the spec's ceiling
formulas); the first `L` failing the predicate. -/
def specCutoff (b : Builder) (ratio : Nat) : Nat :=
  go (b.height + 1) 0
where
  go : Nat → Nat → Nat
    | 0, l => l
    | fuel + 1, l =>
      if l < b.height ∧ specDenseMem b l * ratio < specSparseMem b l then
        go fuel (l + 1)
      else l

/-! ### Duplicate-run decomposition of `buildSparse`

`buildSparse` processes each maximal run of adjacent equal keys once, with
the position (input rank) of the run's first element.  `runsFrom` lists the
runs as (key, first index) pairs and `buildRuns` is the per-run loop; the
equivalence with `buildSparse` is proved below. -/

/-- The adjacent-duplicate runs of `keys` from index `i` on: one
`(key, first index)` pair per maximal run of equal adjacent keys. -/
def runsFrom (keys : List (List Nat)) : Nat → Nat → List (List Nat × Nat)
  | 0, _ => []
  | fuel + 1, i =>
    if i < keys.length then
      let k := keys.getD i []
      (k, i) :: runsFrom keys fuel (i + countRun k (keys.drop (i + 1)) + 1)
    else []

/-- Processing of the collapsed runs: for each run, skip the common prefix
and insert the unique tail with the run's first index as the recorded
position; the next distinct key is the following run's key. -/
def buildRuns (b : Builder) : List (List Nat × Nat) → Builder
  | [] => b
  | (k, r) :: rest =>
    let s := skipCommonPref b k
    let nxt := match rest with | [] => ([] : List Nat) | (k2, _) :: _ => k2
    buildRuns (insertKeyBytesToTrieUntilUnique s.1 k r nxt s.2).1 rest

/-! ### Bit counting -/

/-- Bit `o` of the word `w` in MSB-first order (offset 0 is the most
significant of the 64 bits). -/
def wbit (w : Nat) (o : Nat) : Bool := w.testBit (63 - o)

/-- Modelled from the spec: `popcount.h` is not under `src/`.  `popcount(w)`
is the number of set bits of the 64-bit word `w` (spec section 4.2). -/
def popcount (w : Nat) : Nat :=
  ((Finset.range 64).filter fun o => wbit w o = true).card

/-- Total popcount of a word vector. -/
def popcountVec (bits : List Nat) : Nat := (bits.map popcount).sum

/-- Number of set bits of the word `w` among the MSB-first offsets `< t`. -/
def onesInWordUpto (w : Nat) (t : Nat) : Nat :=
  ((Finset.range t).filter fun o => wbit w o = true).card

/-- Number of set bits of the bit vector `bits` at positions `< n`. -/
def onesUpto (bits : List Nat) (n : Nat) : Nat :=
  ((Finset.range n).filter fun p => readBit bits p = true).card

/-- The node index a slot belongs to during the left-to-right walk of
`FSTBuilder::buildDense`: the number of set LOUDS bits at positions
`1 .. pos`. -/
def nodeNumAt (lv : List Nat) (pos : Nat) : Nat :=
  ((Finset.Icc 1 pos).filter fun p => readBit lv p = true).card

/-! ### The select structure (`src/include/select.hpp`) -/

/-- Modelled from the spec: `popcount.h` is not under `src/`.
`select64_popcount_search(w, k)` returns the 0-based MSB-first offset of
the k-th set bit of the word `w`, `1 ≤ k ≤ popcount(w)` (spec section 4.2);
scan of the 64 offsets. -/
def sel64Aux (w : Nat) : Nat → Nat → Nat → Nat
  | 0, _, o => o
  | fuel + 1, k, o =>
    if wbit w o then
      if k ≤ 1 then o else sel64Aux w fuel (k - 1) (o + 1)
    else sel64Aux w fuel k (o + 1)

/-- Modelled from the spec: `select64_popcount_search` (see `sel64Aux`). -/
def select64 (w : Nat) (k : Nat) : Nat := sel64Aux w 64 k 0

/-- `num_words` of `BitvectorSelect::initSelectLut`:
`num_bits_ / kWordSize`, plus one when the division has a remainder. -/
def numWordsOf (num_bits : Nat) : Nat :=
  num_bits / kWordSize + if num_bits % kWordSize = 0 then 0 else 1

/-- The inner `while` loop of `BitvectorSelect::initSelectLut`: while the
next sampling target `sampling` falls inside word `i` (of popcount `pc`,
with `cumu` ones before it), record the exact position and advance the
target by the sample interval.  Returns the recorded positions and the new
target; fuel `pc + 1` is enough since each step consumes at least one of
the at most `pc` crossings (`interval ≥ 1`). -/
def lutInner (w iBase interval : Nat) : Nat → Nat → Nat → List Nat × Nat
  | 0, sampling, _ => ([], sampling)
  | fuel + 1, sampling, cumu =>
    if sampling ≤ cumu + popcount w then
      let p := iBase + select64 w (sampling - cumu)
      let r := lutInner w iBase interval fuel (sampling + interval) cumu
      (p :: r.1, r.2)
    else ([], sampling)

/-- The outer `for` loop of `BitvectorSelect::initSelectLut` over the words
`0 .. num_words - 1`, accumulating the cumulative popcount and the sample
positions.  Returns the samples (beyond the initial `0` entry) and
the total popcount (`num_ones_`). -/
def lutOuter (bits : List Nat) (interval : Nat) : Nat → Nat → Nat → Nat → List Nat × Nat
  | 0, _, _, cumu => ([], cumu)
  | fuel + 1, i, sampling, cumu =>
    let w := bits.getD i 0
    let pc := popcount w
    let inner := lutInner w (i * kWordSize) interval (pc + 1) sampling cumu
    let rest := lutOuter bits interval fuel (i + 1) inner.2 (cumu + pc)
    (inner.1 ++ rest.1, rest.2)

/-- `BitvectorSelect::initSelectLut`: the select look-up table (first slot
0, the position of the first set bit, per the construction's precondition
that bit 0 is set) and `num_ones_`. -/
def initSelectLut (bits : List Nat) (num_bits interval : Nat) : List Nat × Nat :=
  let r := lutOuter bits interval (numWordsOf num_bits) 0 interval 0
  (0 :: r.1, r.2)

/-- The word scan of `BitvectorSelect::select`: while the current word
holds fewer ones than needed, move to the next word; finish with
`select64_popcount_search` inside the word.  Fuel `bits.length` is enough
whenever the requested rank exists. -/
def selScan (bits : List Nat) : Nat → Nat → Nat → Nat → Nat
  | 0, word_id, rank_left, w => word_id * kWordSize + select64 w rank_left
  | fuel + 1, word_id, rank_left, w =>
    if popcount w < rank_left then
      selScan bits fuel (word_id + 1) (rank_left - popcount w) (bits.getD (word_id + 1) 0)
    else word_id * kWordSize + select64 w rank_left

/-- `BitvectorSelect::select` (rank is 1-based, the result position
0-based).  `lut` is the table built by `initSelectLut`; `interval` is
`sample_interval_`.  `word << offset >> offset` is 64-bit shifting, i.e.
`(w <<< offset) % 2 ^ 64 >>> offset`. -/
def select (bits : List Nat) (interval : Nat) (lut : List Nat) (rank : Nat) : Nat :=
  let lut_idx := rank / interval
  let rank_left0 := rank % interval
  let rank_left := if lut_idx = 0 then decPos rank_left0 else rank_left0
  let pos := lut.getD lut_idx 0
  if rank_left = 0 then pos
  else
    let word_id := pos / kWordSize
    let offset := pos % kWordSize
    let word_id := if offset = kWordSize - 1 then word_id + 1 else word_id
    let offset := if (pos % kWordSize) = kWordSize - 1 then 0 else (pos % kWordSize) + 1
    let w := (((bits.getD word_id 0) <<< offset) % 2 ^ 64) >>> offset
    selScan bits bits.length word_id rank_left w

/-- Lexicographic (byte-wise) comparison of keys, `a ≤ b`; the sortedness
precondition of `FSTBuilder::build`. -/
def lexLe : List Nat → List Nat → Bool
  | [], _ => true
  | _ :: _, [] => false
  | a :: as, b :: bs => if a < b then true else if a = b then lexLe as bs else false

/-- `keys` is sorted non-decreasingly in byte-wise lexicographic order. -/
def sortedKeys : List (List Nat) → Bool
  | [] => true
  | [_] => true
  | a :: b :: rest => lexLe a b && sortedKeys (b :: rest)


/-! ### Concrete inputs and intermediate builder states used in the analysis
of `determineCutoffLevel` (two 130-byte keys sharing a 129-byte prefix) -/

/-- Prepending one level in front of every per-level vector of a builder. -/
def consLevel (lab ci lv ps : List Nat) (nc : Nat) (tm : Bool) (b : Builder) : Builder :=
  { b with
    labels := lab :: b.labels
    child_indicator_bits := ci :: b.child_indicator_bits
    louds_bits := lv :: b.louds_bits
    positions := ps :: b.positions
    node_counts := nc :: b.node_counts
    is_last_item_terminator := tm :: b.is_last_item_terminator }

/-- First key: 129 `'a'` bytes then `'b'`. -/
def c4k1 : List Nat := List.replicate 129 97 ++ [98]

/-- Second key: 129 `'a'` bytes then `'c'`. -/
def c4k2 : List Nat := List.replicate 129 97 ++ [99]

def c4keys : List (List Nat) := [c4k1, c4k2]

/-- Builder state after the first byte of `c4k1` is inserted. -/
def c4one : Builder :=
  { include_dense := true, sparse_dense_ratio := 1, sparse_start_level := 0
    positions := [[]], labels := [[97]], child_indicator_bits := [[0]]
    louds_bits := [[kMsbMask]]
    positions_sparse := [], bitmap_labels := [], bitmap_child_indicator_bits := []
    prefixkey_indicator_bits := [], positions_dense := []
    node_counts := [1], is_last_item_terminator := [false]
    bitsOk := true, assertsOk := true }

/-- Builder state after the whole first key is inserted (levels `0..j`),
before its position is recorded. -/
def c4pre (j : Nat) : Builder :=
  { include_dense := true, sparse_dense_ratio := 1, sparse_start_level := 0
    positions := List.replicate (j + 1) []
    labels := List.replicate j [97] ++ [[98]]
    child_indicator_bits := List.replicate j [kMsbMask] ++ [[0]]
    louds_bits := List.replicate (j + 1) [kMsbMask]
    positions_sparse := [], bitmap_labels := [], bitmap_child_indicator_bits := []
    prefixkey_indicator_bits := [], positions_dense := []
    node_counts := List.replicate (j + 1) 1
    is_last_item_terminator := List.replicate (j + 1) false
    bitsOk := true, assertsOk := true }

/-- Builder state after the first key, with its position recorded. -/
def c4tail (j : Nat) : Builder :=
  { c4pre j with positions := List.replicate j [] ++ [[0]] }

/-- Builder state after `buildSparse` on `c4keys`. -/
def c4final : Builder :=
  { c4pre 129 with
    labels := List.replicate 129 [97] ++ [[98, 99]]
    positions := List.replicate 129 [] ++ [[0, 1]] }

/-- The LOUDS/node-count coupling maintained by the sparse builder: per
level, the popcount of the LOUDS bit vector equals the node count, all
bits at or past the slot count are clear, and the words allocated leave
room for the next slot. -/
def loudsOk (b : Builder) : Prop :=
  b.louds_bits.length = b.labels.length ∧
  b.node_counts.length = b.labels.length ∧
  ∀ L : Nat,
    popcountVec (b.louds_bits.getD L []) = b.node_counts.getD L 0 ∧
    (∀ p : Nat, (b.labels.getD L []).length ≤ p → readBit (b.louds_bits.getD L []) p = false) ∧
    (L < b.labels.length → (b.labels.getD L []).length < 64 * (b.louds_bits.getD L []).length)

def safeOk (b : Builder) : Prop :=
  b.bitsOk = true ∧
  b.child_indicator_bits.length = b.labels.length ∧
  b.louds_bits.length = b.labels.length ∧
  (∀ L, L < b.labels.length → (b.labels.getD L []) ≠ []) ∧
  (∀ L, L < b.labels.length →
    (b.labels.getD L []).length < 64 * (b.child_indicator_bits.getD L []).length) ∧
  (∀ L, L < b.labels.length →
    (b.labels.getD L []).length < 64 * (b.louds_bits.getD L []).length) ∧
  (∀ L, (b.labels.getD L []) ≠ [] → readBit (b.louds_bits.getD L []) 0 = true) ∧
  (∀ L x, x ∈ b.labels.getD L [] → x < 256)

/-- Slot `p` of a sparse level with label vector `lab`, LOUDS vector `lv`
and child-indicator vector `ci` is handled as a node-start terminator by
`buildDense`: position 0 is always treated as a node start, any other
position is one iff its LOUDS bit is set (`isStartOfNode`), and
`isTerminator` demands the reserved label with a clear child indicator. -/
def termSlot (lab lv ci : List Nat) (p : Nat) : Prop :=
  (p = 0 ∨ readBit lv p = true) ∧ lab.getD p 0 = kTerminator ∧ readBit ci p = false

end FST

/-! ## Theorems -/

namespace FST

theorem consLevel_height (lab ci lv ps : List Nat) (nc : Nat) (tm : Bool) (b : Builder) :
    (consLevel lab ci lv ps nc tm b).height = b.height + 1 := by
  simp [consLevel, Builder.height]

theorem consLevel_numItems (lab ci lv ps : List Nat) (nc : Nat) (tm : Bool) (b : Builder)
    (level : Nat) : (consLevel lab ci lv ps nc tm b).numItems (level + 1) = b.numItems level := by
  simp [consLevel, Builder.numItems]

theorem setCI_shift (lab ci lv ps : List Nat) (nc : Nat) (tm : Bool) (b : Builder)
    (level pos : Nat) :
    setCI (consLevel lab ci lv ps nc tm b) (level + 1) pos =
      consLevel lab ci lv ps nc tm (setCI b level pos) := by
  simp [setCI, consLevel, List.set]

theorem setLouds_shift (lab ci lv ps : List Nat) (nc : Nat) (tm : Bool) (b : Builder)
    (level pos : Nat) :
    setLouds (consLevel lab ci lv ps nc tm b) (level + 1) pos =
      consLevel lab ci lv ps nc tm (setLouds b level pos) := by
  simp [setLouds, consLevel, List.set]

theorem addLevel_shift (lab ci lv ps : List Nat) (nc : Nat) (tm : Bool) (b : Builder)
    (hh : 1 ≤ b.height) :
    addLevel (consLevel lab ci lv ps nc tm b) = consLevel lab ci lv ps nc tm (addLevel b) := by
  obtain ⟨h0, hh0⟩ : ∃ h0, b.labels.length = h0 + 1 :=
    ⟨b.labels.length - 1, by have := hh; simp only [Builder.height] at this; omega⟩
  simp [addLevel, consLevel, Builder.height, hh0, List.set]

theorem maybeAddLevel_shift (lab ci lv ps : List Nat) (nc : Nat) (tm : Bool) (b : Builder)
    (level : Nat) (hh : 1 ≤ b.height) :
    maybeAddLevel (consLevel lab ci lv ps nc tm b) (level + 1) =
      consLevel lab ci lv ps nc tm (maybeAddLevel b level) := by
  by_cases hc : level ≥ b.height
  · rw [maybeAddLevel, if_pos (by simpa [consLevel_height] using Nat.add_le_add_right hc 1),
      maybeAddLevel, if_pos hc, addLevel_shift _ _ _ _ _ _ _ hh]
  · rw [maybeAddLevel, if_neg (by simp only [consLevel_height, ge_iff_le]; omega),
      maybeAddLevel, if_neg hc]

theorem recordInsAssert_shift (lab ci lv ps : List Nat) (nc : Nat) (tm : Bool) (b : Builder)
    (level : Nat) :
    recordInsAssert (consLevel lab ci lv ps nc tm b) (level + 1) =
      consLevel lab ci lv ps nc tm (recordInsAssert b level) := by
  simp [recordInsAssert, consLevel, Builder.height]

theorem maybeParent_shift (lab ci lv ps : List Nat) (nc : Nat) (tm : Bool) (b : Builder)
    (level : Nat) (hl : 1 ≤ level) :
    maybeParent (consLevel lab ci lv ps nc tm b) (level + 1) =
      consLevel lab ci lv ps nc tm (maybeParent b level) := by
  obtain ⟨k, rfl⟩ : ∃ k, level = k + 1 := ⟨level - 1, by omega⟩
  rw [maybeParent, if_pos (by omega), maybeParent, if_pos (by omega)]
  have h1 : k + 1 + 1 - 1 = (k + 1 - 1) + 1 := by omega
  rw [h1, consLevel_numItems, setCI_shift]

theorem pushLabel_shift (lab ci lv ps : List Nat) (nc : Nat) (tm : Bool) (b : Builder)
    (c level : Nat) :
    pushLabel (consLevel lab ci lv ps nc tm b) c (level + 1) =
      consLevel lab ci lv ps nc tm (pushLabel b c level) := by
  simp [pushLabel, consLevel, List.set]

theorem maybeBump_shift (lab ci lv ps : List Nat) (nc : Nat) (tm : Bool) (b : Builder)
    (level : Nat) (st : Bool) :
    maybeBump (consLevel lab ci lv ps nc tm b) (level + 1) st =
      consLevel lab ci lv ps nc tm (maybeBump b level st) := by
  cases st
  · rfl
  · rw [maybeBump, maybeBump]
    simp only [if_true, consLevel_numItems, setLouds_shift]
    simp [setLouds, consLevel, List.set]

theorem setTermFlag_shift (lab ci lv ps : List Nat) (nc : Nat) (tm : Bool) (b : Builder)
    (level : Nat) (t2 : Bool) :
    setTermFlag (consLevel lab ci lv ps nc tm b) (level + 1) t2 =
      consLevel lab ci lv ps nc tm (setTermFlag b level t2) := by
  simp [setTermFlag, consLevel, List.set]

theorem moveToNextItemSlot_shift (lab ci lv ps : List Nat) (nc : Nat) (tm : Bool) (b : Builder)
    (level : Nat) :
    moveToNextItemSlot (consLevel lab ci lv ps nc tm b) (level + 1) =
      consLevel lab ci lv ps nc tm (moveToNextItemSlot b level) := by
  rw [moveToNextItemSlot, moveToNextItemSlot]
  simp only [consLevel, Builder.numItems, Builder.height, List.getD_cons_succ,
    List.length_cons, Nat.add_lt_add_iff_right, List.set]
  split_ifs <;> rfl

theorem insertKeyByte_shift (lab ci lv ps : List Nat) (nc : Nat) (tm : Bool)
    (b : Builder) (c level : Nat) (st t2 : Bool)
    (hl : 1 ≤ level) (hh : 1 ≤ b.height) :
    insertKeyByte (consLevel lab ci lv ps nc tm b) c (level + 1) st t2 =
      consLevel lab ci lv ps nc tm (insertKeyByte b c level st t2) := by
  rw [insertKeyByte, insertKeyByte, maybeAddLevel_shift _ _ _ _ _ _ _ _ hh,
    recordInsAssert_shift, maybeParent_shift _ _ _ _ _ _ _ _ hl, pushLabel_shift,
    maybeBump_shift, setTermFlag_shift, moveToNextItemSlot_shift]


theorem c4pre_succ (j : Nat) :
    c4pre (j + 1) = consLevel [97] [kMsbMask] [kMsbMask] [] 1 false (c4pre j) := by
  simp [c4pre, consLevel, List.replicate_succ]

theorem c4tail_succ (j : Nat) :
    c4tail (j + 1) = consLevel [97] [kMsbMask] [kMsbMask] [] 1 false (c4tail j) := by
  simp [c4tail, c4pre, consLevel, List.replicate_succ]

theorem height_insertKeyByte_ge (b : Builder) (c level : Nat) (st t2 : Bool) :
    b.height ≤ (insertKeyByte b c level st t2).height := by
  rw [insertKeyByte]
  have h1 : ∀ b2 : Builder, (moveToNextItemSlot b2 level).height = b2.height := by
    intro b2
    rw [moveToNextItemSlot]
    split_ifs <;> rfl
  have h2 : ∀ b2 : Builder, (setTermFlag b2 level t2).height = b2.height := fun _ => rfl
  have h3 : ∀ b2 : Builder, (maybeBump b2 level st).height = b2.height := by
    intro b2
    rw [maybeBump]
    cases st
    · rfl
    · simp only [if_true]; rfl
  have h4 : ∀ b2 : Builder, (pushLabel b2 c level).height = b2.height := by
    intro b2
    simp [pushLabel, Builder.height]
  have h5 : ∀ b2 : Builder, (maybeParent b2 level).height = b2.height := by
    intro b2
    rw [maybeParent]
    split_ifs <;> rfl
  have h6 : ∀ b2 : Builder, (recordInsAssert b2 level).height = b2.height := fun _ => rfl
  rw [h1, h2, h3, h4, h5, h6]
  rw [maybeAddLevel]
  split_ifs with hc
  · simp [addLevel, Builder.height]
  · exact le_refl _

theorem insLoop_shift (key next : List Nat) (x y : Nat)
    (lab ci lv ps : List Nat) (nc : Nat) (tm : Bool) :
    ∀ (fuel : Nat) (b : Builder) (level : Nat), 1 ≤ level → 1 ≤ b.height →
    insLoop (x :: key) (y :: next) fuel (consLevel lab ci lv ps nc tm b) (level + 1) =
      ((consLevel lab ci lv ps nc tm (insLoop key next fuel b level).1),
        (insLoop key next fuel b level).2 + 1)
  | 0, b, level, _, _ => rfl
  | fuel + 1, b, level, hl, hh => by
    obtain ⟨k, rfl⟩ : ∃ k, level = k + 1 := ⟨level - 1, by omega⟩
    rw [insLoop, insLoop]
    simp only [List.length_cons, Nat.add_lt_add_iff_right, Nat.add_sub_cancel,
      List.getD_cons_succ]
    by_cases h1 : (decide (k + 1 < key.length) && decide (k + 1 < next.length) &&
        decide (key.getD k 0 = next.getD k 0)) = true
    · rw [if_pos h1, if_pos h1]
      rw [insertKeyByte_shift _ _ _ _ _ _ _ _ _ _ _ (by omega) hh]
      exact insLoop_shift key next x y lab ci lv ps nc tm fuel _ (k + 2)
        (by omega) (le_trans hh (height_insertKeyByte_ge _ _ _ _ _))
    · rw [if_neg h1, if_neg h1]

theorem c4insChain (j : Nat) (hj : 1 ≤ j) :
    ∀ fuel : Nat, j + 1 ≤ fuel →
    insLoop (List.replicate j 97 ++ [98]) (List.replicate j 97 ++ [99]) fuel c4one 1 =
      (c4pre j, j + 1) := by
  induction j with
  | zero => omega
  | succ j ih =>
    intro fuel hf
    obtain ⟨f, rfl⟩ : ∃ f, fuel = f + 1 := ⟨fuel - 1, by omega⟩
    by_cases hj0 : j = 0
    · subst hj0
      obtain ⟨g, rfl⟩ : ∃ g, f = g + 1 := ⟨f - 1, by omega⟩
      rw [insLoop]
      rw [if_pos (by decide)]
      have h2 : insertKeyByte c4one ((List.replicate 1 97 ++ [98]).getD 1 0) 1 true false =
          c4pre 1 := by decide
      rw [h2, insLoop, if_neg (by decide)]
    · obtain ⟨k, rfl⟩ : ∃ k, j = k + 1 := ⟨j - 1, by omega⟩
      rw [insLoop]
      rw [if_pos (by
        simp only [List.length_append, List.length_replicate, List.length_cons,
          List.length_nil, List.replicate_succ, List.cons_append, List.getD_cons_zero]
        simp)]
      have hbyte : (List.replicate (k + 2) 97 ++ [98]).getD 1 0 = 97 := by
        simp [List.replicate_succ]
      have h2 : insertKeyByte c4one ((List.replicate (k + 2) 97 ++ [98]).getD 1 0) 1
          true false = consLevel [97] [kMsbMask] [kMsbMask] [] 1 false c4one := by
        rw [hbyte]; decide
      rw [h2]
      have hk1 : (List.replicate (k + 2) 97 ++ [98] : List Nat) =
          97 :: (List.replicate (k + 1) 97 ++ [98]) := by
        simp [List.replicate_succ]
      have hk2 : (List.replicate (k + 2) 97 ++ [99] : List Nat) =
          97 :: (List.replicate (k + 1) 97 ++ [99]) := by
        simp [List.replicate_succ]
      rw [hk1, hk2, insLoop_shift _ _ _ _ _ _ _ _ _ _ f c4one 1 (by omega) (by decide)]
      rw [ih (by omega) f (by omega)]
      simp only [c4pre_succ]


theorem skipLoop_shift (key : List Nat) (x : Nat)
    (lab ci lv ps : List Nat) (nc : Nat) (tm : Bool) :
    ∀ (fuel : Nat) (b : Builder) (level : Nat),
    skipLoop (x :: key) fuel (consLevel lab ci lv ps nc tm b) (level + 1) =
      ((consLevel lab ci lv ps nc tm (skipLoop key fuel b level).1),
        (skipLoop key fuel b level).2 + 1)
  | 0, _, _ => rfl
  | fuel + 1, b, level => by
    rw [skipLoop, skipLoop]
    have hch : ∀ c, isCharCommonPref (consLevel lab ci lv ps nc tm b) c (level + 1) =
        isCharCommonPref b c level := by
      intro c
      simp [isCharCommonPref, consLevel, Builder.height]
    simp only [List.length_cons, Nat.add_lt_add_iff_right, List.getD_cons_succ, hch]
    by_cases h1 : (decide (level < key.length) && isCharCommonPref b (key.getD level 0) level) = true
    · rw [if_pos h1, if_pos h1, consLevel_numItems, setCI_shift]
      exact skipLoop_shift key x lab ci lv ps nc tm fuel _ (level + 1)
    · rw [if_neg h1, if_neg h1]

theorem c4skipChain (j : Nat) :
    ∀ fuel : Nat, j + 1 ≤ fuel →
    skipLoop (List.replicate j 97 ++ [99]) fuel (c4tail j) 0 = (c4tail j, j) := by
  induction j with
  | zero =>
    intro fuel hf
    obtain ⟨f, rfl⟩ : ∃ f, fuel = f + 1 := ⟨fuel - 1, by omega⟩
    rw [skipLoop, if_neg (by decide)]
  | succ j ih =>
    intro fuel hf
    obtain ⟨f, rfl⟩ : ∃ f, fuel = f + 1 := ⟨fuel - 1, by omega⟩
    rw [skipLoop]
    have hkey : (List.replicate (j + 1) 97 ++ [99] : List Nat) =
        97 :: (List.replicate j 97 ++ [99]) := by
      simp [List.replicate_succ]
    have hcond : (decide (0 < (List.replicate (j + 1) 97 ++ [99] : List Nat).length) &&
        isCharCommonPref (c4tail (j + 1))
          ((List.replicate (j + 1) 97 ++ [99]).getD 0 0) 0) = true := by
      rw [hkey]
      simp only [List.getD_cons_zero, List.length_cons, Bool.and_eq_true, decide_eq_true_eq]
      refine ⟨by omega, ?_⟩
      rw [c4tail_succ]
      simp [isCharCommonPref, consLevel, Builder.height]
    rw [if_pos hcond]
    have hset : setCI (c4tail (j + 1)) 0 (decPos ((c4tail (j + 1)).numItems 0)) =
        c4tail (j + 1) := by
      rw [c4tail_succ]
      simp [setCI, consLevel, Builder.numItems, decPos, setBitW, bitOK, kMsbMask, kWordSize,
        List.set]
    rw [hset, hkey, c4tail_succ, skipLoop_shift]
    rw [ih f (by omega), ← c4tail_succ]

theorem c4insert1 :
    insertKeyBytesToTrieUntilUnique (mkBuilder true 1) c4k1 0 c4k2 0 = (c4tail 129, 130) := by
  rw [insertKeyBytesToTrieUntilUnique]
  have h1 : insertKeyByte
      { mkBuilder true 1 with
        assertsOk := (mkBuilder true 1).assertsOk && decide (0 < c4k1.length) }
      (c4k1.getD 0 0) 0
      (isLevelEmpty
        { mkBuilder true 1 with
          assertsOk := (mkBuilder true 1).assertsOk && decide (0 < c4k1.length) } 0)
      false = c4one := by decide
  simp only [h1]
  have hc : (decide (0 + 1 > c4k2.length) ||
      !decide (c4k1.take (0 + 1) = c4k2.take (0 + 1))) = false := by decide
  rw [hc]
  simp only [Bool.false_eq_true, if_false]
  have hlen : c4k1.length = 130 := by decide
  rw [hlen]
  have hk1 : c4k1 = List.replicate 129 97 ++ [98] := rfl
  have hk2 : c4k2 = List.replicate 129 97 ++ [99] := rfl
  rw [hk1, hk2, c4insChain 129 (by omega) 130 (by omega)]
  decide


end FST
namespace FST

theorem c4sparse : buildSparse (mkBuilder true 1) c4keys = c4final := by
  rw [buildSparse]
  have hlen : c4keys.length = 2 := rfl
  rw [hlen]
  rw [buildSparseLoop, if_pos (by decide)]
  simp only []
  have hk : c4keys.getD 0 [] = c4k1 := rfl
  rw [hk]
  have hskip1 : skipCommonPref (mkBuilder true 1) c4k1 = (mkBuilder true 1, 0) := by decide
  rw [hskip1]
  have hrun : countRun c4k1 (c4keys.drop (0 + 1)) = 0 := by decide
  rw [hrun]
  rw [if_pos (by decide)]
  have hk2 : c4keys.getD (0 + 0 + 1) [] = c4k2 := rfl
  rw [hk2, c4insert1]
  rw [buildSparseLoop, if_pos (by decide)]
  simp only []
  have hk3 : c4keys.getD (0 + 0 + 1) [] = c4k2 := rfl
  rw [hk3]
  have hskip2 : skipCommonPref (c4tail 129) c4k2 = (c4tail 129, 129) := by
    rw [skipCommonPref]
    have h1 : c4k2.length = 130 := by decide
    have h2 : c4k2 = List.replicate 129 97 ++ [99] := rfl
    rw [h1, h2, c4skipChain 129 130 (by omega)]
  rw [hskip2]
  have hrun2 : countRun c4k2 (c4keys.drop (0 + 0 + 1 + 1)) = 0 := rfl
  rw [hrun2]
  rw [if_neg (by decide)]
  have hins2 : insertKeyBytesToTrieUntilUnique (c4tail 129) c4k2 (0 + 0 + 1) [] 129 =
      (c4final, 130) := by decide
  rw [hins2]
  rfl

theorem c4build : runBuild true 1 c4keys = buildDense (determineCutoffLevel c4final) := by
  rw [runBuild, build]
  have h1 : { mkBuilder true 1 with
      assertsOk := (mkBuilder true 1).assertsOk && decide (c4keys.length > 0) } =
      mkBuilder true 1 := by decide
  rw [h1, c4sparse]
  rw [if_pos (by decide)]

/-- Claim C4 (counterexample): on the two-key input `c4keys` — two
130-byte keys sharing a 129-byte common prefix of `'a'` bytes and
differing in their last byte (`'b'` vs `'c'`) — the build with ratio 1
produces a 130-level trie on which `determineCutoffLevel` stops at
level 1 while the claim's formula with ceiling divisions first fails at
level 2: the source divides `node_counts_[level-1] / 8` and
`2 * num_items / 8` with truncation, so the memory estimates differ and
so does the resulting `sparse_start_level`. -/
theorem c4_counterexample :
    (runBuild true 1 c4keys).sparse_start_level = 1 ∧
    specCutoff (runBuild true 1 c4keys) 1 = 2 ∧
    (runBuild true 1 c4keys).sparse_start_level ≠ specCutoff (runBuild true 1 c4keys) 1 := by
  rw [c4build]
  refine ⟨by decide, by decide, by decide⟩

end FST
namespace FST

theorem cfg_insertKeyByte (b : Builder) (c l : Nat) (st tm : Bool) :
    ((insertKeyByte b c l st tm).include_dense,
      (insertKeyByte b c l st tm).sparse_dense_ratio,
      (insertKeyByte b c l st tm).sparse_start_level,
      (insertKeyByte b c l st tm).positions_sparse,
      (insertKeyByte b c l st tm).positions_dense) =
    (b.include_dense, b.sparse_dense_ratio, b.sparse_start_level,
      b.positions_sparse, b.positions_dense) := by
  have hm : ∀ b2 : Builder, ((moveToNextItemSlot b2 l).include_dense = b2.include_dense) ∧
      ((moveToNextItemSlot b2 l).sparse_dense_ratio = b2.sparse_dense_ratio) ∧
      ((moveToNextItemSlot b2 l).sparse_start_level = b2.sparse_start_level) ∧
      ((moveToNextItemSlot b2 l).positions_sparse = b2.positions_sparse) ∧
      ((moveToNextItemSlot b2 l).positions_dense = b2.positions_dense) := by
    intro b2; rw [moveToNextItemSlot]; split_ifs <;> exact ⟨rfl, rfl, rfl, rfl, rfl⟩
  have hb : ∀ b2 : Builder, ((maybeBump b2 l st).include_dense = b2.include_dense) ∧
      ((maybeBump b2 l st).sparse_dense_ratio = b2.sparse_dense_ratio) ∧
      ((maybeBump b2 l st).sparse_start_level = b2.sparse_start_level) ∧
      ((maybeBump b2 l st).positions_sparse = b2.positions_sparse) ∧
      ((maybeBump b2 l st).positions_dense = b2.positions_dense) := by
    intro b2; rw [maybeBump]; cases st
    · exact ⟨rfl, rfl, rfl, rfl, rfl⟩
    · simp only [if_true]; exact ⟨rfl, rfl, rfl, rfl, rfl⟩
  have hp : ∀ b2 : Builder, ((maybeParent b2 l).include_dense = b2.include_dense) ∧
      ((maybeParent b2 l).sparse_dense_ratio = b2.sparse_dense_ratio) ∧
      ((maybeParent b2 l).sparse_start_level = b2.sparse_start_level) ∧
      ((maybeParent b2 l).positions_sparse = b2.positions_sparse) ∧
      ((maybeParent b2 l).positions_dense = b2.positions_dense) := by
    intro b2; rw [maybeParent]; split_ifs <;> exact ⟨rfl, rfl, rfl, rfl, rfl⟩
  have ha : ∀ b2 : Builder, ((maybeAddLevel b2 l).include_dense = b2.include_dense) ∧
      ((maybeAddLevel b2 l).sparse_dense_ratio = b2.sparse_dense_ratio) ∧
      ((maybeAddLevel b2 l).sparse_start_level = b2.sparse_start_level) ∧
      ((maybeAddLevel b2 l).positions_sparse = b2.positions_sparse) ∧
      ((maybeAddLevel b2 l).positions_dense = b2.positions_dense) := by
    intro b2; rw [maybeAddLevel]; split_ifs <;> exact ⟨rfl, rfl, rfl, rfl, rfl⟩
  have ht : ∀ b2 : Builder, ((setTermFlag b2 l tm).include_dense = b2.include_dense) ∧
      ((setTermFlag b2 l tm).sparse_dense_ratio = b2.sparse_dense_ratio) ∧
      ((setTermFlag b2 l tm).sparse_start_level = b2.sparse_start_level) ∧
      ((setTermFlag b2 l tm).positions_sparse = b2.positions_sparse) ∧
      ((setTermFlag b2 l tm).positions_dense = b2.positions_dense) :=
    fun _ => ⟨rfl, rfl, rfl, rfl, rfl⟩
  have hpl : ∀ b2 : Builder, ((pushLabel b2 c l).include_dense = b2.include_dense) ∧
      ((pushLabel b2 c l).sparse_dense_ratio = b2.sparse_dense_ratio) ∧
      ((pushLabel b2 c l).sparse_start_level = b2.sparse_start_level) ∧
      ((pushLabel b2 c l).positions_sparse = b2.positions_sparse) ∧
      ((pushLabel b2 c l).positions_dense = b2.positions_dense) :=
    fun _ => ⟨rfl, rfl, rfl, rfl, rfl⟩
  have hr : ∀ b2 : Builder, ((recordInsAssert b2 l).include_dense = b2.include_dense) ∧
      ((recordInsAssert b2 l).sparse_dense_ratio = b2.sparse_dense_ratio) ∧
      ((recordInsAssert b2 l).sparse_start_level = b2.sparse_start_level) ∧
      ((recordInsAssert b2 l).positions_sparse = b2.positions_sparse) ∧
      ((recordInsAssert b2 l).positions_dense = b2.positions_dense) :=
    fun _ => ⟨rfl, rfl, rfl, rfl, rfl⟩
  rw [insertKeyByte]
  simp only [(hm _).1, (hm _).2.1, (hm _).2.2.1, (hm _).2.2.2.1, (hm _).2.2.2.2,
    (hb _).1, (hb _).2.1, (hb _).2.2.1, (hb _).2.2.2.1, (hb _).2.2.2.2,
    (hp _).1, (hp _).2.1, (hp _).2.2.1, (hp _).2.2.2.1, (hp _).2.2.2.2,
    (ha _).1, (ha _).2.1, (ha _).2.2.1, (ha _).2.2.2.1, (ha _).2.2.2.2,
    (ht _).1, (ht _).2.1, (ht _).2.2.1, (ht _).2.2.2.1, (ht _).2.2.2.2,
    (hpl _).1, (hpl _).2.1, (hpl _).2.2.1, (hpl _).2.2.2.1, (hpl _).2.2.2.2,
    (hr _).1, (hr _).2.1, (hr _).2.2.1, (hr _).2.2.2.1, (hr _).2.2.2.2]

theorem cfg_skipLoop (key : List Nat) :
    ∀ (fuel : Nat) (b : Builder) (level : Nat),
    (((skipLoop key fuel b level).1.include_dense,
      (skipLoop key fuel b level).1.sparse_dense_ratio,
      (skipLoop key fuel b level).1.sparse_start_level,
      (skipLoop key fuel b level).1.positions_sparse,
      (skipLoop key fuel b level).1.positions_dense) =
    (b.include_dense, b.sparse_dense_ratio, b.sparse_start_level,
      b.positions_sparse, b.positions_dense))
  | 0, b, level => rfl
  | fuel + 1, b, level => by
    rw [skipLoop]
    split_ifs with h
    · exact cfg_skipLoop key fuel _ (level + 1)
    · rfl

theorem cfg_insLoop (key next : List Nat) :
    ∀ (fuel : Nat) (b : Builder) (level : Nat),
    (((insLoop key next fuel b level).1.include_dense,
      (insLoop key next fuel b level).1.sparse_dense_ratio,
      (insLoop key next fuel b level).1.sparse_start_level,
      (insLoop key next fuel b level).1.positions_sparse,
      (insLoop key next fuel b level).1.positions_dense) =
    (b.include_dense, b.sparse_dense_ratio, b.sparse_start_level,
      b.positions_sparse, b.positions_dense))
  | 0, b, level => rfl
  | fuel + 1, b, level => by
    rw [insLoop]
    split_ifs with h
    · rw [cfg_insLoop key next fuel _ (level + 1), cfg_insertKeyByte]
    · rfl

theorem cfg_insertUnique (b : Builder) (key : List Nat) (pos : Nat) (next : List Nat)
    (sl : Nat) :
    (((insertKeyBytesToTrieUntilUnique b key pos next sl).1.include_dense,
      (insertKeyBytesToTrieUntilUnique b key pos next sl).1.sparse_dense_ratio,
      (insertKeyBytesToTrieUntilUnique b key pos next sl).1.sparse_start_level,
      (insertKeyBytesToTrieUntilUnique b key pos next sl).1.positions_sparse,
      (insertKeyBytesToTrieUntilUnique b key pos next sl).1.positions_dense) =
    (b.include_dense, b.sparse_dense_ratio, b.sparse_start_level,
      b.positions_sparse, b.positions_dense)) := by
  rw [insertKeyBytesToTrieUntilUnique]
  split_ifs with h
  · show ((insertKeyByte _ _ _ _ _).include_dense, _, _, _, _) = _
    rw [cfg_insertKeyByte]
  · show ((insLoop _ _ _ _ _).1.include_dense, _, _, _, _) = _
    rw [cfg_insLoop, cfg_insertKeyByte]

theorem cfg_buildSparseLoop (keys : List (List Nat)) :
    ∀ (fuel : Nat) (b : Builder) (i : Nat),
    (((buildSparseLoop keys fuel b i).1.include_dense,
      (buildSparseLoop keys fuel b i).1.sparse_dense_ratio,
      (buildSparseLoop keys fuel b i).1.sparse_start_level,
      (buildSparseLoop keys fuel b i).1.positions_sparse,
      (buildSparseLoop keys fuel b i).1.positions_dense) =
    (b.include_dense, b.sparse_dense_ratio, b.sparse_start_level,
      b.positions_sparse, b.positions_dense))
  | 0, b, i => rfl
  | fuel + 1, b, i => by
    rw [buildSparseLoop]
    by_cases h : i < keys.length
    · rw [if_pos h]
      simp only []
      rw [cfg_buildSparseLoop keys fuel _ _]
      by_cases h2 : i + countRun (keys.getD i []) (List.drop (i + 1) keys) < keys.length - 1
      · rw [if_pos h2, cfg_insertUnique]
        simp only [skipCommonPref]
        rw [cfg_skipLoop]
      · rw [if_neg h2, cfg_insertUnique]
        simp only [skipCommonPref]
        rw [cfg_skipLoop]
    · rw [if_neg h]

end FST
namespace FST

theorem sparse_setLCIB (b : Builder) (l n p : Nat) :
    ((setLabelAndChildIndicatorBitmap b l n p).labels,
      (setLabelAndChildIndicatorBitmap b l n p).node_counts,
      (setLabelAndChildIndicatorBitmap b l n p).louds_bits,
      (setLabelAndChildIndicatorBitmap b l n p).child_indicator_bits,
      (setLabelAndChildIndicatorBitmap b l n p).sparse_start_level,
      (setLabelAndChildIndicatorBitmap b l n p).sparse_dense_ratio,
      (setLabelAndChildIndicatorBitmap b l n p).positions_sparse,
      (setLabelAndChildIndicatorBitmap b l n p).positions_dense,
      (setLabelAndChildIndicatorBitmap b l n p).assertsOk,
      (setLabelAndChildIndicatorBitmap b l n p).is_last_item_terminator) =
    (b.labels, b.node_counts, b.louds_bits, b.child_indicator_bits,
      b.sparse_start_level, b.sparse_dense_ratio, b.positions_sparse,
      b.positions_dense, b.assertsOk, b.is_last_item_terminator) := by
  rw [setLabelAndChildIndicatorBitmap]
  split_ifs <;> rfl

theorem sparse_denseInner (level : Nat) :
    ∀ (fuel : Nat) (b : Builder) (pos nn : Nat),
    ((denseInner level fuel b pos nn).labels,
      (denseInner level fuel b pos nn).node_counts,
      (denseInner level fuel b pos nn).louds_bits,
      (denseInner level fuel b pos nn).child_indicator_bits,
      (denseInner level fuel b pos nn).sparse_start_level,
      (denseInner level fuel b pos nn).sparse_dense_ratio,
      (denseInner level fuel b pos nn).positions_sparse,
      (denseInner level fuel b pos nn).positions_dense,
      (denseInner level fuel b pos nn).assertsOk,
      (denseInner level fuel b pos nn).is_last_item_terminator) =
    (b.labels, b.node_counts, b.louds_bits, b.child_indicator_bits,
      b.sparse_start_level, b.sparse_dense_ratio, b.positions_sparse,
      b.positions_dense, b.assertsOk, b.is_last_item_terminator)
  | 0, b, pos, nn => rfl
  | fuel + 1, b, pos, nn => by
    rw [denseInner]
    simp only []
    split_ifs with h1 h2 h3
    · rw [sparse_denseInner level fuel _ _ _]
      rfl
    · rw [sparse_denseInner level fuel _ _ _, sparse_setLCIB]
      rfl
    · rw [sparse_denseInner level fuel _ _ _, sparse_setLCIB]
      rfl
    · rfl

theorem sparse_denseLevel (b : Builder) (level : Nat) :
    ((denseLevel b level).labels, (denseLevel b level).node_counts,
      (denseLevel b level).louds_bits, (denseLevel b level).child_indicator_bits,
      (denseLevel b level).sparse_start_level, (denseLevel b level).sparse_dense_ratio,
      (denseLevel b level).positions_sparse, (denseLevel b level).positions_dense,
      (denseLevel b level).assertsOk,
      (denseLevel b level).is_last_item_terminator) =
    (b.labels, b.node_counts, b.louds_bits, b.child_indicator_bits,
      b.sparse_start_level, b.sparse_dense_ratio, b.positions_sparse,
      b.positions_dense, b.assertsOk, b.is_last_item_terminator) := by
  rw [denseLevel]
  simp only []
  split_ifs with h1 h2
  · rfl
  · rw [sparse_denseInner]
    rfl
  · rw [sparse_denseInner, sparse_setLCIB]
    rfl

theorem sparse_denseLevels :
    ∀ (fuel : Nat) (b : Builder) (level : Nat),
    ((denseLevels fuel b level).labels, (denseLevels fuel b level).node_counts,
      (denseLevels fuel b level).louds_bits, (denseLevels fuel b level).child_indicator_bits,
      (denseLevels fuel b level).sparse_start_level,
      (denseLevels fuel b level).sparse_dense_ratio,
      (denseLevels fuel b level).positions_sparse, (denseLevels fuel b level).positions_dense,
      (denseLevels fuel b level).assertsOk,
      (denseLevels fuel b level).is_last_item_terminator) =
    (b.labels, b.node_counts, b.louds_bits, b.child_indicator_bits,
      b.sparse_start_level, b.sparse_dense_ratio, b.positions_sparse,
      b.positions_dense, b.assertsOk, b.is_last_item_terminator)
  | 0, b, level => rfl
  | fuel + 1, b, level => by
    rw [denseLevels]
    split_ifs with h
    · rw [sparse_denseLevels fuel _ _, sparse_denseLevel]
    · rfl

theorem sparse_buildDense (b : Builder) :
    ((buildDense b).labels, (buildDense b).node_counts,
      (buildDense b).louds_bits, (buildDense b).child_indicator_bits,
      (buildDense b).sparse_start_level, (buildDense b).sparse_dense_ratio,
      (buildDense b).positions_sparse, (buildDense b).positions_dense,
      (buildDense b).assertsOk,
      (buildDense b).is_last_item_terminator) =
    (b.labels, b.node_counts, b.louds_bits, b.child_indicator_bits,
      b.sparse_start_level, b.sparse_dense_ratio, b.positions_sparse,
      b.positions_dense, b.assertsOk, b.is_last_item_terminator) := by
  rw [buildDense, sparse_denseLevels]

theorem cutoffLoop_least (b : Builder) (R : Nat) :
    ∀ (fuel L : Nat), b.height + 1 - L ≤ fuel →
    (∀ L2, L ≤ L2 → L2 < cutoffLoop b R fuel L →
      L2 < b.height ∧ computeDenseMem b L2 * R < computeSparseMem b L2) ∧
    ¬(cutoffLoop b R fuel L < b.height ∧
      computeDenseMem b (cutoffLoop b R fuel L) * R <
        computeSparseMem b (cutoffLoop b R fuel L)) ∧
    L ≤ cutoffLoop b R fuel L
  | 0, L, hf => by
    rw [cutoffLoop]
    refine ⟨fun L2 h1 h2 => absurd h2 (by omega), fun hcon => ?_, le_refl _⟩
    omega
  | fuel + 1, L, hf => by
    rw [cutoffLoop]
    split_ifs with h
    · have ih := cutoffLoop_least b R fuel (L + 1) (by omega)
      refine ⟨fun L2 h1 h2 => ?_, ih.2.1, by omega⟩
      rcases Nat.eq_or_lt_of_le h1 with rfl | hlt
      · exact h
      · exact ih.1 L2 (by omega) h2
    · exact ⟨fun L2 h1 h2 => absurd h2 (by omega), h, le_refl _⟩

end FST
namespace FST

theorem computeDenseMem_congr (a b : Builder) (h : a.node_counts = b.node_counts) (L : Nat) :
    computeDenseMem a L = computeDenseMem b L := by
  simp [computeDenseMem, h]

theorem computeSparseMem_congr (a b : Builder) (h : a.labels = b.labels) (L : Nat) :
    computeSparseMem a L = computeSparseMem b L := by
  simp [computeSparseMem, Builder.numItems, Builder.height, h]

/-- Claim C4 (amended): for every build with `include_dense = true` and
ratio R, `sparse_start_level` is the first L (scanning 0, 1, ...) at
which not both L < height and `computeDenseMem(L) * R <
computeSparseMem(L)` hold, where both memory formulas use the source's
truncating divisions (`node_counts[l-1] / 8 + 1` and
`2 * num_items / 8`): every smaller L satisfies the predicate and L
itself does not. -/
theorem c4_theorem (R : Nat) (keys : List (List Nat)) :
    (∀ L, L < (runBuild true R keys).sparse_start_level →
      L < (runBuild true R keys).height ∧
      computeDenseMem (runBuild true R keys) L * R <
        computeSparseMem (runBuild true R keys) L) ∧
    ¬((runBuild true R keys).sparse_start_level < (runBuild true R keys).height ∧
      computeDenseMem (runBuild true R keys)
          ((runBuild true R keys).sparse_start_level) * R <
        computeSparseMem (runBuild true R keys)
          ((runBuild true R keys).sparse_start_level)) := by
  have hcfg := cfg_buildSparseLoop keys keys.length
    { mkBuilder true R with
      assertsOk := (mkBuilder true R).assertsOk && decide (keys.length > 0) } 0
  simp only [Prod.mk.injEq] at hcfg
  obtain ⟨hinc, hrat, hssl, hcps, hcpd⟩ := hcfg
  have hB : runBuild true R keys =
      buildDense (determineCutoffLevel (buildSparse
        { mkBuilder true R with
          assertsOk := (mkBuilder true R).assertsOk && decide (keys.length > 0) } keys)) := by
    rw [runBuild, build]
    simp only []
    have hx : (buildSparse
        { mkBuilder true R with
          assertsOk := (mkBuilder true R).assertsOk && decide (keys.length > 0) }
        keys).include_dense = true := by
      rw [buildSparse]; exact hinc
    rw [hx, if_pos rfl]
  set b2 := buildSparse
    { mkBuilder true R with
      assertsOk := (mkBuilder true R).assertsOk && decide (keys.length > 0) } keys with hb2
  have hsp := sparse_buildDense (determineCutoffLevel b2)
  simp only [Prod.mk.injEq] at hsp
  obtain ⟨hl, hn, _, _, hs, _⟩ := hsp
  have hdl : (determineCutoffLevel b2).labels = b2.labels := rfl
  have hdn : (determineCutoffLevel b2).node_counts = b2.node_counts := rfl
  have hds : (determineCutoffLevel b2).sparse_start_level =
      cutoffLoop b2 b2.sparse_dense_ratio (b2.height + 1) 0 := rfl
  have hlab : (runBuild true R keys).labels = b2.labels := by rw [hB, hl, hdl]
  have hnc : (runBuild true R keys).node_counts = b2.node_counts := by rw [hB, hn, hdn]
  have hssl2 : (runBuild true R keys).sparse_start_level =
      cutoffLoop b2 R (b2.height + 1) 0 := by
    rw [hB, hs, hds]
    have : b2.sparse_dense_ratio = R := by
      rw [hb2, buildSparse]; exact hrat
    rw [this]
  have hh : (runBuild true R keys).height = b2.height := by
    simp only [Builder.height, hlab]
  have hkey := cutoffLoop_least b2 R (b2.height + 1) 0 (by omega)
  have hdm : ∀ L, computeDenseMem (runBuild true R keys) L = computeDenseMem b2 L :=
    fun L => computeDenseMem_congr _ _ hnc L
  have hsm : ∀ L, computeSparseMem (runBuild true R keys) L = computeSparseMem b2 L :=
    fun L => computeSparseMem_congr _ _ hlab L
  constructor
  · intro L hL
    rw [hssl2] at hL
    have := hkey.1 L (by omega) hL
    rw [hh, hdm, hsm]
    exact this
  · rw [hssl2, hh, hdm, hsm]
    exact hkey.2.1

end FST
namespace FST

theorem getD_length_append {α : Type} (l : List α) (a d : α) (rest : List α) :
    (l ++ a :: rest).getD l.length d = a := by
  induction l with
  | nil => rfl
  | cons x xs ih => simpa using ih

theorem getD_set_false (xs : List Bool) :
    ∀ (i : Nat), (∀ l, xs.getD l false = false) →
    ∀ l, (xs.set i false).getD l false = false := by
  induction xs with
  | nil => intro i _ l; simp
  | cons x ys ih =>
    intro i h l
    cases i with
    | zero =>
      cases l with
      | zero => simp
      | succ l2 => simpa using h (l2 + 1)
    | succ i2 =>
      cases l with
      | zero => simpa using h 0
      | succ l2 =>
        simp only [List.set]
        simpa using ih i2 (fun l3 => by simpa using h (l3 + 1)) l2

theorem getD_append_false (xs : List Bool) (h : ∀ l, xs.getD l false = false) :
    ∀ l, (xs ++ [false]).getD l false = false := by
  intro l
  by_cases hl : l < xs.length
  · rw [List.getD_append _ _ _ _ hl]
    exact h l
  · rcases Nat.lt_or_ge l (xs.length + 1) with h2 | h2
    · have : l = xs.length := by omega
      subst this
      simp [getD_length_append]
    · rw [List.getD_eq_default]
      simp
      omega

theorem termsFalse_insertKeyByte (b : Builder) (c level : Nat) (st : Bool)
    (h : ∀ l, b.is_last_item_terminator.getD l false = false) :
    ∀ l, (insertKeyByte b c level st false).is_last_item_terminator.getD l false = false := by
  rw [insertKeyByte]
  have h1 : ∀ b2 : Builder,
      (moveToNextItemSlot b2 level).is_last_item_terminator = b2.is_last_item_terminator := by
    intro b2; rw [moveToNextItemSlot]; split_ifs <;> rfl
  have h3 : ∀ b2 : Builder,
      (maybeBump b2 level st).is_last_item_terminator = b2.is_last_item_terminator := by
    intro b2; rw [maybeBump]; cases st
    · rfl
    · simp only [if_true]; rfl
  have h5 : ∀ b2 : Builder,
      (maybeParent b2 level).is_last_item_terminator = b2.is_last_item_terminator := by
    intro b2; rw [maybeParent]; split_ifs <;> rfl
  simp only [h1, setTermFlag, h3, pushLabel, h5, recordInsAssert]
  intro l
  apply getD_set_false
  rw [maybeAddLevel]
  split_ifs with h7
  · intro l2
    show ((b.is_last_item_terminator ++ [false]).getD l2 false) = false
    exact getD_append_false _ h l2
  · exact h

theorem termsFalse_skipLoop (key : List Nat) :
    ∀ (fuel : Nat) (b : Builder) (level : Nat),
    (skipLoop key fuel b level).1.is_last_item_terminator = b.is_last_item_terminator
  | 0, b, level => rfl
  | fuel + 1, b, level => by
    rw [skipLoop]
    split_ifs with h
    · rw [termsFalse_skipLoop key fuel _ (level + 1)]
      rfl
    · rfl

theorem termsFalse_insLoop (key next : List Nat) :
    ∀ (fuel : Nat) (b : Builder) (level : Nat),
    (∀ l, b.is_last_item_terminator.getD l false = false) →
    ∀ l, (insLoop key next fuel b level).1.is_last_item_terminator.getD l false = false
  | 0, b, level, h => h
  | fuel + 1, b, level, h => by
    rw [insLoop]
    split_ifs with hc
    · exact termsFalse_insLoop key next fuel _ (level + 1)
        (termsFalse_insertKeyByte _ _ _ _ h)
    · exact h

theorem termsFalse_insertUnique (b : Builder) (key : List Nat) (pos : Nat)
    (next : List Nat) (sl : Nat)
    (h : ∀ l, b.is_last_item_terminator.getD l false = false) :
    ∀ l, (insertKeyBytesToTrieUntilUnique b key pos next sl).1.is_last_item_terminator.getD
      l false = false := by
  rw [insertKeyBytesToTrieUntilUnique]
  split_ifs with hc
  · show ∀ l, (insertKeyByte _ _ _ _ _).is_last_item_terminator.getD l false = false
    exact termsFalse_insertKeyByte _ _ _ _ h
  · show ∀ l, (insLoop _ _ _ _ _).1.is_last_item_terminator.getD l false = false
    exact termsFalse_insLoop _ _ _ _ _ (termsFalse_insertKeyByte _ _ _ _ h)

theorem termsFalse_buildSparseLoop (keys : List (List Nat)) :
    ∀ (fuel : Nat) (b : Builder) (i : Nat),
    (∀ l, b.is_last_item_terminator.getD l false = false) →
    ∀ l, (buildSparseLoop keys fuel b i).1.is_last_item_terminator.getD l false = false
  | 0, b, i, h => h
  | fuel + 1, b, i, h => by
    rw [buildSparseLoop]
    by_cases hc : i < keys.length
    · rw [if_pos hc]
      simp only []
      split_ifs with h2
      · refine termsFalse_buildSparseLoop keys fuel _ _ ?_
        refine termsFalse_insertUnique _ _ _ _ _ ?_
        intro l
        rw [show (skipCommonPref b (keys.getD i [])).1.is_last_item_terminator =
          b.is_last_item_terminator from termsFalse_skipLoop _ _ _ _]
        exact h l
      · refine termsFalse_buildSparseLoop keys fuel _ _ ?_
        refine termsFalse_insertUnique _ _ _ _ _ ?_
        intro l
        rw [show (skipCommonPref b (keys.getD i [])).1.is_last_item_terminator =
          b.is_last_item_terminator from termsFalse_skipLoop _ _ _ _]
        exact h l
    · rw [if_neg hc]
      exact h

/-- The builder never records a terminator: `is_last_item_terminator` stays
everywhere `false` during any build. -/
theorem termsFalse_runBuild (dense : Bool) (ratio : Nat) (keys : List (List Nat)) :
    ∀ l, (runBuild dense ratio keys).is_last_item_terminator.getD l false = false := by
  intro l
  rw [runBuild, build]
  split_ifs with hc
  · have hsp := sparse_buildDense (determineCutoffLevel (buildSparse
      { mkBuilder dense ratio with
        assertsOk := (mkBuilder dense ratio).assertsOk && decide (keys.length > 0) } keys))
    simp only [Prod.mk.injEq] at hsp
    rw [hsp.2.2.2.2.2.2.2.2.2]
    show (buildSparse _ keys).is_last_item_terminator.getD l false = false
    rw [buildSparse]
    exact termsFalse_buildSparseLoop keys keys.length _ 0 (fun _ => by simp [mkBuilder]) l
  · rw [buildSparse]
    exact termsFalse_buildSparseLoop keys keys.length _ 0 (fun _ => by simp [mkBuilder]) l

end FST
namespace FST

/-- Claim C1 (counterexample): for keys ["a", "ab"] the builder emits no
terminator slot at level 1 and never records `is_last_item_terminator`:
level 1 holds the single label 'b' = 98 (not the reserved terminator 255)
with its LOUDS bit set, and the terminator flags stay all false — contrary
to the claimed terminator slot followed by a LOUDS-unset 'b'. -/
theorem c1_counterexample :
    (runBuild false 0 [[97], [97, 98]]).labels.getD 1 [] = [98] ∧
    (runBuild false 0 [[97], [97, 98]]).labels.getD 1 [] ≠ [kTerminator, 98] ∧
    readBit ((runBuild false 0 [[97], [97, 98]]).louds_bits.getD 1 []) 0 = true ∧
    (runBuild false 0 [[97], [97, 98]]).is_last_item_terminator = [false, false] := by
  refine ⟨by decide, by decide, by decide, by decide⟩

/-- Claim C1 (amended): the builder inserts key bytes only until unique and
never emits a terminator slot: over every build, every entry of
`is_last_item_terminator` is false; for keys ["a", "ab"] the key "a"
contributes the level-0 slot 'a' (child indicator set) and "ab" the
level-1 node-start slot 'b', with positions [[0], [1]]. -/
theorem c1_theorem :
    (∀ (dense : Bool) (ratio : Nat) (keys : List (List Nat)) (l : Nat),
      (runBuild dense ratio keys).is_last_item_terminator.getD l false = false) ∧
    (runBuild false 0 [[97], [97, 98]]).labels = [[97], [98]] ∧
    (runBuild false 0 [[97], [97, 98]]).louds_bits = [[kMsbMask], [kMsbMask]] ∧
    (runBuild false 0 [[97], [97, 98]]).child_indicator_bits = [[kMsbMask], [0]] ∧
    (runBuild false 0 [[97], [97, 98]]).positions = [[0], [1]] ∧
    (runBuild false 0 [[97], [97, 98]]).node_counts = [1, 1] := by
  refine ⟨fun dense ratio keys l => termsFalse_runBuild dense ratio keys l,
    by decide, by decide, by decide, by decide, by decide⟩

/-- Claim C2 (counterexample): for keys = ["a"] with `include_dense = false`
the built artifact has `positions_sparse = []`, not `[0]`: the recorded
ranks stay in `positions_`, which is only split into the dense/sparse
outputs by `determineCutoffLevel`, and that is skipped entirely when
`include_dense` is false. -/
theorem c2_counterexample :
    (runBuild false 0 [[97]]).positions_sparse = [] ∧
    (runBuild false 0 [[97]]).positions_sparse ≠ [0] := by
  refine ⟨by decide, by decide⟩

/-- Claim C2 (amended): with `include_dense = false`, after every build
`sparse_start_level = 0` and `positions_sparse` is empty (the per-level
ranks remain in the intermediate `positions_` vector); for keys = ["a"]
the sparse vectors are as the spec's S1 describes but the rank 0 sits in
`positions = [[0]]`, while a dense-enabled build does move it into the
split position outputs. -/
theorem c2_theorem :
    (∀ (ratio : Nat) (keys : List (List Nat)),
      (runBuild false ratio keys).sparse_start_level = 0 ∧
      (runBuild false ratio keys).positions_sparse = []) ∧
    (runBuild false 0 [[97]]).labels = [[97]] ∧
    (runBuild false 0 [[97]]).louds_bits = [[kMsbMask]] ∧
    (runBuild false 0 [[97]]).child_indicator_bits = [[0]] ∧
    (runBuild false 0 [[97]]).positions = [[0]] ∧
    (runBuild true 1 [[97]]).positions_dense = [0] := by
  refine ⟨?_, by decide, by decide, by decide, by decide, by decide⟩
  intro ratio keys
  have hcfg := cfg_buildSparseLoop keys keys.length
    { mkBuilder false ratio with
      assertsOk := (mkBuilder false ratio).assertsOk && decide (keys.length > 0) } 0
  simp only [Prod.mk.injEq] at hcfg
  obtain ⟨hinc, _, hssl, hcps, _⟩ := hcfg
  have hB : runBuild false ratio keys =
      buildSparse
        { mkBuilder false ratio with
          assertsOk := (mkBuilder false ratio).assertsOk && decide (keys.length > 0) } keys := by
    rw [runBuild, build]
    simp only []
    have hx : (buildSparse
        { mkBuilder false ratio with
          assertsOk := (mkBuilder false ratio).assertsOk && decide (keys.length > 0) }
        keys).include_dense = false := by
      rw [buildSparse]; exact hinc
    rw [hx]
    simp only [Bool.false_eq_true, if_false]
  constructor
  · rw [hB, buildSparse, hssl]
    rfl
  · rw [hB, buildSparse, hcps]
    rfl

/-- Claim C6 (counterexample): on the sole key of length 0 the assertion
`assert(start_level < key.length())` in
`insertKeyBytesToTrieUntilUnique` fails (`0 < 0` is false), and the slot
the subsequent code emits at the root carries the out-of-range byte read
(modelled 0), not the reserved terminator 255. -/
theorem c6_counterexample :
    (runBuild false 0 [[]]).assertsOk = false ∧
    (runBuild false 0 [[]]).labels.getD 0 [] ≠ [kTerminator] := by
  refine ⟨by decide, by decide⟩

/-- Claim C6 (amended): on the sole empty key, build trips the
`start_level < key.length()` assertion; past the assertion it emits one
root slot whose label is the out-of-range read of byte 0 (modelled 0),
with a node-start LOUDS bit, clear child indicator, no terminator flag,
and position 0. -/
theorem c6_theorem :
    (runBuild false 0 [[]]).assertsOk = false ∧
    (runBuild false 0 [[]]).labels = [[0]] ∧
    (runBuild false 0 [[]]).is_last_item_terminator = [false] ∧
    (runBuild false 0 [[]]).positions = [[0]] ∧
    (runBuild false 0 [[]]).louds_bits = [[kMsbMask]] ∧
    (runBuild false 0 [[]]).child_indicator_bits = [[0]] := by
  refine ⟨by decide, by decide, by decide, by decide, by decide, by decide⟩

/-- Claim C7 (code bug): for keys ["aa", "ab", "b", "ba"] the finished
build has two set child-indicator bits at level 0 (both 'a' and 'b' have
children) but `node_counts[1] = 1`: `insertKeyByte` bumps
`node_counts_[level]` only when it also appends a fresh level, so the
level-1 node opened under 'b' at an existing level is never counted and
the claimed invariant `popcount(child_indicator_bits[L-1]) =
node_counts[L]` fails. -/
theorem c7_theorem :
    popcountVec
      ((runBuild false 0 [[97, 97], [97, 98], [98], [98, 97]]).child_indicator_bits.getD 0 [])
      = 2 ∧
    (runBuild false 0 [[97, 97], [97, 98], [98], [98, 97]]).node_counts.getD 1 0 = 1 := by
  refine ⟨by decide, by decide⟩

end FST
namespace FST

theorem buildRuns_nilE (b : Builder) : buildRuns b [] = b := rfl

theorem buildRuns_consE (b : Builder) (k : List Nat) (r : Nat) (k2 : List Nat) (r2 : Nat)
    (rest : List (List Nat × Nat)) :
    buildRuns b ((k, r) :: (k2, r2) :: rest) =
    buildRuns
      (insertKeyBytesToTrieUntilUnique (skipCommonPref b k).1 k r k2 (skipCommonPref b k).2).1
      ((k2, r2) :: rest) := rfl

theorem buildRuns_single (b : Builder) (k : List Nat) (r : Nat) :
    buildRuns b [(k, r)] =
    (insertKeyBytesToTrieUntilUnique (skipCommonPref b k).1 k r [] (skipCommonPref b k).2).1 :=
  rfl

theorem runsFrom_nil (keys : List (List Nat)) (g i : Nat) (h : ¬ i < keys.length) :
    runsFrom keys g i = [] := by
  cases g with
  | zero => rfl
  | succ g2 => rw [runsFrom, if_neg h]

theorem buildSparseLoop_runs (keys : List (List Nat)) (fuel : Nat) :
    ∀ (b : Builder) (i : Nat), keys.length ≤ i + fuel →
      (buildSparseLoop keys fuel b i).1 = buildRuns b (runsFrom keys fuel i) := by
  induction fuel with
  | zero =>
    intro b i h
    rw [buildSparseLoop, runsFrom, buildRuns]
  | succ g ih =>
    intro b i h
    by_cases hik : i < keys.length
    · rw [buildSparseLoop, if_pos hik]
      simp only []
      rw [ih _ (i + countRun (keys.getD i []) (keys.drop (i + 1)) + 1) (by omega)]
      rw [runsFrom, if_pos hik]
      simp only []
      by_cases h2 : i + countRun (keys.getD i []) (keys.drop (i + 1)) + 1 < keys.length
      · obtain ⟨g2, rfl⟩ : ∃ g2, g = g2 + 1 := ⟨g - 1, by omega⟩
        rw [runsFrom, if_pos h2]
        simp only []
        rw [if_pos (by omega :
          i + countRun (keys.getD i []) (keys.drop (i + 1)) < keys.length - 1)]
        rw [buildRuns_consE]
      · rw [runsFrom_nil keys g _ h2]
        rw [buildRuns_nilE, buildRuns_single]
        rw [if_neg (by omega :
          ¬ i + countRun (keys.getD i []) (keys.drop (i + 1)) < keys.length - 1)]
    · rw [buildSparseLoop, if_neg hik, runsFrom, if_neg hik, buildRuns]

/-- Claim C3: adjacent duplicate keys are collapsed.  Universally,
`buildSparse` equals the per-run loop `buildRuns` over the maximal runs of
adjacent equal keys, each run contributing one insertion carrying its
first element's input rank; in particular for keys ["a", "a", "b"] the
trie vectors (labels, LOUDS, child indicators, node counts, terminator
flags) are identical to those of ["a", "b"] and the recorded positions
are the earliest ranks [0, 2]. -/
theorem c3_theorem :
    (∀ (b : Builder) (keys : List (List Nat)),
      buildSparse b keys = buildRuns b (runsFrom keys keys.length 0)) ∧
    (runBuild false 0 [[97], [97], [98]]).labels = (runBuild false 0 [[97], [98]]).labels ∧
    (runBuild false 0 [[97], [97], [98]]).louds_bits = (runBuild false 0 [[97], [98]]).louds_bits ∧
    (runBuild false 0 [[97], [97], [98]]).child_indicator_bits =
      (runBuild false 0 [[97], [98]]).child_indicator_bits ∧
    (runBuild false 0 [[97], [97], [98]]).node_counts =
      (runBuild false 0 [[97], [98]]).node_counts ∧
    (runBuild false 0 [[97], [97], [98]]).is_last_item_terminator =
      (runBuild false 0 [[97], [98]]).is_last_item_terminator ∧
    (runBuild false 0 [[97], [97], [98]]).positions = [[0, 2]] := by
  refine ⟨?_, by decide, by decide, by decide, by decide, by decide, by decide⟩
  intro b keys
  exact buildSparseLoop_runs keys keys.length b 0 (by omega)

end FST
namespace FST

theorem getD_set_of_ne {α : Type} (v : List α) (j q : Nat) (w d : α) (h : q ≠ j) :
    (v.set j w).getD q d = v.getD q d := by
  induction v generalizing j q with
  | nil => rfl
  | cons a tl ih =>
    cases j with
    | zero =>
      cases q with
      | zero => exact absurd rfl h
      | succ q2 => rfl
    | succ j2 =>
      cases q with
      | zero => rfl
      | succ q2 => simpa using ih j2 q2 (fun hc => h (by omega))

theorem getD_set_self {α : Type} (v : List α) (j : Nat) (w d : α) (h : j < v.length) :
    (v.set j w).getD j d = w := by
  induction v generalizing j with
  | nil => simp at h
  | cons a tl ih =>
    cases j with
    | zero => rfl
    | succ j2 => simpa using ih j2 (by simpa using h)

theorem set_append_len {α : Type} (v : List α) (x y : α) :
    (v ++ [x]).set v.length y = v ++ [y] := by
  induction v with
  | nil => rfl
  | cons a tl ih => simp [ih]

theorem getD_append_zero (v : List Nat) (q : Nat) :
    (v ++ [0]).getD q 0 = v.getD q 0 := by
  induction v generalizing q with
  | nil => cases q with | zero => rfl | succ q2 => simp [List.getD]
  | cons a tl ih =>
    cases q with
    | zero => rfl
    | succ q2 => simpa using ih q2

theorem shiftMask (off : Nat) (h : off < 64) : kMsbMask >>> off = 2 ^ (63 - off) := by
  rw [kMsbMask]
  rw [Nat.shiftRight_eq_div_pow]
  rw [Nat.pow_div (by omega) (by omega)]

theorem and_two_pow_ne (w k : Nat) : (w &&& 2 ^ k ≠ 0) ↔ w.testBit k := by
  constructor
  · intro h
    by_contra hb
    apply h
    apply Nat.eq_of_testBit_eq
    intro i
    rw [Nat.testBit_and, Nat.testBit_two_pow, Nat.zero_testBit]
    by_cases hik : k = i
    · subst hik
      simp [Bool.of_not_eq_true hb]
    · simp [hik]
  · intro h
    intro hz
    have := congrArg (fun n => n.testBit k) hz
    simp [Nat.testBit_and, Nat.testBit_two_pow, h] at this

theorem readBit_eq_testBit (v : List Nat) (p : Nat) :
    readBit v p = (v.getD (p / 64) 0).testBit (63 - p % 64) := by
  rw [readBit, kWordSize, shiftMask (p % 64) (Nat.mod_lt p (by omega))]
  have h := and_two_pow_ne (v.getD (p / 64) 0) (63 - p % 64)
  rcases ht : (v.getD (p / 64) 0).testBit (63 - p % 64) with _ | _
  · have hz : v.getD (p / 64) 0 &&& 2 ^ (63 - p % 64) = 0 := by
      by_contra hc
      have h2 := h.mp hc
      rw [ht] at h2
      exact Bool.false_ne_true h2
    rw [hz]
    rfl
  · have hnz := h.mpr (by rw [ht])
    exact decide_eq_true hnz

theorem set_oob {α : Type} (v : List α) (j : Nat) (w : α) (h : v.length ≤ j) :
    v.set j w = v := by
  induction v generalizing j with
  | nil => rfl
  | cons a tl ih =>
    cases j with
    | zero => simp at h
    | succ j2 => simp only [List.set_cons_succ]; rw [ih j2 (by simpa using h)]

theorem wbit_or (w k o : Nat) (ho : o < 64) (hk : k < 64) :
    wbit (w ||| 2 ^ (63 - k)) o = (wbit w o || decide (o = k)) := by
  rw [wbit, wbit, Nat.testBit_or, Nat.testBit_two_pow]
  have : decide (63 - k = 63 - o) = decide (o = k) := by
    rcases Nat.decEq o k with h | h
    · rw [decide_eq_false h, decide_eq_false (fun hc => h (by omega))]
    · rw [decide_eq_true (by omega : 63 - k = 63 - o), decide_eq_true h]
  rw [this]

theorem popcount_or_new (w o : Nat) (ho : o < 64) (hw : wbit w o = false) :
    popcount (w ||| 2 ^ (63 - o)) = popcount w + 1 := by
  rw [popcount, popcount]
  have hset : ((Finset.range 64).filter fun o2 => wbit (w ||| 2 ^ (63 - o)) o2 = true) =
      insert o ((Finset.range 64).filter fun o2 => wbit w o2 = true) := by
    ext i
    simp only [Finset.mem_filter, Finset.mem_insert, Finset.mem_range]
    constructor
    · rintro ⟨hi, hb⟩
      rw [wbit_or w o i hi ho] at hb
      rcases Bool.or_eq_true_iff.mp hb with hb2 | hb2
      · exact Or.inr ⟨hi, hb2⟩
      · exact Or.inl (of_decide_eq_true hb2)
    · rintro (hio | ⟨hi, hb⟩)
      · refine ⟨by omega, ?_⟩
        rw [hio, wbit_or w o o ho ho]
        simp
      · refine ⟨hi, ?_⟩
        rw [wbit_or w o i hi ho, hb]
        rfl
  rw [hset, Finset.card_insert_of_not_mem]
  simp [hw]

theorem popcountVec_set_or (v : List Nat) (j : Nat) (o : Nat) (hj : j < v.length)
    (ho : o < 64) (hw : wbit (v.getD j 0) o = false) :
    popcountVec (v.set j ((v.getD j 0) ||| 2 ^ (63 - o))) = popcountVec v + 1 := by
  induction v generalizing j with
  | nil => simp at hj
  | cons a tl ih =>
    cases j with
    | zero =>
      simp only [List.getD_cons_zero] at hw
      simp only [List.set_cons_zero, List.getD_cons_zero, popcountVec, List.map_cons,
        List.sum_cons]
      rw [popcount_or_new a o ho hw]
      omega
    | succ j2 =>
      simp only [List.getD_cons_succ] at hw
      simp only [List.set_cons_succ, List.getD_cons_succ, popcountVec, List.map_cons,
        List.sum_cons]
      have := ih j2 (by simpa using hj) hw
      rw [popcountVec, popcountVec] at this
      omega

theorem popcount_zeroW : popcount 0 = 0 := by
  rw [popcount]
  rw [Finset.card_eq_zero]
  ext i
  simp [wbit, Nat.zero_testBit]

theorem popcountVec_append_zero (v : List Nat) :
    popcountVec (v ++ [0]) = popcountVec v := by
  rw [popcountVec, popcountVec, List.map_append, List.sum_append]
  simp [popcount_zeroW]

theorem readBit_append_zero (v : List Nat) (p : Nat) :
    readBit (v ++ [0]) p = readBit v p := by
  rw [readBit, readBit, kWordSize, getD_append_zero]

theorem readBit_nilW (p : Nat) : readBit [] p = false := by
  rw [readBit]
  simp [List.getD]

theorem readBit_setBitW_ne (v : List Nat) (p q : Nat) (h : q ≠ p) :
    readBit (setBitW v p) q = readBit v q := by
  by_cases hw : q / 64 = p / 64
  · by_cases hr : p / 64 < v.length
    · rw [readBit_eq_testBit, readBit_eq_testBit, setBitW, kWordSize]
      rw [hw, getD_set_self v (p / 64) _ 0 hr]
      rw [shiftMask (p % 64) (Nat.mod_lt p (by omega))]
      have hqo : q % 64 ≠ p % 64 := by
        intro hc
        exact h (by omega)
      rw [Nat.testBit_or, Nat.testBit_two_pow]
      have : decide (63 - p % 64 = 63 - q % 64) = false := by
        refine decide_eq_false fun hc => hqo ?_
        have h1 : p % 64 < 64 := Nat.mod_lt p (by omega)
        have h2 : q % 64 < 64 := Nat.mod_lt q (by omega)
        omega
      rw [this, Bool.or_false]
    · rw [setBitW, kWordSize, set_oob v _ _ (by omega)]
  · rw [readBit_eq_testBit, readBit_eq_testBit, setBitW, kWordSize]
    rw [getD_set_of_ne v (p / 64) (q / 64) _ 0 hw]

end FST
namespace FST

theorem getD_append_lt {α : Type} (v w : List α) (q : Nat) (d : α) (h : q < v.length) :
    (v ++ w).getD q d = v.getD q d := by
  induction v generalizing q with
  | nil => simp at h
  | cons a tl ih =>
    cases q with
    | zero => rfl
    | succ q2 => simp only [List.cons_append, List.getD_cons_succ]; exact ih q2 (by simpa using h)

theorem getD_append_len {α : Type} (v : List α) (x : α) (d : α) :
    (v ++ [x]).getD v.length d = x := by
  induction v with
  | nil => rfl
  | cons a tl ih => simpa using ih

theorem getD_oob {α : Type} (v : List α) (q : Nat) (d : α) (h : v.length ≤ q) :
    v.getD q d = d := by
  induction v generalizing q with
  | nil => cases q with | zero => rfl | succ q2 => rfl
  | cons a tl ih =>
    cases q with
    | zero => simp at h
    | succ q2 => simp only [List.getD_cons_succ]; exact ih q2 (by simpa using h)

theorem readBit_zeroWord (p : Nat) : readBit [0] p = false := by
  rw [readBit]
  have h0 : ([0] : List Nat).getD (p / kWordSize) 0 = 0 := by
    rcases hq : p / kWordSize with _ | k
    · rfl
    · rfl
  rw [h0]
  simp

theorem loudsOk_mkBuilder (d : Bool) (r : Nat) : loudsOk (mkBuilder d r) := by
  refine ⟨rfl, rfl, fun L => ⟨rfl, fun p _ => ?_, fun h => by simp [mkBuilder] at h⟩⟩
  have : (mkBuilder d r).louds_bits.getD L [] = [] := by
    rcases L with _ | k
    · rfl
    · rfl
  rw [this, readBit_nilW]

theorem loudsOk_congr (a b : Builder) (hl : a.louds_bits = b.louds_bits)
    (hla : a.labels = b.labels) (hn : a.node_counts = b.node_counts) (h : loudsOk b) :
    loudsOk a := by
  unfold loudsOk at h ⊢
  rw [hl, hla, hn]
  exact h

theorem addLevel_louds (b : Builder) (hlen : b.louds_bits.length = b.labels.length) :
    (addLevel b).louds_bits = b.louds_bits ++ [[0]] := by
  rw [addLevel]
  simp only []
  show (b.louds_bits ++ [[]]).set ((b.labels ++ [[]]).length - 1)
      (((b.louds_bits ++ [[]]).getD ((b.labels ++ [[]]).length - 1) []) ++ [0]) =
    b.louds_bits ++ [[0]]
  have hh : (b.labels ++ [[]]).length - 1 = b.louds_bits.length := by
    simp [hlen]
  rw [hh, getD_append_len, set_append_len]
  rfl

theorem addLevel_labels (b : Builder) : (addLevel b).labels = b.labels ++ [[]] := rfl

theorem addLevel_counts (b : Builder) : (addLevel b).node_counts = b.node_counts ++ [0] := rfl

theorem loudsOk_addLevel (b : Builder) (h : loudsOk b) : loudsOk (addLevel b) := by
  obtain ⟨h1, h2, h3⟩ := h
  rw [loudsOk, addLevel_louds b h1, addLevel_labels, addLevel_counts]
  refine ⟨by simp [h1], by simp [h2], fun L => ?_⟩
  rcases Nat.lt_trichotomy L b.labels.length with hL | hL | hL
  · rw [getD_append_lt _ _ _ _ (by omega), getD_append_lt _ _ _ _ (by omega),
      getD_append_lt _ _ _ _ (by omega)]
    obtain ⟨c1, c2, c3⟩ := h3 L
    exact ⟨c1, c2, fun _ => by
      have := c3 hL
      simpa using this⟩
  · subst hL
    rw [← h1, getD_append_len, h1, ← h2, getD_append_len, h2, getD_append_len]
    refine ⟨by simp [popcountVec, popcount_zeroW], fun p _ => readBit_zeroWord p, fun _ => ?_⟩
    simp
  · rw [getD_oob _ _ _ (by simp; omega), getD_oob _ _ _ (by simp [h1]; omega),
      getD_oob _ _ _ (by simp [h2]; omega)]
    exact ⟨rfl, fun p _ => readBit_nilW p, fun hc => by simp at hc; omega⟩

end FST
namespace FST

theorem pushLabel_fields (x : Builder) (c level : Nat) :
    (pushLabel x c level).labels = x.labels.set level ((x.labels.getD level []) ++ [c % 256]) ∧
    (pushLabel x c level).node_counts = x.node_counts ∧
    (pushLabel x c level).louds_bits = x.louds_bits :=
  ⟨rfl, rfl, rfl⟩

theorem maybeBump_fields_true (x : Builder) (level : Nat) :
    (maybeBump x level true).labels = x.labels ∧
    (maybeBump x level true).node_counts =
      x.node_counts.set level (x.node_counts.getD level 0 + 1) ∧
    (maybeBump x level true).louds_bits =
      x.louds_bits.set level (setBitW (x.louds_bits.getD level []) (decPos (x.numItems level))) :=
  ⟨rfl, rfl, rfl⟩

theorem maybeBump_fields_false (x : Builder) (level : Nat) :
    maybeBump x level false = x := rfl

theorem setTermFlag_fields (x : Builder) (level : Nat) (tm : Bool) :
    (setTermFlag x level tm).labels = x.labels ∧
    (setTermFlag x level tm).node_counts = x.node_counts ∧
    (setTermFlag x level tm).louds_bits = x.louds_bits :=
  ⟨rfl, rfl, rfl⟩

theorem moveToNextItemSlot_fields (x : Builder) (level : Nat) :
    (moveToNextItemSlot x level).labels = x.labels ∧
    (moveToNextItemSlot x level).node_counts = x.node_counts ∧
    (moveToNextItemSlot x level).louds_bits =
      (if x.numItems level % kWordSize = 0 then
        x.louds_bits.set level ((x.louds_bits.getD level []) ++ [0])
      else x.louds_bits) := by
  rw [moveToNextItemSlot]
  simp only []
  have hnum : Builder.numItems
      { x with assertsOk := x.assertsOk && decide (level < x.height) } level =
      Builder.numItems x level := rfl
  rw [hnum]
  split_ifs with hc
  · exact ⟨rfl, rfl, rfl⟩
  · exact ⟨rfl, rfl, rfl⟩

end FST
namespace FST

theorem loudsOk_tail (b : Builder) (c level : Nat) (st tm : Bool) (h : loudsOk b) :
    loudsOk (moveToNextItemSlot (setTermFlag (maybeBump (pushLabel b c level) level st) level tm) level) := by
  obtain ⟨hl1, hl2, hl3⟩ := h
  have ylab : (setTermFlag (maybeBump (pushLabel b c level) level st) level tm).labels =
      b.labels.set level ((b.labels.getD level []) ++ [c % 256]) := by
    cases st
    · rfl
    · rfl
  have ync : (setTermFlag (maybeBump (pushLabel b c level) level st) level tm).node_counts =
      (if st then b.node_counts.set level (b.node_counts.getD level 0 + 1)
       else b.node_counts) := by
    cases st
    · rfl
    · rfl
  have ylo : (setTermFlag (maybeBump (pushLabel b c level) level st) level tm).louds_bits =
      (if st then
        b.louds_bits.set level
          (setBitW (b.louds_bits.getD level [])
            (decPos ((b.labels.set level ((b.labels.getD level []) ++ [c % 256])).getD
              level []).length))
      else b.louds_bits) := by
    cases st
    · rfl
    · rfl
  obtain ⟨flab, fnc, flo⟩ :=
    moveToNextItemSlot_fields (setTermFlag (maybeBump (pushLabel b c level) level st) level tm)
      level
  by_cases hlev : level < b.labels.length
  · have hn : ((b.labels.set level ((b.labels.getD level []) ++ [c % 256])).getD
        level []).length = (b.labels.getD level []).length + 1 := by
      rw [getD_set_self _ _ _ _ hlev]
      simp
    have hdec : decPos ((b.labels.set level ((b.labels.getD level []) ++ [c % 256])).getD
        level []).length = (b.labels.getD level []).length := by
      rw [hn, decPos]
      simp
    rw [hdec] at ylo
    have hynum : Builder.numItems
        (setTermFlag (maybeBump (pushLabel b c level) level st) level tm) level =
        (b.labels.getD level []).length + 1 := by
      rw [Builder.numItems, ylab, hn]
    obtain ⟨pc, tz, capf⟩ := hl3 level
    have cap := capf hlev
    have hpset : popcountVec (setBitW (b.louds_bits.getD level [])
        ((b.labels.getD level []).length) ) = popcountVec (b.louds_bits.getD level []) + 1 := by
      rw [setBitW, kWordSize, shiftMask _ (Nat.mod_lt _ (by omega))]
      refine popcountVec_set_or _ _ _ (by omega) (Nat.mod_lt _ (by omega)) ?_
      have hrb := tz (b.labels.getD level []).length (le_refl _)
      rw [readBit_eq_testBit] at hrb
      exact hrb
    have htzset : ∀ p : Nat, (b.labels.getD level []).length + 1 ≤ p →
        readBit (setBitW (b.louds_bits.getD level []) ((b.labels.getD level []).length)) p
          = false := by
      intro p hp
      rw [readBit_setBitW_ne _ _ _ (by omega)]
      exact tz p (by omega)
    have hlenset : (setBitW (b.louds_bits.getD level []) ((b.labels.getD level []).length)).length
        = (b.louds_bits.getD level []).length := by
      rw [setBitW]
      simp
    rw [loudsOk, flab, fnc, flo, hynum, ylab, ync, ylo]
    split_ifs with hmod hst hst
    -- branch A: word boundary reached, node start
    · have hset2 : (b.louds_bits.set level
          (setBitW (b.louds_bits.getD level []) (b.labels.getD level []).length)).set level
          ((b.louds_bits.set level
            (setBitW (b.louds_bits.getD level []) (b.labels.getD level []).length)).getD level []
            ++ [0])
          = b.louds_bits.set level
            (setBitW (b.louds_bits.getD level []) (b.labels.getD level []).length ++ [0]) := by
        rw [getD_set_self _ _ _ _ (by omega), List.set_set]
      rw [hset2]
      refine ⟨by simp [hl1], by simp [hl2], fun L => ?_⟩
      by_cases hL : L = level
      · subst hL
        rw [getD_set_self _ _ _ _ hlev, getD_set_self _ _ _ _ (by omega : L < b.louds_bits.length),
          getD_set_self _ _ _ _ (by omega : L < b.node_counts.length)]
        refine ⟨?_, ?_, fun _ => ?_⟩
        · rw [popcountVec_append_zero, hpset, pc]
        · intro p hp
          simp only [List.length_append, List.length_cons, List.length_nil] at hp
          rw [readBit_append_zero]
          exact htzset p (by omega)
        · simp only [List.length_append, List.length_cons, List.length_nil, hlenset]
          omega
      · simp only [getD_set_of_ne _ _ _ _ _ hL, List.length_set]
        obtain ⟨c1, c2, c3⟩ := hl3 L
        exact ⟨c1, c2, c3⟩
    -- branch B: word boundary reached, not a node start
    · refine ⟨by simp [hl1], by simp [hl2], fun L => ?_⟩
      by_cases hL : L = level
      · subst hL
        rw [getD_set_self _ _ _ _ hlev, getD_set_self _ _ _ _ (by omega : L < b.louds_bits.length)]
        refine ⟨?_, ?_, fun _ => ?_⟩
        · rw [popcountVec_append_zero, pc]
        · intro p hp
          simp only [List.length_append, List.length_cons, List.length_nil] at hp
          rw [readBit_append_zero]
          exact tz p (by omega)
        · simp only [List.length_append, List.length_cons, List.length_nil]
          omega
      · simp only [getD_set_of_ne _ _ _ _ _ hL, List.length_set]
        obtain ⟨c1, c2, c3⟩ := hl3 L
        exact ⟨c1, c2, c3⟩
    -- branch C: no word boundary, node start
    · refine ⟨by simp [hl1], by simp [hl2], fun L => ?_⟩
      by_cases hL : L = level
      · subst hL
        rw [getD_set_self _ _ _ _ hlev, getD_set_self _ _ _ _ (by omega : L < b.louds_bits.length),
          getD_set_self _ _ _ _ (by omega : L < b.node_counts.length)]
        refine ⟨?_, ?_, fun _ => ?_⟩
        · rw [hpset, pc]
        · intro p hp
          simp only [List.length_append, List.length_cons, List.length_nil] at hp
          exact htzset p (by omega)
        · have hmod64 : ¬ ((b.labels.getD L []).length + 1) % 64 = 0 := hmod
          simp only [List.length_append, List.length_cons, List.length_nil, hlenset]
          omega
      · simp only [getD_set_of_ne _ _ _ _ _ hL, List.length_set]
        obtain ⟨c1, c2, c3⟩ := hl3 L
        exact ⟨c1, c2, c3⟩
    -- branch D: no word boundary, not a node start
    · refine ⟨by simp [hl1], by simp [hl2], fun L => ?_⟩
      by_cases hL : L = level
      · subst hL
        rw [getD_set_self _ _ _ _ hlev]
        refine ⟨pc, ?_, fun _ => ?_⟩
        · intro p hp
          simp only [List.length_append, List.length_cons, List.length_nil] at hp
          exact tz p (by omega)
        · have hmod64 : ¬ ((b.labels.getD L []).length + 1) % 64 = 0 := hmod
          simp only [List.length_append, List.length_cons, List.length_nil]
          omega
      · simp only [getD_set_of_ne _ _ _ _ _ hL, List.length_set]
        obtain ⟨c1, c2, c3⟩ := hl3 L
        exact ⟨c1, c2, c3⟩
  · have ylab2 : (setTermFlag (maybeBump (pushLabel b c level) level st) level tm).labels =
        b.labels := by
      rw [ylab, set_oob _ _ _ (by omega)]
    have ync2 : (setTermFlag (maybeBump (pushLabel b c level) level st) level tm).node_counts =
        b.node_counts := by
      rw [ync]
      split_ifs
      · rw [set_oob _ _ _ (by omega)]
      · rfl
    have ylo2 : (setTermFlag (maybeBump (pushLabel b c level) level st) level tm).louds_bits =
        b.louds_bits := by
      rw [ylo]
      split_ifs
      · rw [set_oob _ _ _ (by omega)]
      · rfl
    refine loudsOk_congr _ b ?_ ?_ ?_ ⟨hl1, hl2, hl3⟩
    · rw [flo, ylo2]
      split_ifs
      · rw [set_oob _ _ _ (by omega)]
      · rfl
    · rw [flab, ylab2]
    · rw [fnc, ync2]

theorem loudsOk_insertKeyByte (b : Builder) (c level : Nat) (st tm : Bool)
    (h : loudsOk b) : loudsOk (insertKeyByte b c level st tm) := by
  rw [insertKeyByte]
  have h1 : loudsOk (maybeAddLevel b level) := by
    rw [maybeAddLevel]
    split_ifs
    · exact loudsOk_addLevel b h
    · exact h
  have h2 : loudsOk (maybeParent (recordInsAssert (maybeAddLevel b level) level) level) := by
    refine loudsOk_congr _ (maybeAddLevel b level) ?_ ?_ ?_ h1 <;>
      (rw [maybeParent]; split_ifs <;> rfl)
  exact loudsOk_tail _ c level st tm h2

end FST
namespace FST

theorem loudsOk_skipLoop (key : List Nat) :
    ∀ (fuel : Nat) (b : Builder) (level : Nat), loudsOk b →
      loudsOk (skipLoop key fuel b level).1
  | 0, b, level, h => h
  | fuel + 1, b, level, h => by
    rw [skipLoop]
    split_ifs with hc
    · exact loudsOk_skipLoop key fuel _ (level + 1)
        (loudsOk_congr _ b rfl rfl rfl h)
    · exact h

theorem loudsOk_insLoop (key next : List Nat) :
    ∀ (fuel : Nat) (b : Builder) (level : Nat), loudsOk b →
      loudsOk (insLoop key next fuel b level).1
  | 0, b, level, h => h
  | fuel + 1, b, level, h => by
    rw [insLoop]
    split_ifs with hc
    · exact loudsOk_insLoop key next fuel _ (level + 1)
        (loudsOk_insertKeyByte _ _ _ _ _ h)
    · exact h

theorem loudsOk_insertUnique (b : Builder) (key : List Nat) (pos : Nat) (next : List Nat)
    (sl : Nat) (h : loudsOk b) :
    loudsOk (insertKeyBytesToTrieUntilUnique b key pos next sl).1 := by
  rw [insertKeyBytesToTrieUntilUnique]
  split_ifs with hc
  · refine loudsOk_congr _ _ rfl rfl rfl ?_
    exact loudsOk_insertKeyByte _ _ _ _ _ (loudsOk_congr _ b rfl rfl rfl h)
  · refine loudsOk_congr _ _ rfl rfl rfl ?_
    exact loudsOk_insLoop _ _ _ _ _
      (loudsOk_insertKeyByte _ _ _ _ _ (loudsOk_congr _ b rfl rfl rfl h))

theorem loudsOk_buildSparseLoop (keys : List (List Nat)) :
    ∀ (fuel : Nat) (b : Builder) (i : Nat), loudsOk b →
      loudsOk (buildSparseLoop keys fuel b i).1
  | 0, b, i, h => h
  | fuel + 1, b, i, h => by
    rw [buildSparseLoop]
    by_cases hc : i < keys.length
    · rw [if_pos hc]
      simp only []
      split_ifs with h2
      · exact loudsOk_buildSparseLoop keys fuel _ _
          (loudsOk_insertUnique _ _ _ _ _
            (loudsOk_skipLoop _ _ _ _ h))
      · exact loudsOk_buildSparseLoop keys fuel _ _
          (loudsOk_insertUnique _ _ _ _ _
            (loudsOk_skipLoop _ _ _ _ h))
    · rw [if_neg hc]
      exact h

theorem loudsOk_runBuild (dense : Bool) (ratio : Nat) (keys : List (List Nat)) :
    loudsOk (runBuild dense ratio keys) := by
  rw [runBuild, build]
  have hsp : loudsOk (buildSparse
      { mkBuilder dense ratio with
        assertsOk := (mkBuilder dense ratio).assertsOk && decide (keys.length > 0) } keys) := by
    rw [buildSparse]
    exact loudsOk_buildSparseLoop keys keys.length _ 0
      (loudsOk_congr _ (mkBuilder dense ratio) rfl rfl rfl (loudsOk_mkBuilder dense ratio))
  split_ifs with hd
  · have hpre := sparse_buildDense (determineCutoffLevel (buildSparse
      { mkBuilder dense ratio with
        assertsOk := (mkBuilder dense ratio).assertsOk && decide (keys.length > 0) } keys))
    simp only [Prod.mk.injEq] at hpre
    obtain ⟨hlab, hnc, hlo, _⟩ := hpre
    refine loudsOk_congr _ (buildSparse
      { mkBuilder dense ratio with
        assertsOk := (mkBuilder dense ratio).assertsOk && decide (keys.length > 0) } keys)
      ?_ ?_ ?_ hsp
    · exact hlo.trans rfl
    · exact hlab.trans rfl
    · exact hnc.trans rfl
  · exact hsp

end FST
namespace FST

/-- Claim C8: after every build (any configuration, any key list), for
every level L the number of set bits in `louds_bits[L]` equals
`node_counts[L]`: `insertKeyByte` sets a LOUDS bit exactly when it also
increments the level's node count, the bit it sets was previously clear
(it lies past the last slot), and `addLevel` starts each level with a
zero word and a zero count. -/
theorem c8_theorem (dense : Bool) (ratio : Nat) (keys : List (List Nat)) (L : Nat) :
    popcountVec ((runBuild dense ratio keys).louds_bits.getD L []) =
    (runBuild dense ratio keys).node_counts.getD L 0 :=
  ((loudsOk_runBuild dense ratio keys).2.2 L).1

end FST
namespace FST

theorem countUpto_succ (p : Nat → Bool) (t : Nat) :
    ((Finset.range (t + 1)).filter fun o => p o = true).card =
    ((Finset.range t).filter fun o => p o = true).card + (if p t then 1 else 0) := by
  rw [Finset.range_succ, Finset.filter_insert]
  split_ifs with h1
  · rw [Finset.card_insert_of_not_mem (by simp)]
  · rfl

theorem countUpto_mono (p : Nat → Bool) (s t : Nat) (h : s ≤ t) :
    ((Finset.range s).filter fun o => p o = true).card ≤
    ((Finset.range t).filter fun o => p o = true).card :=
  Finset.card_le_card (Finset.filter_subset_filter _ (Finset.range_subset.mpr h))

theorem onesInWordUpto_succ (w t : Nat) :
    onesInWordUpto w (t + 1) = onesInWordUpto w t + (if wbit w t then 1 else 0) :=
  countUpto_succ (fun o => wbit w o) t

theorem onesUpto_succ (bits : List Nat) (n : Nat) :
    onesUpto bits (n + 1) = onesUpto bits n + (if readBit bits n then 1 else 0) :=
  countUpto_succ (fun p => readBit bits p) n

theorem popcount_eq_onesInWordUpto (w : Nat) : popcount w = onesInWordUpto w 64 := rfl

theorem readBit_word (bits : List Nat) (i t : Nat) (h : t < 64) :
    readBit bits (64 * i + t) = wbit (bits.getD i 0) t := by
  rw [readBit_eq_testBit]
  have h1 : (64 * i + t) / 64 = i := by omega
  have h2 : (64 * i + t) % 64 = t := by omega
  rw [h1, h2]
  rfl

theorem onesUpto_word_split (bits : List Nat) (i : Nat) :
    ∀ t : Nat, t ≤ 64 →
      onesUpto bits (64 * i + t) =
      onesUpto bits (64 * i) + onesInWordUpto (bits.getD i 0) t := by
  intro t
  induction t with
  | zero => intro _; simp [onesInWordUpto]
  | succ t2 ih =>
    intro ht
    rw [← Nat.add_assoc, onesUpto_succ, onesInWordUpto_succ, ih (by omega),
      readBit_word bits i t2 (by omega)]
    omega

theorem readBit_oob (bits : List Nat) (p : Nat) (h : 64 * bits.length ≤ p) :
    readBit bits p = false := by
  rw [readBit, kWordSize, getD_oob _ _ _ (by omega)]
  simp

theorem onesUpto_sat (bits : List Nat) :
    ∀ k : Nat, onesUpto bits (64 * bits.length + k) = onesUpto bits (64 * bits.length) := by
  intro k
  induction k with
  | zero => rfl
  | succ k2 ih =>
    rw [← Nat.add_assoc, onesUpto_succ, readBit_oob bits _ (by omega), ih]
    rfl

theorem maskCount_zero (raw off : Nat) :
    ∀ t : Nat, t ≤ off →
      ((Finset.range t).filter fun o => (decide (off ≤ o) && wbit raw o) = true).card = 0 := by
  intro t
  induction t with
  | zero => intro _; rfl
  | succ t2 ih =>
    intro ht
    rw [countUpto_succ (fun o => decide (off ≤ o) && wbit raw o) t2, ih (by omega)]
    rw [decide_eq_false (by omega : ¬ off ≤ t2)]
    simp

theorem maskCount_split (raw off : Nat) :
    ∀ t : Nat, off ≤ t →
      ((Finset.range t).filter fun o => (decide (off ≤ o) && wbit raw o) = true).card +
        onesInWordUpto raw off = onesInWordUpto raw t := by
  intro t
  induction t with
  | zero =>
    intro h
    have : off = 0 := by omega
    subst this
    simp [onesInWordUpto]
  | succ t2 ih =>
    intro ht
    rcases Nat.lt_or_ge off (t2 + 1) with h2 | h2
    · rw [countUpto_succ (fun o => decide (off ≤ o) && wbit raw o) t2,
        onesInWordUpto_succ, decide_eq_true (by omega : off ≤ t2), Bool.true_and]
      have h3 := ih (by omega)
      omega
    · have hto : t2 + 1 = off := by omega
      rw [hto, maskCount_zero raw off off (le_refl off)]
      simp

end FST
namespace FST

theorem popcount_of_mask (w raw off : Nat) (hoff : off ≤ 64)
    (hw : ∀ o, o < 64 → wbit w o = (decide (off ≤ o) && wbit raw o)) :
    popcount w + onesInWordUpto raw off = onesInWordUpto raw 64 := by
  have hc : ((Finset.range 64).filter fun o => wbit w o = true) =
      ((Finset.range 64).filter fun o => (decide (off ≤ o) && wbit raw o) = true) := by
    apply Finset.filter_congr
    intro x hx
    rw [hw x (Finset.mem_range.mp hx)]
  rw [popcount, hc]
  exact maskCount_split raw off 64 hoff

theorem onesInWordUpto_of_mask (w raw off t : Nat) (ht : t ≤ 64) (hofft : off ≤ t)
    (hw : ∀ o, o < 64 → wbit w o = (decide (off ≤ o) && wbit raw o)) :
    onesInWordUpto w t + onesInWordUpto raw off = onesInWordUpto raw t := by
  have hc : ((Finset.range t).filter fun o => wbit w o = true) =
      ((Finset.range t).filter fun o => (decide (off ≤ o) && wbit raw o) = true) := by
    apply Finset.filter_congr
    intro x hx
    rw [hw x (by have := Finset.mem_range.mp hx; omega)]
  rw [onesInWordUpto, hc]
  exact maskCount_split raw off t hofft

theorem wbit_maskWord (x off : Nat) (hoff : off < 64) (o : Nat) (ho : o < 64) :
    wbit ((((x <<< off) % 2 ^ 64) >>> off)) o = (decide (off ≤ o) && wbit x o) := by
  rw [wbit, wbit, Nat.testBit_shiftRight, Nat.testBit_mod_two_pow, Nat.testBit_shiftLeft]
  have e1 : off + (63 - o) - off = 63 - o := by omega
  rw [e1]
  have e2 : decide (off ≤ off + (63 - o)) = true := decide_eq_true (by omega)
  rw [e2, Bool.true_and]
  have e3 : decide (off + (63 - o) < 64) = decide (off ≤ o) := by
    rw [decide_eq_decide]
    omega
  rw [e3]

theorem sel64Aux_spec (w : Nat) :
    ∀ (fuel o k : Nat), o + fuel = 64 → 1 ≤ k →
      k + onesInWordUpto w o ≤ onesInWordUpto w 64 →
      o ≤ sel64Aux w fuel k o ∧ sel64Aux w fuel k o < 64 ∧
      wbit w (sel64Aux w fuel k o) = true ∧
      onesInWordUpto w (sel64Aux w fuel k o + 1) = k + onesInWordUpto w o := by
  intro fuel
  induction fuel with
  | zero =>
    intro o k ho hk hle
    exfalso
    have ho64 : o = 64 := by omega
    rw [ho64] at hle
    omega
  | succ fuel ih =>
    intro o k ho hk hle
    rw [sel64Aux]
    split_ifs with hb hk1
    · refine ⟨le_refl o, by omega, hb, ?_⟩
      rw [onesInWordUpto_succ, hb]
      have hk1e : k = 1 := by omega
      rw [hk1e]
      simp [Nat.add_comm]
    · have hstep : onesInWordUpto w (o + 1) = onesInWordUpto w o + 1 := by
        rw [onesInWordUpto_succ, hb]
        rfl
      have hrec := ih (o + 1) (k - 1) (by omega) (by omega) (by omega)
      obtain ⟨r1, r2, r3, r4⟩ := hrec
      refine ⟨by omega, r2, r3, by omega⟩
    · have hstep : onesInWordUpto w (o + 1) = onesInWordUpto w o := by
        rw [onesInWordUpto_succ, Bool.of_not_eq_true hb]
        rfl
      have hrec := ih (o + 1) k (by omega) hk (by omega)
      obtain ⟨r1, r2, r3, r4⟩ := hrec
      refine ⟨by omega, r2, r3, by omega⟩

theorem select64_spec (w k : Nat) (hk : 1 ≤ k) (hpc : k ≤ popcount w) :
    select64 w k < 64 ∧ wbit w (select64 w k) = true ∧
    onesInWordUpto w (select64 w k + 1) = k := by
  have h := sel64Aux_spec w 64 0 k (by omega) hk
    (by rw [popcount_eq_onesInWordUpto] at hpc; simpa [onesInWordUpto] using hpc)
  rw [select64]
  obtain ⟨_, h2, h3, h4⟩ := h
  refine ⟨h2, h3, ?_⟩
  rw [h4]
  simp [onesInWordUpto]

end FST
namespace FST

theorem getD_append_ge {α : Type} (v u : List α) (q : Nat) (d : α) (h : v.length ≤ q) :
    (v ++ u).getD q d = u.getD (q - v.length) d := by
  induction v generalizing q with
  | nil => simp
  | cons a tl ih =>
    cases q with
    | zero => simp at h
    | succ q2 =>
      simp only [List.cons_append, List.getD_cons_succ, List.length_cons]
      rw [ih q2 (by simpa using h)]
      congr 1
      omega

theorem selScan_spec (bits : List Nat) (r : Nat)
    (hrT : r ≤ onesUpto bits (64 * bits.length)) :
    ∀ (fuel word_id rank_left off w : Nat),
      bits.length ≤ word_id + fuel →
      off < 64 →
      1 ≤ rank_left →
      (∀ o, o < 64 → wbit w o = (decide (off ≤ o) && wbit (bits.getD word_id 0) o)) →
      onesUpto bits (64 * word_id + off) + rank_left = r →
      readBit bits (selScan bits fuel word_id rank_left w) = true ∧
      onesUpto bits (selScan bits fuel word_id rank_left w + 1) = r := by
  intro fuel
  induction fuel with
  | zero =>
    intro word_id rank_left off w hfuel hoff hrk hw hones
    exfalso
    have hsat : onesUpto bits (64 * word_id + off) = onesUpto bits (64 * bits.length) := by
      have he : 64 * word_id + off =
          64 * bits.length + (64 * word_id + off - 64 * bits.length) := by omega
      rw [he, onesUpto_sat]
    omega
  | succ fuel ih =>
    intro word_id rank_left off w hfuel hoff hrk hw hones
    rw [selScan]
    have hpc := popcount_of_mask w (bits.getD word_id 0) off (by omega) hw
    have hsplit_off := onesUpto_word_split bits word_id off (by omega)
    have hsplit_64 := onesUpto_word_split bits word_id 64 (le_refl 64)
    split_ifs with hc
    · refine ih (word_id + 1) (rank_left - popcount w) 0 (bits.getD (word_id + 1) 0)
        (by omega) (by omega) (by omega) ?_ ?_
      · intro o ho
        rw [decide_eq_true (by omega : (0:Nat) ≤ o), Bool.true_and]
      · have e : 64 * (word_id + 1) + 0 = 64 * word_id + 64 := by omega
        rw [e, hsplit_64]
        omega
    · obtain ⟨s1, s2, s3⟩ := select64_spec w rank_left hrk (by omega)
      have hwo := hw (select64 w rank_left) s1
      rw [s2] at hwo
      have hoffle : off ≤ select64 w rank_left := by
        by_contra hcon
        rw [decide_eq_false hcon, Bool.false_and] at hwo
        exact Bool.noConfusion hwo
      have hraw : wbit (bits.getD word_id 0) (select64 w rank_left) = true := by
        rw [decide_eq_true hoffle, Bool.true_and] at hwo
        exact hwo.symm
      have hmul : word_id * kWordSize = 64 * word_id := by
        rw [kWordSize]
        ring
      rw [hmul]
      constructor
      · rw [readBit_word bits word_id _ s1]
        exact hraw
      · have hsp := onesUpto_word_split bits word_id (select64 w rank_left + 1) (by omega)
        have hmask := onesInWordUpto_of_mask w (bits.getD word_id 0) off
          (select64 w rank_left + 1) (by omega) (by omega) hw
        have he : 64 * word_id + select64 w rank_left + 1 =
            64 * word_id + (select64 w rank_left + 1) := by omega
        rw [he, hsp]
        omega

end FST
namespace FST

theorem lutInner_spec (w iBase interval : Nat) (hi : 1 ≤ interval) :
    ∀ (fuel s cumu : Nat), 1 ≤ s → cumu < interval * s →
      cumu + popcount w < interval * (s + fuel) →
      (lutInner w iBase interval fuel (interval * s) cumu).2 =
        interval * (s + (lutInner w iBase interval fuel (interval * s) cumu).1.length) ∧
      cumu + popcount w <
        interval * (s + (lutInner w iBase interval fuel (interval * s) cumu).1.length) ∧
      ∀ j, j < (lutInner w iBase interval fuel (interval * s) cumu).1.length →
        interval * (s + j) ≤ cumu + popcount w ∧
        (lutInner w iBase interval fuel (interval * s) cumu).1.getD j 0 =
          iBase + select64 w (interval * (s + j) - cumu) := by
  intro fuel
  induction fuel with
  | zero =>
    intro s cumu hs hcs hfa
    have h0 : lutInner w iBase interval 0 (interval * s) cumu = ([], interval * s) := rfl
    rw [h0]
    refine ⟨by simp, ?_, fun j hj => absurd hj (by simp)⟩
    simpa using hfa
  | succ fuel ih =>
    intro s cumu hs hcs hfa
    rw [lutInner]
    simp only []
    split_ifs with hc
    · have hrw : interval * s + interval = interval * (s + 1) := by ring
      rw [hrw]
      have hmono : interval * s ≤ interval * (s + 1) :=
        Nat.mul_le_mul_left interval (by omega)
      have hfa2 : cumu + popcount w < interval * (s + 1 + fuel) := by
        have he : interval * (s + 1 + fuel) = interval * (s + (fuel + 1)) := by ring
        rw [he]
        exact hfa
      obtain ⟨e1, e2, e3⟩ := ih (s + 1) cumu (by omega) (by omega) hfa2
      refine ⟨?_, ?_, ?_⟩
      · simp only [List.length_cons]
        rw [e1]
        ring
      · simp only [List.length_cons]
        have he : interval * (s + 1 + (lutInner w iBase interval fuel (interval * (s + 1))
            cumu).1.length) = interval * (s + ((lutInner w iBase interval fuel
            (interval * (s + 1)) cumu).1.length + 1)) := by ring
        rw [← he]
        exact e2
      · intro j hj
        cases j with
        | zero =>
          refine ⟨by simpa using hc, ?_⟩
          simp
        | succ j2 =>
          simp only [List.length_cons] at hj
          obtain ⟨f1, f2⟩ := e3 j2 (by omega)
          constructor
          · have he : interval * (s + (j2 + 1)) = interval * (s + 1 + j2) := by ring
            rw [he]
            exact f1
          · simp only [List.getD_cons_succ]
            rw [f2]
            have he : interval * (s + 1 + j2) = interval * (s + (j2 + 1)) := by ring
            rw [he]
    · have h0 : (([] : List Nat), interval * s).2 = interval * s := rfl
      refine ⟨by simp, by simpa using hc, fun j hj => absurd hj (by simp)⟩

theorem lutOuter_spec (bits : List Nat) (interval : Nat) (hi : 1 ≤ interval) :
    ∀ (fuel i s cumu : Nat), 1 ≤ s →
      cumu = onesUpto bits (64 * i) →
      cumu < interval * s →
      (lutOuter bits interval fuel i (interval * s) cumu).2 =
        onesUpto bits (64 * (i + fuel)) ∧
      onesUpto bits (64 * (i + fuel)) <
        interval * (s + (lutOuter bits interval fuel i (interval * s) cumu).1.length) ∧
      ∀ j, j < (lutOuter bits interval fuel i (interval * s) cumu).1.length →
        readBit bits ((lutOuter bits interval fuel i (interval * s) cumu).1.getD j 0) = true ∧
        onesUpto bits ((lutOuter bits interval fuel i (interval * s) cumu).1.getD j 0 + 1) =
          interval * (s + j) := by
  intro fuel
  induction fuel with
  | zero =>
    intro i s cumu hs hc hcs
    have h0 : lutOuter bits interval 0 i (interval * s) cumu = ([], cumu) := rfl
    rw [h0]
    refine ⟨by simpa using hc, ?_, fun j hj => absurd hj (by simp)⟩
    simp only [List.length_nil, Nat.add_zero]
    omega
  | succ fuel ih =>
    intro i s cumu hs hc hcs
    rw [lutOuter]
    simp only []
    have hmul : i * kWordSize = 64 * i := by
      rw [kWordSize]
      ring
    rw [hmul]
    have hsplit := onesUpto_word_split bits i 64 (le_refl 64)
    have hones_next : onesUpto bits (64 * (i + 1)) =
        onesUpto bits (64 * i) + popcount (bits.getD i 0) := by
      have he : 64 * (i + 1) = 64 * i + 64 := by omega
      rw [he, hsplit, popcount_eq_onesInWordUpto]
    have hfa : cumu + popcount (bits.getD i 0) <
        interval * (s + (popcount (bits.getD i 0) + 1)) := by
      have h1 : interval * (s + (popcount (bits.getD i 0) + 1)) =
          interval * s + interval * (popcount (bits.getD i 0) + 1) := by ring
      have h2 : popcount (bits.getD i 0) + 1 ≤ interval * (popcount (bits.getD i 0) + 1) :=
        Nat.le_mul_of_pos_left _ (by omega)
      omega
    obtain ⟨i1, i2, i3⟩ := lutInner_spec (bits.getD i 0) (64 * i) interval hi
      (popcount (bits.getD i 0) + 1) s cumu hs hcs hfa
    rw [i1]
    obtain ⟨o1, o2, o3⟩ := ih (i + 1)
      (s + (lutInner (bits.getD i 0) (64 * i) interval (popcount (bits.getD i 0) + 1)
        (interval * s) cumu).1.length)
      (cumu + popcount (bits.getD i 0)) (by omega) (by rw [hones_next, hc]) i2
    refine ⟨?_, ?_, ?_⟩
    · rw [o1]
      congr 1
      omega
    · simp only [List.length_append]
      have he : interval * (s + ((lutInner (bits.getD i 0) (64 * i) interval
          (popcount (bits.getD i 0) + 1) (interval * s) cumu).1.length +
          (lutOuter bits interval fuel (i + 1)
            (interval * (s + (lutInner (bits.getD i 0) (64 * i) interval
              (popcount (bits.getD i 0) + 1) (interval * s) cumu).1.length))
            (cumu + popcount (bits.getD i 0))).1.length)) =
          interval * (s + (lutInner (bits.getD i 0) (64 * i) interval
            (popcount (bits.getD i 0) + 1) (interval * s) cumu).1.length +
            (lutOuter bits interval fuel (i + 1)
              (interval * (s + (lutInner (bits.getD i 0) (64 * i) interval
                (popcount (bits.getD i 0) + 1) (interval * s) cumu).1.length))
              (cumu + popcount (bits.getD i 0))).1.length) := by ring
      rw [he]
      have he2 : 64 * (i + 1 + fuel) = 64 * (i + (fuel + 1)) := by ring
      rw [he2] at o2
      exact o2
    · intro j hj
      simp only [List.length_append] at hj
      by_cases hjn : j < (lutInner (bits.getD i 0) (64 * i) interval
          (popcount (bits.getD i 0) + 1) (interval * s) cumu).1.length
      · rw [getD_append_lt _ _ _ _ hjn]
        obtain ⟨f1, f2⟩ := i3 j hjn
        rw [f2]
        have hk1 : 1 ≤ interval * (s + j) - cumu := by
          have : interval * s ≤ interval * (s + j) := Nat.mul_le_mul_left interval (by omega)
          omega
        have hk2 : interval * (s + j) - cumu ≤ popcount (bits.getD i 0) := by omega
        obtain ⟨g1, g2, g3⟩ := select64_spec (bits.getD i 0)
          (interval * (s + j) - cumu) hk1 hk2
        constructor
        · rw [readBit_word bits i _ g1]
          exact g2
        · have he : 64 * i + select64 (bits.getD i 0) (interval * (s + j) - cumu) + 1 =
              64 * i + (select64 (bits.getD i 0) (interval * (s + j) - cumu) + 1) := by omega
          rw [he, onesUpto_word_split bits i _ (by omega), g3, ← hc]
          omega
      · rw [getD_append_ge _ _ _ _ (by omega)]
        obtain ⟨f1, f2⟩ := o3 (j - (lutInner (bits.getD i 0) (64 * i) interval
          (popcount (bits.getD i 0) + 1) (interval * s) cumu).1.length) (by omega)
        refine ⟨f1, ?_⟩
        rw [f2]
        congr 1
        omega

end FST
namespace FST

theorem scan_from (bits : List Nat) (r rank_left pos wid off : Nat)
    (hT : r ≤ onesUpto bits (64 * bits.length))
    (hrk : 1 ≤ rank_left) (hoff : off < 64)
    (heq : 64 * wid + off = pos + 1)
    (hones : onesUpto bits (pos + 1) + rank_left = r) :
    readBit bits (selScan bits bits.length wid rank_left
      ((((bits.getD wid 0) <<< off) % 2 ^ 64) >>> off)) = true ∧
    onesUpto bits (selScan bits bits.length wid rank_left
      ((((bits.getD wid 0) <<< off) % 2 ^ 64) >>> off) + 1) = r := by
  refine selScan_spec bits r hT bits.length wid rank_left off
    ((((bits.getD wid 0) <<< off) % 2 ^ 64) >>> off)
    (by omega) hoff hrk ?_ ?_
  · intro o ho
    exact wbit_maskWord (bits.getD wid 0) off hoff o ho
  · rw [heq]
    exact hones

theorem select_correct (bits : List Nat) (num_bits interval r : Nat)
    (hlen : bits.length = numWordsOf num_bits)
    (h0 : readBit bits 0 = true)
    (hi : 1 ≤ interval)
    (hr1 : 1 ≤ r)
    (hr2 : r ≤ (initSelectLut bits num_bits interval).2) :
    readBit bits (select bits interval (initSelectLut bits num_bits interval).1 r) = true ∧
    onesUpto bits (select bits interval (initSelectLut bits num_bits interval).1 r + 1) = r := by
  have hout := lutOuter_spec bits interval hi (numWordsOf num_bits) 0 1 0 (le_refl 1)
    (by rfl) (by simpa using hi)
  have hm1 : interval * 1 = interval := by ring
  rw [hm1] at hout
  obtain ⟨o1, o2, o3⟩ := hout
  simp only [Nat.zero_add] at o1 o2
  have hlut1 : (initSelectLut bits num_bits interval).1 =
      0 :: (lutOuter bits interval (numWordsOf num_bits) 0 interval 0).1 := rfl
  have hlut2 : (initSelectLut bits num_bits interval).2 =
      (lutOuter bits interval (numWordsOf num_bits) 0 interval 0).2 := rfl
  have hT : r ≤ onesUpto bits (64 * bits.length) := by
    rw [hlen]
    rw [hlut2, o1] at hr2
    exact hr2
  have hones1 : onesUpto bits 1 = 1 := by
    have : onesUpto bits (0 + 1) = onesUpto bits 0 + (if readBit bits 0 then 1 else 0) :=
      onesUpto_succ bits 0
    rw [h0] at this
    simpa using this
  rw [select, hlut1]
  simp only []
  by_cases hidx : r / interval = 0
  · have hrlt : r < interval := by
      rcases Nat.lt_or_ge r interval with h | h
      · exact h
      · exfalso
        have := Nat.div_le_div_right (c := interval) h
        rw [Nat.div_self (by omega)] at this
        omega
    have hmod : r % interval = r := Nat.mod_eq_of_lt hrlt
    rw [hidx, hmod]
    simp only [List.getD_cons_zero]
    rw [decPos, if_neg (by omega : ¬ r = 0)]
    simp only [if_true]
    by_cases hr1' : r - 1 = 0
    · rw [if_pos hr1']
      refine ⟨h0, ?_⟩
      rw [Nat.zero_add, hones1]
      omega
    · rw [if_neg hr1']
      have hz : (0 : Nat) % kWordSize = 0 := rfl
      rw [hz]
      rw [if_neg (by rw [kWordSize]; omega : ¬ (0 : Nat) = kWordSize - 1)]
      have hz2 : (0 : Nat) / kWordSize = 0 := rfl
      rw [hz2]
      have h64 : ¬ (64 : Nat) ≤ 0 := by omega
      refine scan_from bits r (r - 1) 0 0 1 hT (by omega) (by omega) (by omega) ?_
      rw [Nat.zero_add, hones1]
      omega
  · obtain ⟨j, hj⟩ : ∃ j, r / interval = j + 1 :=
      ⟨r / interval - 1, (Nat.succ_pred_eq_of_pos (Nat.pos_of_ne_zero hidx)).symm⟩
    rw [hj]
    simp only [List.getD_cons_succ]
    rw [if_neg (by omega : ¬ j + 1 = 0)]
    have hmj : interval * (j + 1) ≤ r := by
      rw [← hj, Nat.mul_comm]
      exact Nat.div_mul_le_self r interval
    have hjR : j < (lutOuter bits interval (numWordsOf num_bits) 0 interval 0).1.length := by
      by_contra hcon
      have hge : (1 : Nat) + (lutOuter bits interval (numWordsOf num_bits) 0
          interval 0).1.length ≤ j + 1 := by omega
      have := Nat.mul_le_mul_left interval hge
      rw [hlut2, o1] at hr2
      omega
    obtain ⟨p1, p2⟩ := o3 j hjR
    have hs1j : 1 + j = j + 1 := by omega
    rw [hs1j] at p2
    have hdm := Nat.div_add_mod r interval
    rw [hj] at hdm
    by_cases hrl : r % interval = 0
    · rw [hrl, if_pos rfl]
      refine ⟨p1, ?_⟩
      rw [p2]
      omega
    · rw [if_neg hrl]
      set pos := (lutOuter bits interval (numWordsOf num_bits) 0 interval 0).1.getD j 0 with hpos
      by_cases h63 : pos % kWordSize = kWordSize - 1
      · rw [if_pos h63, if_pos h63]
        rw [kWordSize] at h63
        refine scan_from bits r (r % interval) pos (pos / kWordSize + 1) 0 hT
          (by omega) (by omega) ?_ ?_
        · rw [kWordSize]
          omega
        · rw [p2]
          omega
      · rw [if_neg h63, if_neg h63]
        rw [kWordSize] at h63
        refine scan_from bits r (r % interval) pos (pos / kWordSize) (pos % kWordSize + 1) hT
          (by omega) ?_ ?_ ?_
        · rw [kWordSize]
          have := Nat.mod_lt pos (y := 64) (by omega)
          omega
        · rw [kWordSize]
          omega
        · rw [p2]
          omega

end FST
namespace FST

/-- Claim C5: for every word vector backing a bit vector (as many words as
`initSelectLut` scans) whose bit 0 is set, every sample interval ≥ 1 and
every rank r with 1 ≤ r ≤ `num_ones_`, `select` over the table built by
`initSelectLut` returns the 0-based position (MSB-first within words) of
the r-th set bit: the bit at the returned position is set and exactly r
set bits lie at positions ≤ it. -/
theorem c5_theorem (bits : List Nat) (num_bits interval r : Nat)
    (hlen : bits.length = numWordsOf num_bits)
    (h0 : readBit bits 0 = true)
    (hi : 1 ≤ interval)
    (hr1 : 1 ≤ r)
    (hr2 : r ≤ (initSelectLut bits num_bits interval).2) :
    readBit bits (select bits interval (initSelectLut bits num_bits interval).1 r) = true ∧
    onesUpto bits (select bits interval (initSelectLut bits num_bits interval).1 r + 1) = r :=
  select_correct bits num_bits interval r hlen h0 hi hr1 hr2

/-- The select theorem at a concrete input: the single word with MSB-first
offsets 0 and 2 set, sample interval 2, rank 2; the second set bit sits at
position 2. -/
theorem c5_theorem_witness :
    (([2 ^ 63 + 2 ^ 61] : List Nat).length = numWordsOf 64 ∧
      readBit [2 ^ 63 + 2 ^ 61] 0 = true ∧
      (1 : Nat) ≤ 2 ∧ (1 : Nat) ≤ 2 ∧
      2 ≤ (initSelectLut [2 ^ 63 + 2 ^ 61] 64 2).2) ∧
    (readBit [2 ^ 63 + 2 ^ 61]
        (select [2 ^ 63 + 2 ^ 61] 2 (initSelectLut [2 ^ 63 + 2 ^ 61] 64 2).1 2) = true ∧
      onesUpto [2 ^ 63 + 2 ^ 61]
        (select [2 ^ 63 + 2 ^ 61] 2 (initSelectLut [2 ^ 63 + 2 ^ 61] 64 2).1 2 + 1) = 2) :=
  ⟨⟨by decide, by decide, by decide, by decide, by decide⟩,
    c5_theorem [2 ^ 63 + 2 ^ 61] 64 2 2 (by decide) (by decide) (by decide) (by decide)
      (by decide)⟩

end FST

namespace FST


theorem bitOK_true (bits : List Nat) (pos : Nat) (h : pos < bits.length * 64) :
    bitOK bits pos = true := by
  rw [bitOK, kWordSize]
  exact decide_eq_true h

theorem readBit_setBitW_self (v : List Nat) (p : Nat) (h : p < 64 * v.length) :
    readBit (setBitW v p) p = true := by
  rw [readBit_eq_testBit, setBitW, kWordSize, getD_set_self _ _ _ _ (by omega),
    shiftMask _ (Nat.mod_lt _ (by omega)), Nat.testBit_or, Nat.testBit_two_pow]
  simp

theorem readBit_setBitW_mono (v : List Nat) (p q : Nat) (h : readBit v q = true) :
    readBit (setBitW v p) q = true := by
  by_cases hqp : q = p
  · subst hqp
    by_cases hin : q / 64 < v.length
    · exact readBit_setBitW_self v q (by omega)
    · rw [setBitW, kWordSize, set_oob _ _ _ (by omega)]
      exact h
  · rw [readBit_setBitW_ne _ _ _ hqp]
    exact h

theorem safeOk_mkBuilder (d : Bool) (r : Nat) : safeOk (mkBuilder d r) := by
  refine ⟨rfl, rfl, rfl, ?_, ?_, ?_, ?_, ?_⟩
  · intro L hL
    simp [mkBuilder] at hL
  · intro L hL
    simp [mkBuilder] at hL
  · intro L hL
    simp [mkBuilder] at hL
  · intro L hL
    exact absurd (getD_oob ([] : List (List Nat)) L [] (by simp) :
      (mkBuilder d r).labels.getD L [] = []) hL
  · intro L x hx
    have he : (mkBuilder d r).labels.getD L [] = [] :=
      getD_oob ([] : List (List Nat)) L [] (by simp)
    rw [he] at hx
    simp at hx

theorem pushLabel_fields2 (x : Builder) (c level : Nat) :
    (pushLabel x c level).child_indicator_bits = x.child_indicator_bits ∧
    (pushLabel x c level).bitsOk = x.bitsOk :=
  ⟨rfl, rfl⟩

theorem maybeBump_fields2_true (x : Builder) (level : Nat) :
    (maybeBump x level true).child_indicator_bits = x.child_indicator_bits ∧
    (maybeBump x level true).bitsOk =
      (x.bitsOk && bitOK (x.louds_bits.getD level []) (decPos (x.numItems level))) :=
  ⟨rfl, rfl⟩

theorem setTermFlag_fields2 (x : Builder) (level : Nat) (tm : Bool) :
    (setTermFlag x level tm).child_indicator_bits = x.child_indicator_bits ∧
    (setTermFlag x level tm).bitsOk = x.bitsOk :=
  ⟨rfl, rfl⟩

theorem moveToNextItemSlot_fields2 (x : Builder) (level : Nat) :
    (moveToNextItemSlot x level).child_indicator_bits =
      (if x.numItems level % kWordSize = 0 then
        x.child_indicator_bits.set level ((x.child_indicator_bits.getD level []) ++ [0])
      else x.child_indicator_bits) ∧
    (moveToNextItemSlot x level).bitsOk = x.bitsOk := by
  rw [moveToNextItemSlot]
  simp only []
  have hnum : Builder.numItems
      { x with assertsOk := x.assertsOk && decide (level < x.height) } level =
      Builder.numItems x level := rfl
  rw [hnum]
  split_ifs with hc
  · exact ⟨rfl, rfl⟩
  · exact ⟨rfl, rfl⟩

theorem setCI_fields (x : Builder) (level pos : Nat) :
    (setCI x level pos).labels = x.labels ∧
    (setCI x level pos).louds_bits = x.louds_bits ∧
    (setCI x level pos).child_indicator_bits =
      x.child_indicator_bits.set level (setBitW (x.child_indicator_bits.getD level []) pos) ∧
    (setCI x level pos).bitsOk =
      (x.bitsOk && bitOK (x.child_indicator_bits.getD level []) pos) :=
  ⟨rfl, rfl, rfl, rfl⟩

end FST

namespace FST

theorem length_ne_nil {α : Type} (v : List α) (h : v.length ≠ 0) : v ≠ [] := by
  intro hc
  rw [hc] at h
  exact h rfl

theorem ne_nil_length {α : Type} (v : List α) (h : v ≠ []) : 1 ≤ v.length := by
  cases v with
  | nil => exact absurd rfl h
  | cons a tl => simp

theorem safeOk_tail (b : Builder) (c level : Nat) (st tm : Bool)
    (h1 : b.bitsOk = true)
    (h2 : b.child_indicator_bits.length = b.labels.length)
    (h3 : b.louds_bits.length = b.labels.length)
    (h4 : level < b.labels.length)
    (h5 : ∀ L, L < b.labels.length → L ≠ level → (b.labels.getD L []) ≠ [])
    (h6 : ∀ L, L < b.labels.length →
      (b.labels.getD L []).length < 64 * (b.child_indicator_bits.getD L []).length)
    (h7 : ∀ L, L < b.labels.length →
      (b.labels.getD L []).length < 64 * (b.louds_bits.getD L []).length)
    (h8 : ∀ L, (b.labels.getD L []) ≠ [] → readBit (b.louds_bits.getD L []) 0 = true)
    (h9 : ∀ L x, x ∈ b.labels.getD L [] → x < 256)
    (hst : st = true ∨ (b.labels.getD level []) ≠ []) :
    safeOk (moveToNextItemSlot (setTermFlag (maybeBump (pushLabel b c level) level st) level tm) level) := by
  have ylab : (setTermFlag (maybeBump (pushLabel b c level) level st) level tm).labels =
      b.labels.set level ((b.labels.getD level []) ++ [c % 256]) := by
    cases st
    · rfl
    · rfl
  have ylo : (setTermFlag (maybeBump (pushLabel b c level) level st) level tm).louds_bits =
      (if st then
        b.louds_bits.set level
          (setBitW (b.louds_bits.getD level [])
            (decPos ((b.labels.set level ((b.labels.getD level []) ++ [c % 256])).getD
              level []).length))
      else b.louds_bits) := by
    cases st
    · rfl
    · rfl
  have yci : (setTermFlag (maybeBump (pushLabel b c level) level st) level tm).child_indicator_bits
      = b.child_indicator_bits := by
    cases st
    · rfl
    · rfl
  have ybo : (setTermFlag (maybeBump (pushLabel b c level) level st) level tm).bitsOk =
      (if st then
        b.bitsOk && bitOK (b.louds_bits.getD level [])
          (decPos ((b.labels.set level ((b.labels.getD level []) ++ [c % 256])).getD
            level []).length)
      else b.bitsOk) := by
    cases st
    · rfl
    · rfl
  have hn : ((b.labels.set level ((b.labels.getD level []) ++ [c % 256])).getD
      level []).length = (b.labels.getD level []).length + 1 := by
    rw [getD_set_self _ _ _ _ h4]
    simp
  have hdec : decPos ((b.labels.set level ((b.labels.getD level []) ++ [c % 256])).getD
      level []).length = (b.labels.getD level []).length := by
    rw [hn, decPos]
    simp
  rw [hdec] at ylo ybo
  have hynum : Builder.numItems
      (setTermFlag (maybeBump (pushLabel b c level) level st) level tm) level =
      (b.labels.getD level []).length + 1 := by
    rw [Builder.numItems, ylab, hn]
  obtain ⟨flab, _, flo⟩ :=
    moveToNextItemSlot_fields (setTermFlag (maybeBump (pushLabel b c level) level st) level tm)
      level
  obtain ⟨fci, fbo⟩ :=
    moveToNextItemSlot_fields2 (setTermFlag (maybeBump (pushLabel b c level) level st) level tm)
      level
  have hcapL := h7 level h4
  have hcapC := h6 level h4
  have hbokT : (b.bitsOk && bitOK (b.louds_bits.getD level [])
      (b.labels.getD level []).length) = true := by
    rw [h1, bitOK_true _ _ (by omega), Bool.and_self]
  have hbit0T : readBit (setBitW (b.louds_bits.getD level [])
      (b.labels.getD level []).length) 0 = true := by
    rcases Nat.eq_zero_or_pos (b.labels.getD level []).length with hz | hp
    · rw [hz]
      exact readBit_setBitW_self _ _ (by omega)
    · exact readBit_setBitW_mono _ _ _ (h8 level (length_ne_nil _ (by omega)))
  have hlenset : (setBitW (b.louds_bits.getD level [])
      ((b.labels.getD level []).length)).length = (b.louds_bits.getD level []).length := by
    rw [setBitW]
    simp
  rw [safeOk, flab, flo, fci, fbo, hynum, ylab, ylo, yci, ybo]
  split_ifs with hs hmod hmod
  -- branch A: node start, word boundary
  · have hset2 : (b.louds_bits.set level
        (setBitW (b.louds_bits.getD level []) (b.labels.getD level []).length)).set level
        ((b.louds_bits.set level
          (setBitW (b.louds_bits.getD level []) (b.labels.getD level []).length)).getD level []
          ++ [0])
        = b.louds_bits.set level
          (setBitW (b.louds_bits.getD level []) (b.labels.getD level []).length ++ [0]) := by
      rw [getD_set_self _ _ _ _ (by omega), List.set_set]
    rw [hset2]
    refine ⟨hbokT, by simp [h2], by simp [h3], ?_, ?_, ?_, ?_, ?_⟩
    · intro L hL
      by_cases hLl : L = level
      · subst hLl
        rw [getD_set_self _ _ _ _ h4]
        simp
      · rw [getD_set_of_ne _ _ _ _ _ hLl]
        exact h5 L (by simpa using hL) hLl
    · intro L hL
      by_cases hLl : L = level
      · subst hLl
        rw [getD_set_self _ _ _ _ h4, getD_set_self _ _ _ _ (by omega : L < b.child_indicator_bits.length)]
        simp only [List.length_append, List.length_cons, List.length_nil]
        omega
      · rw [getD_set_of_ne _ _ _ _ _ hLl, getD_set_of_ne _ _ _ _ _ hLl]
        exact h6 L (by simpa using hL)
    · intro L hL
      by_cases hLl : L = level
      · subst hLl
        rw [getD_set_self _ _ _ _ h4, getD_set_self _ _ _ _ (by omega : L < b.louds_bits.length)]
        simp only [List.length_append, List.length_cons, List.length_nil, hlenset]
        omega
      · rw [getD_set_of_ne _ _ _ _ _ hLl, getD_set_of_ne _ _ _ _ _ hLl]
        exact h7 L (by simpa using hL)
    · intro L hL
      by_cases hLl : L = level
      · subst hLl
        rw [getD_set_self _ _ _ _ (by omega : L < b.louds_bits.length),
          readBit_append_zero]
        exact hbit0T
      · rw [getD_set_of_ne _ _ _ _ _ hLl] at hL
        rw [getD_set_of_ne _ _ _ _ _ hLl]
        exact h8 L hL
    · intro L x hx
      by_cases hLl : L = level
      · subst hLl
        rw [getD_set_self _ _ _ _ h4] at hx
        rcases List.mem_append.mp hx with hx2 | hx2
        · exact h9 L x hx2
        · simp at hx2
          rw [hx2]
          exact Nat.mod_lt _ (by omega)
      · rw [getD_set_of_ne _ _ _ _ _ hLl] at hx
        exact h9 L x hx
  -- branch B: node start, no word boundary
  · refine ⟨hbokT, by simp [h2], by simp [h3], ?_, ?_, ?_, ?_, ?_⟩
    · intro L hL
      by_cases hLl : L = level
      · subst hLl
        rw [getD_set_self _ _ _ _ h4]
        simp
      · rw [getD_set_of_ne _ _ _ _ _ hLl]
        exact h5 L (by simpa using hL) hLl
    · intro L hL
      by_cases hLl : L = level
      · subst hLl
        rw [getD_set_self _ _ _ _ h4]
        have hmod64 : ¬ ((b.labels.getD L []).length + 1) % 64 = 0 := hmod
        simp only [List.length_append, List.length_cons, List.length_nil]
        omega
      · rw [getD_set_of_ne _ _ _ _ _ hLl]
        exact h6 L (by simpa using hL)
    · intro L hL
      by_cases hLl : L = level
      · subst hLl
        rw [getD_set_self _ _ _ _ h4, getD_set_self _ _ _ _ (by omega : L < b.louds_bits.length)]
        have hmod64 : ¬ ((b.labels.getD L []).length + 1) % 64 = 0 := hmod
        simp only [List.length_append, List.length_cons, List.length_nil, hlenset]
        omega
      · rw [getD_set_of_ne _ _ _ _ _ hLl, getD_set_of_ne _ _ _ _ _ hLl]
        exact h7 L (by simpa using hL)
    · intro L hL
      by_cases hLl : L = level
      · subst hLl
        rw [getD_set_self _ _ _ _ (by omega : L < b.louds_bits.length)]
        exact hbit0T
      · rw [getD_set_of_ne _ _ _ _ _ hLl] at hL
        rw [getD_set_of_ne _ _ _ _ _ hLl]
        exact h8 L hL
    · intro L x hx
      by_cases hLl : L = level
      · subst hLl
        rw [getD_set_self _ _ _ _ h4] at hx
        rcases List.mem_append.mp hx with hx2 | hx2
        · exact h9 L x hx2
        · simp at hx2
          rw [hx2]
          exact Nat.mod_lt _ (by omega)
      · rw [getD_set_of_ne _ _ _ _ _ hLl] at hx
        exact h9 L x hx
  -- branch C: not a node start, word boundary
  · have hne : (b.labels.getD level []) ≠ [] := by
      rcases hst with hs2 | hs2
      · exact absurd hs2 hs
      · exact hs2
    refine ⟨h1, by simp [h2], by simp [h3], ?_, ?_, ?_, ?_, ?_⟩
    · intro L hL
      by_cases hLl : L = level
      · subst hLl
        rw [getD_set_self _ _ _ _ h4]
        simp
      · rw [getD_set_of_ne _ _ _ _ _ hLl]
        exact h5 L (by simpa using hL) hLl
    · intro L hL
      by_cases hLl : L = level
      · subst hLl
        rw [getD_set_self _ _ _ _ h4, getD_set_self _ _ _ _ (by omega : L < b.child_indicator_bits.length)]
        simp only [List.length_append, List.length_cons, List.length_nil]
        omega
      · rw [getD_set_of_ne _ _ _ _ _ hLl, getD_set_of_ne _ _ _ _ _ hLl]
        exact h6 L (by simpa using hL)
    · intro L hL
      by_cases hLl : L = level
      · subst hLl
        rw [getD_set_self _ _ _ _ h4, getD_set_self _ _ _ _ (by omega : L < b.louds_bits.length)]
        simp only [List.length_append, List.length_cons, List.length_nil]
        omega
      · rw [getD_set_of_ne _ _ _ _ _ hLl, getD_set_of_ne _ _ _ _ _ hLl]
        exact h7 L (by simpa using hL)
    · intro L hL
      by_cases hLl : L = level
      · subst hLl
        rw [getD_set_self _ _ _ _ (by omega : L < b.louds_bits.length), readBit_append_zero]
        exact h8 L hne
      · rw [getD_set_of_ne _ _ _ _ _ hLl] at hL
        rw [getD_set_of_ne _ _ _ _ _ hLl]
        exact h8 L hL
    · intro L x hx
      by_cases hLl : L = level
      · subst hLl
        rw [getD_set_self _ _ _ _ h4] at hx
        rcases List.mem_append.mp hx with hx2 | hx2
        · exact h9 L x hx2
        · simp at hx2
          rw [hx2]
          exact Nat.mod_lt _ (by omega)
      · rw [getD_set_of_ne _ _ _ _ _ hLl] at hx
        exact h9 L x hx
  -- branch D: not a node start, no word boundary
  · have hne : (b.labels.getD level []) ≠ [] := by
      rcases hst with hs2 | hs2
      · exact absurd hs2 hs
      · exact hs2
    refine ⟨h1, by simp [h2], by simp [h3], ?_, ?_, ?_, ?_, ?_⟩
    · intro L hL
      by_cases hLl : L = level
      · subst hLl
        rw [getD_set_self _ _ _ _ h4]
        simp
      · rw [getD_set_of_ne _ _ _ _ _ hLl]
        exact h5 L (by simpa using hL) hLl
    · intro L hL
      by_cases hLl : L = level
      · subst hLl
        rw [getD_set_self _ _ _ _ h4]
        have hmod64 : ¬ ((b.labels.getD L []).length + 1) % 64 = 0 := hmod
        simp only [List.length_append, List.length_cons, List.length_nil]
        omega
      · rw [getD_set_of_ne _ _ _ _ _ hLl]
        exact h6 L (by simpa using hL)
    · intro L hL
      by_cases hLl : L = level
      · subst hLl
        rw [getD_set_self _ _ _ _ h4]
        have hmod64 : ¬ ((b.labels.getD L []).length + 1) % 64 = 0 := hmod
        simp only [List.length_append, List.length_cons, List.length_nil]
        omega
      · rw [getD_set_of_ne _ _ _ _ _ hLl]
        exact h7 L (by simpa using hL)
    · intro L hL
      by_cases hLl : L = level
      · subst hLl
        exact h8 L hne
      · rw [getD_set_of_ne _ _ _ _ _ hLl] at hL
        exact h8 L hL
    · intro L x hx
      by_cases hLl : L = level
      · subst hLl
        rw [getD_set_self _ _ _ _ h4] at hx
        rcases List.mem_append.mp hx with hx2 | hx2
        · exact h9 L x hx2
        · simp at hx2
          rw [hx2]
          exact Nat.mod_lt _ (by omega)
      · rw [getD_set_of_ne _ _ _ _ _ hLl] at hx
        exact h9 L x hx

end FST

namespace FST

theorem addLevel_child (b : Builder) (hlen : b.child_indicator_bits.length = b.labels.length) :
    (addLevel b).child_indicator_bits = b.child_indicator_bits ++ [[0]] := by
  rw [addLevel]
  simp only []
  show (b.child_indicator_bits ++ [[]]).set ((b.labels ++ [[]]).length - 1)
      (((b.child_indicator_bits ++ [[]]).getD ((b.labels ++ [[]]).length - 1) []) ++ [0]) =
    b.child_indicator_bits ++ [[0]]
  have hh : (b.labels ++ [[]]).length - 1 = b.child_indicator_bits.length := by
    simp [hlen]
  rw [hh, getD_append_len, set_append_len]
  rfl

theorem addLevel_bitsOk (b : Builder) : (addLevel b).bitsOk = b.bitsOk := rfl

theorem safeOk_parent_tail (b1 : Builder) (c level : Nat) (st tm : Bool)
    (t1 : b1.bitsOk = true)
    (t2 : b1.child_indicator_bits.length = b1.labels.length)
    (t3 : b1.louds_bits.length = b1.labels.length)
    (t4 : level < b1.labels.length)
    (t5 : ∀ L, L < b1.labels.length → L ≠ level → (b1.labels.getD L []) ≠ [])
    (t6 : ∀ L, L < b1.labels.length →
      (b1.labels.getD L []).length < 64 * (b1.child_indicator_bits.getD L []).length)
    (t7 : ∀ L, L < b1.labels.length →
      (b1.labels.getD L []).length < 64 * (b1.louds_bits.getD L []).length)
    (t8 : ∀ L, (b1.labels.getD L []) ≠ [] → readBit (b1.louds_bits.getD L []) 0 = true)
    (t9 : ∀ L x, x ∈ b1.labels.getD L [] → x < 256)
    (hst : st = true ∨ (b1.labels.getD level []) ≠ []) :
    safeOk (moveToNextItemSlot (setTermFlag (maybeBump (pushLabel
      (maybeParent (recordInsAssert b1 level) level) c level) level st) level tm) level) := by
  rw [maybeParent]
  split_ifs with hl0
  · obtain ⟨p1, p2, p3, p4⟩ := setCI_fields (recordInsAssert b1 level) (level - 1)
      (decPos ((recordInsAssert b1 level).numItems (level - 1)))
    have hlm : level - 1 < b1.labels.length := by omega
    have hlne : (level - 1) ≠ level := by omega
    have hni : (recordInsAssert b1 level).numItems (level - 1) =
        (b1.labels.getD (level - 1) []).length := rfl
    have hpos : decPos ((recordInsAssert b1 level).numItems (level - 1)) =
        (b1.labels.getD (level - 1) []).length - 1 := by
      rw [hni, decPos, if_neg]
      have := ne_nil_length _ (t5 (level - 1) hlm hlne)
      omega
    have hcap := t6 (level - 1) hlm
    refine safeOk_tail _ c level st tm ?_ ?_ ?_ ?_ ?_ ?_ ?_ ?_ ?_ ?_
    · rw [p4, hpos]
      have hok : bitOK ((recordInsAssert b1 level).child_indicator_bits.getD (level - 1) [])
          ((b1.labels.getD (level - 1) []).length - 1) = true := by
        refine bitOK_true _ _ ?_
        have := ne_nil_length _ (t5 (level - 1) hlm hlne)
        show (b1.labels.getD (level - 1) []).length - 1 <
          (b1.child_indicator_bits.getD (level - 1) []).length * 64
        omega
      rw [hok]
      show b1.bitsOk && true = true
      rw [t1]
      rfl
    · rw [p3]
      show (b1.child_indicator_bits.set (level - 1) _).length = b1.labels.length
      simp [t2]
    · exact t3
    · exact t4
    · exact t5
    · intro L hL
      rw [p3]
      show (b1.labels.getD L []).length <
        64 * ((b1.child_indicator_bits.set (level - 1)
          (setBitW (b1.child_indicator_bits.getD (level - 1) []) _)).getD L []).length
      by_cases hLl : L = level - 1
      · rw [hLl, getD_set_self _ _ _ _ (by omega : level - 1 < b1.child_indicator_bits.length)]
        rw [setBitW]
        simp only [List.length_set]
        exact t6 (level - 1) (by omega)
      · rw [getD_set_of_ne _ _ _ _ _ hLl]
        exact t6 L hL
    · exact t7
    · exact t8
    · exact t9
    · exact hst
  · exact safeOk_tail _ c level st tm t1 t2 t3 t4 t5 t6 t7 t8 t9 hst

theorem safeOk_insertKeyByte (b : Builder) (c level : Nat) (st tm : Bool)
    (hlev : level ≤ b.height)
    (hst : st = true ∨ isLevelEmpty b level = false)
    (h : safeOk b) :
    safeOk (insertKeyByte b c level st tm) := by
  obtain ⟨h1, h2, h3, h5, h6, h7, h8, h9⟩ := h
  rw [insertKeyByte]
  rw [maybeAddLevel]
  rcases Nat.lt_or_ge level b.height with hcase | hcase
  · rw [if_neg (by omega)]
    refine safeOk_parent_tail b c level st tm h1 h2 h3 hcase
      (fun L hL _ => h5 L hL) h6 h7 h8 h9 ?_
    rcases hst with hs | hs
    · exact Or.inl hs
    · refine Or.inr ?_
      rw [isLevelEmpty] at hs
      rcases Bool.or_eq_false_iff.mp hs with ⟨_, hs2⟩
      exact of_decide_eq_false hs2
  · have hcase2 : level = b.height := by omega
    rw [if_pos (by omega)]
    have hA1 := addLevel_bitsOk b
    have hA2 := addLevel_child b h2
    have hA3 := addLevel_louds b h3
    have hA4 := addLevel_labels b
    refine safeOk_parent_tail (addLevel b) c level st tm (hA1.trans h1) ?_ ?_ ?_ ?_ ?_ ?_ ?_ ?_ ?_
    · rw [hA2, hA4]
      simp [h2]
    · rw [hA3, hA4]
      simp [h3]
    · rw [hA4]
      rw [Builder.height] at hcase2
      simp [hcase2]
    · intro L hL hLne
      rw [hA4] at hL ⊢
      rw [Builder.height] at hcase2
      simp only [List.length_append, List.length_cons, List.length_nil] at hL
      have hLlt : L < b.labels.length := by omega
      rw [getD_append_lt _ _ _ _ hLlt]
      exact h5 L hLlt
    · intro L hL
      rw [hA4] at hL ⊢
      rw [hA2]
      rw [Builder.height] at hcase2
      simp only [List.length_append, List.length_cons, List.length_nil] at hL
      rcases Nat.lt_or_ge L b.labels.length with hLlt | hLge
      · rw [getD_append_lt _ _ _ _ hLlt, getD_append_lt _ _ _ _ (by omega)]
        exact h6 L hLlt
      · have hLeq : L = b.labels.length := by omega
        subst hLeq
        rw [getD_append_len, ← h2, getD_append_len]
        simp
    · intro L hL
      rw [hA4] at hL ⊢
      rw [hA3]
      rw [Builder.height] at hcase2
      simp only [List.length_append, List.length_cons, List.length_nil] at hL
      rcases Nat.lt_or_ge L b.labels.length with hLlt | hLge
      · rw [getD_append_lt _ _ _ _ hLlt, getD_append_lt _ _ _ _ (by omega)]
        exact h7 L hLlt
      · have hLeq : L = b.labels.length := by omega
        subst hLeq
        rw [getD_append_len, ← h3, getD_append_len]
        simp
    · intro L hL
      rw [hA4] at hL
      rw [hA3]
      rcases Nat.lt_or_ge L b.labels.length with hLlt | hLge
      · rw [getD_append_lt _ _ _ _ hLlt] at hL
        rw [getD_append_lt _ _ _ _ (by omega)]
        exact h8 L hL
      · rcases Nat.lt_or_ge L (b.labels.length + 1) with hL2 | hL2
        · have hLeq : L = b.labels.length := by omega
          subst hLeq
          rw [getD_append_len] at hL
          exact absurd rfl hL
        · rw [getD_oob _ _ _ (by simp; omega)] at hL
          exact absurd rfl hL
    · intro L x hx
      rw [hA4] at hx
      rcases Nat.lt_or_ge L b.labels.length with hLlt | hLge
      · rw [getD_append_lt _ _ _ _ hLlt] at hx
        exact h9 L x hx
      · rcases Nat.lt_or_ge L (b.labels.length + 1) with hL2 | hL2
        · have hLeq : L = b.labels.length := by omega
          subst hLeq
          rw [getD_append_len] at hx
          simp at hx
        · rw [getD_oob _ _ _ (by simp; omega)] at hx
          simp at hx
    · rcases hst with hs | hs
      · exact Or.inl hs
      · exfalso
        rw [isLevelEmpty] at hs
        rcases Bool.or_eq_false_iff.mp hs with ⟨hs1, _⟩
        exact absurd hcase2 (by
          have := of_decide_eq_false hs1
          omega)

end FST

namespace FST

theorem safeOk_congr (a b : Builder) (hb : a.bitsOk = b.bitsOk)
    (hc : a.child_indicator_bits = b.child_indicator_bits)
    (hla : a.labels = b.labels) (hlo : a.louds_bits = b.louds_bits)
    (h : safeOk b) : safeOk a := by
  unfold safeOk at h ⊢
  rw [hb, hc, hla, hlo]
  exact h

theorem height_insertKeyByte_eq (b : Builder) (c level : Nat) (st tm : Bool) :
    (insertKeyByte b c level st tm).height =
      (if level ≥ b.height then b.height + 1 else b.height) := by
  rw [insertKeyByte]
  have h1 : ∀ b2 : Builder, (moveToNextItemSlot b2 level).height = b2.height := by
    intro b2
    rw [moveToNextItemSlot]
    split_ifs <;> rfl
  have h2 : ∀ b2 : Builder, (setTermFlag b2 level tm).height = b2.height := fun _ => rfl
  have h3 : ∀ b2 : Builder, (maybeBump b2 level st).height = b2.height := by
    intro b2
    rw [maybeBump]
    cases st
    · rfl
    · simp only [if_true]
      rfl
  have h4 : ∀ (b2 : Builder) (c2 : Nat), (pushLabel b2 c2 level).height = b2.height := by
    intro b2 c2
    rw [pushLabel, Builder.height, Builder.height]
    simp
  have h5 : ∀ b2 : Builder, (maybeParent b2 level).height = b2.height := by
    intro b2
    rw [maybeParent]
    split_ifs <;> rfl
  have h6 : ∀ b2 : Builder, (recordInsAssert b2 level).height = b2.height := fun _ => rfl
  rw [h1, h2, h3, h4, h5, h6, maybeAddLevel]
  split_ifs with hc
  · show (addLevel b).labels.length = b.labels.length + 1
    rw [addLevel_labels]
    simp
  · rfl

theorem safeOk_setCI_slot (b : Builder) (level : Nat) (h : safeOk b)
    (hlev : level < b.labels.length) :
    safeOk (setCI b level (decPos (b.numItems level))) := by
  obtain ⟨h1, h2, h3, h5, h6, h7, h8, h9⟩ := h
  obtain ⟨p1, p2, p3, p4⟩ := setCI_fields b level (decPos (b.numItems level))
  have hni : b.numItems level = (b.labels.getD level []).length := rfl
  have hne := ne_nil_length _ (h5 level hlev)
  have hpos : decPos (b.numItems level) = (b.labels.getD level []).length - 1 := by
    rw [hni, decPos, if_neg (by omega)]
  have hcap := h6 level hlev
  refine ⟨?_, ?_, p2 ▸ h3, ?_, ?_, ?_, ?_, ?_⟩
  · rw [p4, hpos]
    have hok : bitOK (b.child_indicator_bits.getD level [])
        ((b.labels.getD level []).length - 1) = true := by
      refine bitOK_true _ _ ?_
      omega
    rw [hok, h1]
    rfl
  · rw [p3, p1]
    simp [h2]
  · intro L hL
    rw [p1] at hL ⊢
    exact h5 L hL
  · intro L hL
    rw [p1] at hL ⊢
    rw [p3]
    by_cases hLl : L = level
    · rw [hLl, getD_set_self _ _ _ _ (by omega : level < b.child_indicator_bits.length)]
      rw [setBitW]
      simp only [List.length_set]
      exact h6 level hlev
    · rw [getD_set_of_ne _ _ _ _ _ hLl]
      exact h6 L hL
  · intro L hL
    rw [p1] at hL ⊢
    rw [p2]
    exact h7 L hL
  · intro L hL
    rw [p1] at hL
    rw [p2]
    exact h8 L hL
  · intro L x hx
    rw [p1] at hx
    exact h9 L x hx

theorem setCI_height (b : Builder) (level pos : Nat) : (setCI b level pos).height = b.height :=
  rfl

theorem safeOk_skipLoop (key : List Nat) :
    ∀ (fuel : Nat) (b : Builder) (level : Nat), safeOk b → level ≤ b.height →
      safeOk (skipLoop key fuel b level).1 ∧
      (skipLoop key fuel b level).2 ≤ (skipLoop key fuel b level).1.height
  | 0, b, level, h, hl => ⟨h, hl⟩
  | fuel + 1, b, level, h, hl => by
    rw [skipLoop]
    split_ifs with hc
    · have hcp : isCharCommonPref b (key.getD level 0) level = true :=
        (Bool.and_eq_true_iff.mp hc).2
      rw [isCharCommonPref] at hcp
      have hlt : level < b.height :=
        of_decide_eq_true (Bool.and_eq_true_iff.mp
          (Bool.and_eq_true_iff.mp hcp).1).1
      exact safeOk_skipLoop key fuel _ (level + 1)
        (safeOk_setCI_slot b level h hlt) (by rw [setCI_height]; omega)
    · exact ⟨h, hl⟩

theorem safeOk_insLoop (key next : List Nat) :
    ∀ (fuel : Nat) (b : Builder) (level : Nat), safeOk b → level ≤ b.height →
      safeOk (insLoop key next fuel b level).1
  | 0, b, level, h, hl => h
  | fuel + 1, b, level, h, hl => by
    rw [insLoop]
    split_ifs with hc
    · refine safeOk_insLoop key next fuel _ (level + 1)
        (safeOk_insertKeyByte b _ level true false hl (Or.inl rfl) h) ?_
      rw [height_insertKeyByte_eq]
      split_ifs <;> omega
    · exact h

theorem safeOk_insertUnique (b : Builder) (key : List Nat) (pos : Nat) (next : List Nat)
    (sl : Nat) (h : safeOk b) (hsl : sl ≤ b.height) :
    safeOk (insertKeyBytesToTrieUntilUnique b key pos next sl).1 := by
  rw [insertKeyBytesToTrieUntilUnique]
  simp only []
  have hb2 : safeOk { b with assertsOk := b.assertsOk && decide (sl < key.length) } :=
    safeOk_congr _ b rfl rfl rfl rfl h
  have hst : isLevelEmpty { b with assertsOk := b.assertsOk && decide (sl < key.length) } sl
        = true ∨
      isLevelEmpty { b with assertsOk := b.assertsOk && decide (sl < key.length) } sl
        = false := by
    rcases isLevelEmpty { b with assertsOk := b.assertsOk && decide (sl < key.length) } sl
    · exact Or.inr rfl
    · exact Or.inl rfl
  have hins : safeOk (insertKeyByte
      { b with assertsOk := b.assertsOk && decide (sl < key.length) } (key.getD sl 0) sl
      (isLevelEmpty { b with assertsOk := b.assertsOk && decide (sl < key.length) } sl)
      false) := by
    refine safeOk_insertKeyByte _ _ _ _ _ hsl ?_ hb2
    rcases hst with hs | hs
    · exact Or.inl hs
    · exact Or.inr hs
  split_ifs with hc
  · exact safeOk_congr _ _ rfl rfl rfl rfl hins
  · refine safeOk_congr _ _ rfl rfl rfl rfl ?_
    refine safeOk_insLoop _ _ _ _ _ hins ?_
    rw [height_insertKeyByte_eq]
    have hh : ({ b with assertsOk := b.assertsOk && decide (sl < key.length) } : Builder).height
        = b.height := rfl
    rw [hh]
    split_ifs <;> omega

theorem safeOk_buildSparseLoop (keys : List (List Nat)) :
    ∀ (fuel : Nat) (b : Builder) (i : Nat), safeOk b →
      safeOk (buildSparseLoop keys fuel b i).1
  | 0, b, i, h => h
  | fuel + 1, b, i, h => by
    rw [buildSparseLoop]
    by_cases hc : i < keys.length
    · rw [if_pos hc]
      simp only []
      obtain ⟨hsk, hsk2⟩ := safeOk_skipLoop (keys.getD i []) (keys.getD i []).length b 0 h
        (by omega)
      split_ifs with h2
      · exact safeOk_buildSparseLoop keys fuel _ _
          (safeOk_insertUnique _ _ _ _ _ hsk hsk2)
      · exact safeOk_buildSparseLoop keys fuel _ _
          (safeOk_insertUnique _ _ _ _ _ hsk hsk2)
    · rw [if_neg hc]
      exact h

end FST

namespace FST

theorem getD_mem {α : Type} (v : List α) (p : Nat) (d : α) (h : p < v.length) :
    v.getD p d ∈ v := by
  induction v generalizing p with
  | nil => simp at h
  | cons a tl ih =>
    cases p with
    | zero => simp
    | succ p2 =>
      simp only [List.getD_cons_succ]
      exact List.mem_cons_of_mem a (ih p2 (by simpa using h))

theorem onesUpto_mul64 (v : List Nat) :
    ∀ k : Nat, onesUpto v (64 * k) =
      ((List.range k).map fun i => popcount (v.getD i 0)).sum := by
  intro k
  induction k with
  | zero => rfl
  | succ k2 ih =>
    have he : 64 * (k2 + 1) = 64 * k2 + 64 := by ring
    rw [he, onesUpto_word_split v k2 64 (le_refl 64), ih, ← popcount_eq_onesInWordUpto,
      List.range_succ, List.map_append, List.sum_append]
    simp

theorem map_popcount_range (v : List Nat) :
    v.map popcount = (List.range v.length).map fun i => popcount (v.getD i 0) := by
  induction v with
  | nil => rfl
  | cons w tl ih =>
    simp only [List.map_cons, List.length_cons, List.range_succ_eq_map, List.map_map]
    rw [ih]
    rfl

theorem popcountVec_eq_onesUpto (v : List Nat) :
    popcountVec v = onesUpto v (64 * v.length) := by
  rw [popcountVec, onesUpto_mul64 v v.length, map_popcount_range]

theorem nodeNumAt_onesUpto (lv : List Nat) (pos : Nat) :
    onesUpto lv (pos + 1) = (if readBit lv 0 then 1 else 0) + nodeNumAt lv pos := by
  have hins : Finset.range (pos + 1) = insert 0 (Finset.Icc 1 pos) := by
    ext i
    simp only [Finset.mem_range, Finset.mem_insert, Finset.mem_Icc]
    omega
  rw [onesUpto, hins, Finset.filter_insert]
  split_ifs with h0
  · rw [Finset.card_insert_of_not_mem (by simp)]
    rw [nodeNumAt]
    omega
  · rw [nodeNumAt]
    omega

theorem nodeNumAt_succ (lv : List Nat) (pos : Nat) (h : 1 ≤ pos) :
    nodeNumAt lv pos = nodeNumAt lv (pos - 1) + (if readBit lv pos then 1 else 0) := by
  have hins : Finset.Icc 1 pos = insert pos (Finset.Icc 1 (pos - 1)) := by
    ext i
    simp only [Finset.mem_insert, Finset.mem_Icc]
    omega
  rw [nodeNumAt, hins, Finset.filter_insert]
  split_ifs with h0
  · rw [Finset.card_insert_of_not_mem (by simp; omega)]
    rw [nodeNumAt]
  · rw [nodeNumAt]
    omega

theorem nodeNumAt_zero (lv : List Nat) : nodeNumAt lv 0 = 0 := by
  rw [nodeNumAt]
  have : Finset.Icc 1 0 = (∅ : Finset Nat) := rfl
  rw [this]
  rfl

theorem nodeNumAt_bound (lv : List Nat) (nc pos : Nat) (hpc : popcountVec lv = nc)
    (hbit0 : readBit lv 0 = true) (hlt : pos + 1 ≤ 64 * lv.length) :
    nodeNumAt lv pos + 1 ≤ nc := by
  have h1 := nodeNumAt_onesUpto lv pos
  rw [hbit0] at h1
  simp only [if_true] at h1
  have h2 : onesUpto lv (pos + 1) ≤ onesUpto lv (64 * lv.length) :=
    countUpto_mono _ _ _ hlt
  have h3 := popcountVec_eq_onesUpto lv
  omega

theorem popcountVec_pos (lv : List Nat) (hbit0 : readBit lv 0 = true)
    (hlen : 1 ≤ lv.length) : 1 ≤ popcountVec lv := by
  have h1 := nodeNumAt_onesUpto lv 0
  rw [hbit0] at h1
  simp only [if_true] at h1
  have h2 : onesUpto lv (0 + 1) ≤ onesUpto lv (64 * lv.length) :=
    countUpto_mono _ _ _ (by omega)
  have h3 := popcountVec_eq_onesUpto lv
  omega

theorem flagLouds_facts (b : Builder) (level pos : Nat) :
    (flagLouds b level pos).labels = b.labels ∧
    (flagLouds b level pos).louds_bits = b.louds_bits ∧
    (flagLouds b level pos).child_indicator_bits = b.child_indicator_bits ∧
    (flagLouds b level pos).bitmap_labels = b.bitmap_labels ∧
    (flagLouds b level pos).bitmap_child_indicator_bits = b.bitmap_child_indicator_bits ∧
    (flagLouds b level pos).prefixkey_indicator_bits = b.prefixkey_indicator_bits ∧
    (flagLouds b level pos).bitsOk = (b.bitsOk && bitOK (b.louds_bits.getD level []) pos) :=
  ⟨rfl, rfl, rfl, rfl, rfl, rfl, rfl⟩

theorem flagCI_facts (b : Builder) (level pos : Nat) :
    (flagCI b level pos).labels = b.labels ∧
    (flagCI b level pos).louds_bits = b.louds_bits ∧
    (flagCI b level pos).child_indicator_bits = b.child_indicator_bits ∧
    (flagCI b level pos).bitmap_labels = b.bitmap_labels ∧
    (flagCI b level pos).bitmap_child_indicator_bits = b.bitmap_child_indicator_bits ∧
    (flagCI b level pos).prefixkey_indicator_bits = b.prefixkey_indicator_bits ∧
    (flagCI b level pos).bitsOk =
      (b.bitsOk && bitOK (b.child_indicator_bits.getD level []) pos) :=
  ⟨rfl, rfl, rfl, rfl, rfl, rfl, rfl⟩

theorem setPK_facts (b : Builder) (level pos : Nat) :
    (setPK b level pos).labels = b.labels ∧
    (setPK b level pos).louds_bits = b.louds_bits ∧
    (setPK b level pos).child_indicator_bits = b.child_indicator_bits ∧
    (setPK b level pos).bitmap_labels = b.bitmap_labels ∧
    (setPK b level pos).bitmap_child_indicator_bits = b.bitmap_child_indicator_bits ∧
    (setPK b level pos).prefixkey_indicator_bits =
      b.prefixkey_indicator_bits.set level
        (setBitW (b.prefixkey_indicator_bits.getD level []) pos) ∧
    (setPK b level pos).bitsOk =
      (b.bitsOk && bitOK (b.prefixkey_indicator_bits.getD level []) pos) :=
  ⟨rfl, rfl, rfl, rfl, rfl, rfl, rfl⟩

theorem setBL_facts (b : Builder) (level pos : Nat) :
    (setBL b level pos).labels = b.labels ∧
    (setBL b level pos).louds_bits = b.louds_bits ∧
    (setBL b level pos).child_indicator_bits = b.child_indicator_bits ∧
    (setBL b level pos).bitmap_labels =
      b.bitmap_labels.set level (setBitW (b.bitmap_labels.getD level []) pos) ∧
    (setBL b level pos).bitmap_child_indicator_bits = b.bitmap_child_indicator_bits ∧
    (setBL b level pos).prefixkey_indicator_bits = b.prefixkey_indicator_bits ∧
    (setBL b level pos).bitsOk =
      (b.bitsOk && bitOK (b.bitmap_labels.getD level []) pos) :=
  ⟨rfl, rfl, rfl, rfl, rfl, rfl, rfl⟩

theorem setBCI_facts (b : Builder) (level pos : Nat) :
    (setBCI b level pos).labels = b.labels ∧
    (setBCI b level pos).louds_bits = b.louds_bits ∧
    (setBCI b level pos).child_indicator_bits = b.child_indicator_bits ∧
    (setBCI b level pos).bitmap_labels = b.bitmap_labels ∧
    (setBCI b level pos).bitmap_child_indicator_bits =
      b.bitmap_child_indicator_bits.set level
        (setBitW (b.bitmap_child_indicator_bits.getD level []) pos) ∧
    (setBCI b level pos).prefixkey_indicator_bits = b.prefixkey_indicator_bits ∧
    (setBCI b level pos).bitsOk =
      (b.bitsOk && bitOK (b.bitmap_child_indicator_bits.getD level []) pos) :=
  ⟨rfl, rfl, rfl, rfl, rfl, rfl, rfl⟩

end FST

namespace FST

theorem setBitW_length (v : List Nat) (p : Nat) : (setBitW v p).length = v.length := by
  rw [setBitW]
  simp

theorem getD_set_setBitW_len (v : List (List Nat)) (level q : Nat) :
    ((v.set level (setBitW (v.getD level []) q)).getD level []).length =
      (v.getD level []).length := by
  by_cases hin : level < v.length
  · rw [getD_set_self _ _ _ _ hin, setBitW_length]
  · rw [set_oob _ _ _ (by omega)]

theorem setLCIB_facts (b : Builder) (level node_num pos : Nat)
    (hok : b.bitsOk = true)
    (hq : node_num * kFanout + (b.labels.getD level []).getD pos 0 <
      64 * (b.bitmap_labels.getD level []).length)
    (hq2 : node_num * kFanout + (b.labels.getD level []).getD pos 0 <
      64 * (b.bitmap_child_indicator_bits.getD level []).length)
    (hp : pos < 64 * (b.child_indicator_bits.getD level []).length) :
    (setLabelAndChildIndicatorBitmap b level node_num pos).labels = b.labels ∧
    (setLabelAndChildIndicatorBitmap b level node_num pos).louds_bits = b.louds_bits ∧
    (setLabelAndChildIndicatorBitmap b level node_num pos).child_indicator_bits =
      b.child_indicator_bits ∧
    ((setLabelAndChildIndicatorBitmap b level node_num pos).bitmap_labels.getD level []).length =
      (b.bitmap_labels.getD level []).length ∧
    ((setLabelAndChildIndicatorBitmap b level node_num
      pos).bitmap_child_indicator_bits.getD level []).length =
      (b.bitmap_child_indicator_bits.getD level []).length ∧
    (setLabelAndChildIndicatorBitmap b level node_num pos).prefixkey_indicator_bits =
      b.prefixkey_indicator_bits ∧
    (setLabelAndChildIndicatorBitmap b level node_num pos).bitmap_labels.length =
      b.bitmap_labels.length ∧
    (setLabelAndChildIndicatorBitmap b level node_num pos).bitmap_child_indicator_bits.length =
      b.bitmap_child_indicator_bits.length ∧
    (setLabelAndChildIndicatorBitmap b level node_num pos).bitsOk = true := by
  rw [setLabelAndChildIndicatorBitmap]
  have e1 : (setBL b level (node_num * kFanout + (b.labels.getD level []).getD pos 0)).bitsOk
      = true := by
    rw [(setBL_facts b level _).2.2.2.2.2.2, hok, bitOK_true _ _ (by omega)]
    rfl
  have e2 : (flagCI (setBL b level (node_num * kFanout + (b.labels.getD level []).getD pos 0))
      level pos).bitsOk = true := by
    rw [(flagCI_facts _ level pos).2.2.2.2.2.2, e1,
      (setBL_facts b level _).2.2.1, bitOK_true _ _ (by omega)]
    rfl
  have hbl : ((b.bitmap_labels.set level
      (setBitW (b.bitmap_labels.getD level [])
        (node_num * kFanout + (b.labels.getD level []).getD pos 0))).getD level []).length =
      (b.bitmap_labels.getD level []).length := by
    by_cases hin : level < b.bitmap_labels.length
    · rw [getD_set_self _ _ _ _ hin, setBitW_length]
    · rw [set_oob _ _ _ (by omega)]
  split_ifs with hc
  · refine ⟨rfl, rfl, rfl, ?_, ?_, rfl, ?_, ?_, ?_⟩
    · exact hbl
    · show ((b.bitmap_child_indicator_bits.set level
        (setBitW (b.bitmap_child_indicator_bits.getD level []) _)).getD level []).length =
        (b.bitmap_child_indicator_bits.getD level []).length
      by_cases hin : level < b.bitmap_child_indicator_bits.length
      · rw [getD_set_self _ _ _ _ hin, setBitW_length]
      · rw [set_oob _ _ _ (by omega)]
    · rw [(setBCI_facts _ level _).2.2.2.1, (flagCI_facts _ level pos).2.2.2.1,
        (setBL_facts b level _).2.2.2.1, List.length_set]
    · rw [(setBCI_facts _ level _).2.2.2.2.1, List.length_set,
        (flagCI_facts _ level pos).2.2.2.2.1, (setBL_facts b level _).2.2.2.2.1]
    · rw [(setBCI_facts _ level _).2.2.2.2.2.2, e2,
        (flagCI_facts _ level pos).2.2.2.2.1, (setBL_facts b level _).2.2.2.2.1,
        bitOK_true _ _ (by omega)]
      rfl
  · refine ⟨rfl, rfl, rfl, ?_, rfl, rfl, ?_, rfl, e2⟩
    · exact hbl
    · rw [(flagCI_facts _ level pos).2.2.2.1, (setBL_facts b level _).2.2.2.1, List.length_set]

theorem denseInner_ok (level : Nat) (lab lv ci : List Nat) (nc : Nat)
    (hpc : popcountVec lv = nc)
    (hcapl : lab.length < 64 * lv.length)
    (hcapc : lab.length < 64 * ci.length)
    (hbit0 : readBit lv 0 = true)
    (hlab : ∀ x ∈ lab, x < 256) :
    ∀ (fuel : Nat) (b : Builder) (pos node_num : Nat),
      b.labels.getD level [] = lab →
      b.louds_bits.getD level [] = lv →
      b.child_indicator_bits.getD level [] = ci →
      (b.bitmap_labels.getD level []).length = 4 * nc →
      (b.bitmap_child_indicator_bits.getD level []).length = 4 * nc →
      (b.prefixkey_indicator_bits.getD level []).length = (nc + 63) / 64 →
      b.bitsOk = true →
      1 ≤ pos →
      node_num = nodeNumAt lv (pos - 1) →
      (denseInner level fuel b pos node_num).bitsOk = true
  | 0, b, pos, node_num, e1, e2, e3, e4, e5, e6, e7, e8, e9 => e7
  | fuel + 1, b, pos, node_num, e1, e2, e3, e4, e5, e6, e7, e8, e9 => by
    rw [denseInner]
    simp only []
    have hni : b.numItems level = lab.length := by
      rw [Builder.numItems, e1]
    split_ifs with hlt hstart hterm
    all_goals rw [hni] at hlt
    -- node start, terminator slot
    · have hrb : readBit lv pos = true := by
        rw [isStartOfNode, (flagLouds_facts b level pos).2.1, e2] at hstart
        exact hstart
      have hnn : node_num + 1 = nodeNumAt lv pos := by
        rw [nodeNumAt_succ lv pos e8, hrb, ← e9]
        rfl
      have hbound : nodeNumAt lv pos + 1 ≤ nc :=
        nodeNumAt_bound lv nc pos hpc hbit0 (by omega)
      have hokL : (flagLouds b level pos).bitsOk = true := by
        rw [(flagLouds_facts b level pos).2.2.2.2.2.2, e7, e2, bitOK_true _ _ (by omega)]
        rfl
      have hokC : (flagCI (flagLouds b level pos) level pos).bitsOk = true := by
        rw [(flagCI_facts _ level pos).2.2.2.2.2.2, hokL,
          (flagLouds_facts b level pos).2.2.1, e3, bitOK_true _ _ (by omega)]
        rfl
      refine denseInner_ok level lab lv ci nc hpc hcapl hcapc hbit0 hlab fuel _ (pos + 1)
        (node_num + 1) ?_ ?_ ?_ ?_ ?_ ?_ ?_ (by omega) ?_
      · rw [(setPK_facts _ level _).1, (flagCI_facts _ level pos).1,
          (flagLouds_facts b level pos).1, e1]
      · rw [(setPK_facts _ level _).2.1, (flagCI_facts _ level pos).2.1,
          (flagLouds_facts b level pos).2.1, e2]
      · rw [(setPK_facts _ level _).2.2.1, (flagCI_facts _ level pos).2.2.1,
          (flagLouds_facts b level pos).2.2.1, e3]
      · rw [(setPK_facts _ level _).2.2.2.1, (flagCI_facts _ level pos).2.2.2.1,
          (flagLouds_facts b level pos).2.2.2.1, e4]
      · rw [(setPK_facts _ level _).2.2.2.2.1, (flagCI_facts _ level pos).2.2.2.2.1,
          (flagLouds_facts b level pos).2.2.2.2.1, e5]
      · rw [(setPK_facts _ level _).2.2.2.2.2.1, getD_set_setBitW_len,
          (flagCI_facts _ level pos).2.2.2.2.2.1, (flagLouds_facts b level pos).2.2.2.2.2.1, e6]
      · rw [(setPK_facts _ level _).2.2.2.2.2.2, hokC,
          (flagCI_facts _ level pos).2.2.2.2.2.1, (flagLouds_facts b level pos).2.2.2.2.2.1]
        rw [bitOK_true, Bool.true_and]
        rw [e6]
        omega
      · rw [hnn]
        rfl
    -- node start, ordinary slot
    · have hrb : readBit lv pos = true := by
        rw [isStartOfNode, (flagLouds_facts b level pos).2.1, e2] at hstart
        exact hstart
      have hnn : node_num + 1 = nodeNumAt lv pos := by
        rw [nodeNumAt_succ lv pos e8, hrb, ← e9]
        rfl
      have hbound : nodeNumAt lv pos + 1 ≤ nc :=
        nodeNumAt_bound lv nc pos hpc hbit0 (by omega)
      have hokL : (flagLouds b level pos).bitsOk = true := by
        rw [(flagLouds_facts b level pos).2.2.2.2.2.2, e7, e2, bitOK_true _ _ (by omega)]
        rfl
      have hokC : (flagCI (flagLouds b level pos) level pos).bitsOk = true := by
        rw [(flagCI_facts _ level pos).2.2.2.2.2.2, hokL,
          (flagLouds_facts b level pos).2.2.1, e3, bitOK_true _ _ (by omega)]
        rfl
      have hlabel : ((flagCI (flagLouds b level pos) level pos).labels.getD
          level []).getD pos 0 < 256 := by
        rw [(flagCI_facts _ level pos).1, (flagLouds_facts b level pos).1, e1]
        exact hlab _ (getD_mem _ _ _ hlt)
      obtain ⟨s1, s2, s3, s4, s5, s6, s7, s8, s9⟩ :=
        setLCIB_facts (flagCI (flagLouds b level pos) level pos) level (node_num + 1) pos
          hokC
          (by
            rw [(flagCI_facts _ level pos).2.2.2.1, (flagLouds_facts b level pos).2.2.2.1, e4]
            rw [kFanout]
            have := hlabel
            omega)
          (by
            rw [(flagCI_facts _ level pos).2.2.2.2.1, (flagLouds_facts b level pos).2.2.2.2.1,
              e5]
            rw [kFanout]
            have := hlabel
            omega)
          (by
            rw [(flagCI_facts _ level pos).2.2.1, (flagLouds_facts b level pos).2.2.1, e3]
            omega)
      refine denseInner_ok level lab lv ci nc hpc hcapl hcapc hbit0 hlab fuel _ (pos + 1)
        (node_num + 1) ?_ ?_ ?_ ?_ ?_ ?_ s9 (by omega) ?_
      · rw [s1, (flagCI_facts _ level pos).1, (flagLouds_facts b level pos).1, e1]
      · rw [s2, (flagCI_facts _ level pos).2.1, (flagLouds_facts b level pos).2.1, e2]
      · rw [s3, (flagCI_facts _ level pos).2.2.1, (flagLouds_facts b level pos).2.2.1, e3]
      · rw [s4, (flagCI_facts _ level pos).2.2.2.1, (flagLouds_facts b level pos).2.2.2.1, e4]
      · rw [s5, (flagCI_facts _ level pos).2.2.2.2.1, (flagLouds_facts b level pos).2.2.2.2.1,
          e5]
      · rw [s6, (flagCI_facts _ level pos).2.2.2.2.2.1,
          (flagLouds_facts b level pos).2.2.2.2.2.1, e6]
      · rw [hnn]
        rfl
    -- not a node start
    · have hrb : readBit lv pos = false := by
        rw [isStartOfNode, (flagLouds_facts b level pos).2.1, e2] at hstart
        exact Bool.of_not_eq_true hstart
      have hnn : node_num = nodeNumAt lv pos := by
        rw [nodeNumAt_succ lv pos e8, hrb, ← e9]
        rfl
      have hbound : nodeNumAt lv pos + 1 ≤ nc :=
        nodeNumAt_bound lv nc pos hpc hbit0 (by omega)
      have hokL : (flagLouds b level pos).bitsOk = true := by
        rw [(flagLouds_facts b level pos).2.2.2.2.2.2, e7, e2, bitOK_true _ _ (by omega)]
        rfl
      have hlabel : ((flagLouds b level pos).labels.getD level []).getD pos 0 < 256 := by
        rw [(flagLouds_facts b level pos).1, e1]
        exact hlab _ (getD_mem _ _ _ hlt)
      obtain ⟨s1, s2, s3, s4, s5, s6, s7, s8, s9⟩ :=
        setLCIB_facts (flagLouds b level pos) level node_num pos
          hokL
          (by
            rw [(flagLouds_facts b level pos).2.2.2.1, e4, kFanout]
            have := hlabel
            omega)
          (by
            rw [(flagLouds_facts b level pos).2.2.2.2.1, e5, kFanout]
            have := hlabel
            omega)
          (by
            rw [(flagLouds_facts b level pos).2.2.1, e3]
            omega)
      refine denseInner_ok level lab lv ci nc hpc hcapl hcapc hbit0 hlab fuel _ (pos + 1)
        node_num ?_ ?_ ?_ ?_ ?_ ?_ s9 (by omega) ?_
      · rw [s1, (flagLouds_facts b level pos).1, e1]
      · rw [s2, (flagLouds_facts b level pos).2.1, e2]
      · rw [s3, (flagLouds_facts b level pos).2.2.1, e3]
      · rw [s4, (flagLouds_facts b level pos).2.2.2.1, e4]
      · rw [s5, (flagLouds_facts b level pos).2.2.2.2.1, e5]
      · rw [s6, (flagLouds_facts b level pos).2.2.2.2.2.1, e6]
      · rw [hnn]
        rfl
    -- loop done
    · exact e7

end FST

namespace FST

theorem lengths_setLCIB (b : Builder) (l n p : Nat) :
    (setLabelAndChildIndicatorBitmap b l n p).bitmap_labels.length = b.bitmap_labels.length ∧
    (setLabelAndChildIndicatorBitmap b l n p).bitmap_child_indicator_bits.length =
      b.bitmap_child_indicator_bits.length ∧
    (setLabelAndChildIndicatorBitmap b l n p).prefixkey_indicator_bits.length =
      b.prefixkey_indicator_bits.length := by
  rw [setLabelAndChildIndicatorBitmap]
  split_ifs with hc
  · refine ⟨?_, ?_, rfl⟩
    · rw [(setBCI_facts _ l _).2.2.2.1, (flagCI_facts _ l p).2.2.2.1,
        (setBL_facts b l _).2.2.2.1, List.length_set]
    · rw [(setBCI_facts _ l _).2.2.2.2.1, List.length_set,
        (flagCI_facts _ l p).2.2.2.2.1, (setBL_facts b l _).2.2.2.2.1]
  · refine ⟨?_, rfl, rfl⟩
    · rw [(flagCI_facts _ l p).2.2.2.1, (setBL_facts b l _).2.2.2.1, List.length_set]

theorem lengths_denseInner (level : Nat) :
    ∀ (fuel : Nat) (b : Builder) (pos nn : Nat),
    (denseInner level fuel b pos nn).bitmap_labels.length = b.bitmap_labels.length ∧
    (denseInner level fuel b pos nn).bitmap_child_indicator_bits.length =
      b.bitmap_child_indicator_bits.length ∧
    (denseInner level fuel b pos nn).prefixkey_indicator_bits.length =
      b.prefixkey_indicator_bits.length
  | 0, b, pos, nn => ⟨rfl, rfl, rfl⟩
  | fuel + 1, b, pos, nn => by
    rw [denseInner]
    simp only []
    split_ifs with h1 h2 h3
    · obtain ⟨a1, a2, a3⟩ := lengths_denseInner level fuel
        (setPK (flagCI (flagLouds b level pos) level pos) level (nn + 1)) (pos + 1) (nn + 1)
      refine ⟨?_, ?_, ?_⟩
      · rw [a1]
        rfl
      · rw [a2]
        rfl
      · rw [a3, (setPK_facts _ level _).2.2.2.2.2.1, List.length_set]
        rfl
    · obtain ⟨a1, a2, a3⟩ := lengths_denseInner level fuel
        (setLabelAndChildIndicatorBitmap (flagCI (flagLouds b level pos) level pos)
          level (nn + 1) pos) (pos + 1) (nn + 1)
      obtain ⟨c1, c2, c3⟩ := lengths_setLCIB (flagCI (flagLouds b level pos) level pos)
        level (nn + 1) pos
      exact ⟨by rw [a1, c1]; rfl, by rw [a2, c2]; rfl, by rw [a3, c3]; rfl⟩
    · obtain ⟨a1, a2, a3⟩ := lengths_denseInner level fuel
        (setLabelAndChildIndicatorBitmap (flagLouds b level pos) level nn pos) (pos + 1) nn
      obtain ⟨c1, c2, c3⟩ := lengths_setLCIB (flagLouds b level pos) level nn pos
      exact ⟨by rw [a1, c1]; rfl, by rw [a2, c2]; rfl, by rw [a3, c3]; rfl⟩
    · exact ⟨rfl, rfl, rfl⟩

theorem getD_append_at {α : Type} (v : List α) (x : α) (d : α) (j : Nat)
    (h : v.length = j) : (v ++ [x]).getD j d = x := by
  rw [← h, getD_append_len]

theorem denseLevel_ok (b : Builder) (level : Nat)
    (hlou : loudsOk b) (hsafe : safeOk b)
    (hbl : b.bitmap_labels.length = level)
    (hbc : b.bitmap_child_indicator_bits.length = level)
    (hpk : b.prefixkey_indicator_bits.length = level)
    (hlev : level < b.labels.length) :
    (denseLevel b level).bitsOk = true ∧
    (denseLevel b level).bitmap_labels.length = level + 1 ∧
    (denseLevel b level).bitmap_child_indicator_bits.length = level + 1 ∧
    (denseLevel b level).prefixkey_indicator_bits.length = level + 1 := by
  obtain ⟨hok, hcl, hll, hne, hcap5, hcap6, hb0, h256⟩ := hsafe
  obtain ⟨hw1, hw2, hw3⟩ := hlou
  have hpc : popcountVec (b.louds_bits.getD level []) = b.node_counts.getD level 0 :=
    (hw3 level).1
  have hcapl : (b.labels.getD level []).length < 64 * (b.louds_bits.getD level []).length :=
    hcap6 level hlev
  have hcapc : (b.labels.getD level []).length <
      64 * (b.child_indicator_bits.getD level []).length := hcap5 level hlev
  have hneq : b.labels.getD level [] ≠ [] := hne level hlev
  have hbit0 : readBit (b.louds_bits.getD level []) 0 = true := hb0 level hneq
  have hlab : ∀ x ∈ b.labels.getD level [], x < 256 := h256 level
  have hlen1 : 1 ≤ (b.labels.getD level []).length := ne_nil_length _ hneq
  have hnc1 : 1 ≤ b.node_counts.getD level 0 := by
    rw [← hpc]
    exact popcountVec_pos _ hbit0 (by omega)
  have i1 : (initDenseVectors b level).bitmap_labels =
      b.bitmap_labels ++ [List.replicate (4 * b.node_counts.getD level 0) 0] := rfl
  have i2 : (initDenseVectors b level).bitmap_child_indicator_bits =
      b.bitmap_child_indicator_bits ++
        [List.replicate (4 * b.node_counts.getD level 0) 0] := rfl
  have i3 : (initDenseVectors b level).prefixkey_indicator_bits =
      b.prefixkey_indicator_bits ++
        [List.replicate ((b.node_counts.getD level 0 + 63) / 64) 0] := rfl
  have i4 : (initDenseVectors b level).labels = b.labels := rfl
  have i5 : (initDenseVectors b level).louds_bits = b.louds_bits := rfl
  have i6 : (initDenseVectors b level).child_indicator_bits = b.child_indicator_bits := rfl
  have i7 : (initDenseVectors b level).bitsOk = b.bitsOk := rfl
  have hg1 : ((initDenseVectors b level).bitmap_labels.getD level []).length =
      4 * b.node_counts.getD level 0 := by
    rw [i1, getD_append_at _ _ _ _ hbl, List.length_replicate]
  have hg2 : ((initDenseVectors b level).bitmap_child_indicator_bits.getD level []).length =
      4 * b.node_counts.getD level 0 := by
    rw [i2, getD_append_at _ _ _ _ hbc, List.length_replicate]
  have hg3 : ((initDenseVectors b level).prefixkey_indicator_bits.getD level []).length =
      (b.node_counts.getD level 0 + 63) / 64 := by
    rw [i3, getD_append_at _ _ _ _ hpk, List.length_replicate]
  have hokC : (flagCI (initDenseVectors b level) level 0).bitsOk = true := by
    rw [(flagCI_facts _ level 0).2.2.2.2.2.2, i7, hok, i6]
    rw [bitOK_true, Bool.true_and]
    omega
  rw [denseLevel]
  simp only []
  split_ifs with h0 hterm
  · have h0' : (b.labels.getD level []).length = 0 := h0
    exact absurd h0' (by omega)
  -- terminator at position 0
  · have hokP : (setPK (flagCI (initDenseVectors b level) level 0) level 0).bitsOk = true := by
      rw [(setPK_facts _ level 0).2.2.2.2.2.2, hokC,
        (flagCI_facts _ level 0).2.2.2.2.2.1]
      rw [bitOK_true, Bool.true_and]
      rw [hg3]
      omega
    refine ⟨?_, ?_, ?_, ?_⟩
    · refine denseInner_ok level (b.labels.getD level []) (b.louds_bits.getD level [])
        (b.child_indicator_bits.getD level []) (b.node_counts.getD level 0)
        hpc hcapl hcapc hbit0 hlab _ _ 1 0 ?_ ?_ ?_ ?_ ?_ ?_ hokP (by omega) ?_
      · rw [(setPK_facts _ level 0).1, (flagCI_facts _ level 0).1, i4]
      · rw [(setPK_facts _ level 0).2.1, (flagCI_facts _ level 0).2.1, i5]
      · rw [(setPK_facts _ level 0).2.2.1, (flagCI_facts _ level 0).2.2.1, i6]
      · rw [(setPK_facts _ level 0).2.2.2.1, (flagCI_facts _ level 0).2.2.2.1]
        exact hg1
      · rw [(setPK_facts _ level 0).2.2.2.2.1, (flagCI_facts _ level 0).2.2.2.2.1]
        exact hg2
      · rw [(setPK_facts _ level 0).2.2.2.2.2.1, getD_set_setBitW_len,
          (flagCI_facts _ level 0).2.2.2.2.2.1]
        exact hg3
      · show 0 = nodeNumAt (b.louds_bits.getD level []) 0
        rw [nodeNumAt_zero]
    · obtain ⟨a1, a2, a3⟩ := lengths_denseInner level
        (Builder.numItems (setPK (flagCI (initDenseVectors b level) level 0) level 0) level)
        (setPK (flagCI (initDenseVectors b level) level 0) level 0) 1 0
      rw [a1]
      show (b.bitmap_labels ++ [List.replicate (4 * b.node_counts.getD level 0) 0]).length =
        level + 1
      rw [List.length_append, hbl]
      rfl
    · obtain ⟨a1, a2, a3⟩ := lengths_denseInner level
        (Builder.numItems (setPK (flagCI (initDenseVectors b level) level 0) level 0) level)
        (setPK (flagCI (initDenseVectors b level) level 0) level 0) 1 0
      rw [a2]
      show (b.bitmap_child_indicator_bits ++
        [List.replicate (4 * b.node_counts.getD level 0) 0]).length = level + 1
      rw [List.length_append, hbc]
      rfl
    · obtain ⟨a1, a2, a3⟩ := lengths_denseInner level
        (Builder.numItems (setPK (flagCI (initDenseVectors b level) level 0) level 0) level)
        (setPK (flagCI (initDenseVectors b level) level 0) level 0) 1 0
      rw [a3, (setPK_facts _ level 0).2.2.2.2.2.1, List.length_set,
        (flagCI_facts _ level 0).2.2.2.2.2.1, i3, List.length_append, hpk]
      rfl
  -- ordinary slot at position 0
  · have hlabel0 : ((b.labels.getD level []).getD 0 0) < 256 :=
      hlab _ (getD_mem _ _ _ (by omega))
    obtain ⟨s1, s2, s3, s4, s5, s6, s7, s8, s9⟩ :=
      setLCIB_facts (flagCI (initDenseVectors b level) level 0) level 0 0
        hokC
        (by
          rw [(flagCI_facts _ level 0).1, i4, (flagCI_facts _ level 0).2.2.2.1, hg1, kFanout]
          omega)
        (by
          rw [(flagCI_facts _ level 0).1, i4, (flagCI_facts _ level 0).2.2.2.2.1, hg2, kFanout]
          omega)
        (by
          rw [(flagCI_facts _ level 0).2.2.1, i6]
          omega)
    refine ⟨?_, ?_, ?_, ?_⟩
    · refine denseInner_ok level (b.labels.getD level []) (b.louds_bits.getD level [])
        (b.child_indicator_bits.getD level []) (b.node_counts.getD level 0)
        hpc hcapl hcapc hbit0 hlab _ _ 1 0 ?_ ?_ ?_ ?_ ?_ ?_ s9 (by omega) ?_
      · rw [s1, (flagCI_facts _ level 0).1, i4]
      · rw [s2, (flagCI_facts _ level 0).2.1, i5]
      · rw [s3, (flagCI_facts _ level 0).2.2.1, i6]
      · rw [s4, (flagCI_facts _ level 0).2.2.2.1]
        exact hg1
      · rw [s5, (flagCI_facts _ level 0).2.2.2.2.1]
        exact hg2
      · rw [s6, (flagCI_facts _ level 0).2.2.2.2.2.1]
        exact hg3
      · show 0 = nodeNumAt (b.louds_bits.getD level []) 0
        rw [nodeNumAt_zero]
    · obtain ⟨a1, a2, a3⟩ := lengths_denseInner level
        (Builder.numItems (setLabelAndChildIndicatorBitmap
          (flagCI (initDenseVectors b level) level 0) level 0 0) level)
        (setLabelAndChildIndicatorBitmap (flagCI (initDenseVectors b level) level 0) level 0 0)
        1 0
      obtain ⟨c1, c2, c3⟩ :=
        lengths_setLCIB (flagCI (initDenseVectors b level) level 0) level 0 0
      rw [a1, c1]
      show (b.bitmap_labels ++ [List.replicate (4 * b.node_counts.getD level 0) 0]).length =
        level + 1
      rw [List.length_append, hbl]
      rfl
    · obtain ⟨a1, a2, a3⟩ := lengths_denseInner level
        (Builder.numItems (setLabelAndChildIndicatorBitmap
          (flagCI (initDenseVectors b level) level 0) level 0 0) level)
        (setLabelAndChildIndicatorBitmap (flagCI (initDenseVectors b level) level 0) level 0 0)
        1 0
      obtain ⟨c1, c2, c3⟩ :=
        lengths_setLCIB (flagCI (initDenseVectors b level) level 0) level 0 0
      rw [a2, c2]
      show (b.bitmap_child_indicator_bits ++
        [List.replicate (4 * b.node_counts.getD level 0) 0]).length = level + 1
      rw [List.length_append, hbc]
      rfl
    · obtain ⟨a1, a2, a3⟩ := lengths_denseInner level
        (Builder.numItems (setLabelAndChildIndicatorBitmap
          (flagCI (initDenseVectors b level) level 0) level 0 0) level)
        (setLabelAndChildIndicatorBitmap (flagCI (initDenseVectors b level) level 0) level 0 0)
        1 0
      obtain ⟨c1, c2, c3⟩ :=
        lengths_setLCIB (flagCI (initDenseVectors b level) level 0) level 0 0
      rw [a3, c3]
      show (b.prefixkey_indicator_bits ++
        [List.replicate ((b.node_counts.getD level 0 + 63) / 64) 0]).length = level + 1
      rw [List.length_append, hpk]
      rfl

theorem safeOk_of_fields (a b : Builder) (hb : a.bitsOk = true)
    (hc : a.child_indicator_bits = b.child_indicator_bits)
    (hla : a.labels = b.labels) (hlo : a.louds_bits = b.louds_bits)
    (h : safeOk b) : safeOk a := by
  unfold safeOk at h ⊢
  rw [hb, hc, hla, hlo]
  exact ⟨rfl, h.2⟩

theorem denseLevels_ok :
    ∀ (fuel : Nat) (b : Builder) (level : Nat),
      loudsOk b → safeOk b →
      b.bitmap_labels.length = level →
      b.bitmap_child_indicator_bits.length = level →
      b.prefixkey_indicator_bits.length = level →
      b.sparse_start_level ≤ b.labels.length →
      (denseLevels fuel b level).bitsOk = true
  | 0, b, level, hlou, hsafe, h1, h2, h3, hssl => hsafe.1
  | fuel + 1, b, level, hlou, hsafe, h1, h2, h3, hssl => by
    rw [denseLevels]
    split_ifs with hc
    · have hlev : level < b.labels.length := by omega
      obtain ⟨d1, d2, d3, d4⟩ := denseLevel_ok b level hlou hsafe h1 h2 h3 hlev
      have hs := sparse_denseLevel b level
      simp only [Prod.mk.injEq] at hs
      obtain ⟨e_lab, e_nc, e_lo, e_ci, e_ssl, _⟩ := hs
      refine denseLevels_ok fuel (denseLevel b level) (level + 1)
        (loudsOk_congr _ b e_lo e_lab e_nc hlou)
        (safeOk_of_fields _ b d1 e_ci e_lab e_lo hsafe)
        d2 d3 d4 ?_
      rw [e_ssl, e_lab]
      exact hssl
    · exact hsafe.1

theorem bmaps_insertKeyByte (b : Builder) (c level : Nat) (st tm : Bool) :
    ((insertKeyByte b c level st tm).bitmap_labels,
     (insertKeyByte b c level st tm).bitmap_child_indicator_bits,
     (insertKeyByte b c level st tm).prefixkey_indicator_bits) =
    (b.bitmap_labels, b.bitmap_child_indicator_bits, b.prefixkey_indicator_bits) := by
  rw [insertKeyByte]
  have h1 : ∀ b2 : Builder, ((moveToNextItemSlot b2 level).bitmap_labels,
      (moveToNextItemSlot b2 level).bitmap_child_indicator_bits,
      (moveToNextItemSlot b2 level).prefixkey_indicator_bits) =
      (b2.bitmap_labels, b2.bitmap_child_indicator_bits, b2.prefixkey_indicator_bits) := by
    intro b2
    rw [moveToNextItemSlot]
    split_ifs <;> rfl
  have h2 : ∀ b2 : Builder, ((setTermFlag b2 level tm).bitmap_labels,
      (setTermFlag b2 level tm).bitmap_child_indicator_bits,
      (setTermFlag b2 level tm).prefixkey_indicator_bits) =
      (b2.bitmap_labels, b2.bitmap_child_indicator_bits, b2.prefixkey_indicator_bits) :=
    fun _ => rfl
  have h3 : ∀ b2 : Builder, ((maybeBump b2 level st).bitmap_labels,
      (maybeBump b2 level st).bitmap_child_indicator_bits,
      (maybeBump b2 level st).prefixkey_indicator_bits) =
      (b2.bitmap_labels, b2.bitmap_child_indicator_bits, b2.prefixkey_indicator_bits) := by
    intro b2
    rw [maybeBump]
    split_ifs <;> rfl
  have h4 : ∀ b2 : Builder, ((pushLabel b2 c level).bitmap_labels,
      (pushLabel b2 c level).bitmap_child_indicator_bits,
      (pushLabel b2 c level).prefixkey_indicator_bits) =
      (b2.bitmap_labels, b2.bitmap_child_indicator_bits, b2.prefixkey_indicator_bits) :=
    fun _ => rfl
  have h5 : ∀ b2 : Builder, ((maybeParent b2 level).bitmap_labels,
      (maybeParent b2 level).bitmap_child_indicator_bits,
      (maybeParent b2 level).prefixkey_indicator_bits) =
      (b2.bitmap_labels, b2.bitmap_child_indicator_bits, b2.prefixkey_indicator_bits) := by
    intro b2
    rw [maybeParent]
    split_ifs <;> rfl
  have h6 : ∀ b2 : Builder, ((recordInsAssert b2 level).bitmap_labels,
      (recordInsAssert b2 level).bitmap_child_indicator_bits,
      (recordInsAssert b2 level).prefixkey_indicator_bits) =
      (b2.bitmap_labels, b2.bitmap_child_indicator_bits, b2.prefixkey_indicator_bits) :=
    fun _ => rfl
  have h7 : ∀ b2 : Builder, ((maybeAddLevel b2 level).bitmap_labels,
      (maybeAddLevel b2 level).bitmap_child_indicator_bits,
      (maybeAddLevel b2 level).prefixkey_indicator_bits) =
      (b2.bitmap_labels, b2.bitmap_child_indicator_bits, b2.prefixkey_indicator_bits) := by
    intro b2
    rw [maybeAddLevel]
    split_ifs <;> rfl
  rw [h1, h2, h3, h4, h5, h6, h7]

theorem bmaps_skipLoop (key : List Nat) :
    ∀ (fuel : Nat) (b : Builder) (level : Nat),
    ((skipLoop key fuel b level).1.bitmap_labels,
     (skipLoop key fuel b level).1.bitmap_child_indicator_bits,
     (skipLoop key fuel b level).1.prefixkey_indicator_bits) =
    (b.bitmap_labels, b.bitmap_child_indicator_bits, b.prefixkey_indicator_bits)
  | 0, b, level => rfl
  | fuel + 1, b, level => by
    rw [skipLoop]
    split_ifs with h
    · rw [bmaps_skipLoop key fuel _ (level + 1)]
      rfl
    · rfl

theorem bmaps_insLoop (key next : List Nat) :
    ∀ (fuel : Nat) (b : Builder) (level : Nat),
    ((insLoop key next fuel b level).1.bitmap_labels,
     (insLoop key next fuel b level).1.bitmap_child_indicator_bits,
     (insLoop key next fuel b level).1.prefixkey_indicator_bits) =
    (b.bitmap_labels, b.bitmap_child_indicator_bits, b.prefixkey_indicator_bits)
  | 0, b, level => rfl
  | fuel + 1, b, level => by
    rw [insLoop]
    split_ifs with h
    · rw [bmaps_insLoop key next fuel _ (level + 1), bmaps_insertKeyByte]
    · rfl

theorem bmaps_insertUnique (b : Builder) (key : List Nat) (position : Nat)
    (next : List Nat) (sl : Nat) :
    ((insertKeyBytesToTrieUntilUnique b key position next sl).1.bitmap_labels,
     (insertKeyBytesToTrieUntilUnique b key position next sl).1.bitmap_child_indicator_bits,
     (insertKeyBytesToTrieUntilUnique b key position next sl).1.prefixkey_indicator_bits) =
    (b.bitmap_labels, b.bitmap_child_indicator_bits, b.prefixkey_indicator_bits) := by
  rw [insertKeyBytesToTrieUntilUnique]
  split_ifs with hc
  · show ((insertKeyByte _ _ _ _ _).bitmap_labels,
      (insertKeyByte _ _ _ _ _).bitmap_child_indicator_bits,
      (insertKeyByte _ _ _ _ _).prefixkey_indicator_bits) =
      (b.bitmap_labels, b.bitmap_child_indicator_bits, b.prefixkey_indicator_bits)
    rw [bmaps_insertKeyByte]
  · show (((insLoop _ _ _ _ _).1).bitmap_labels,
      ((insLoop _ _ _ _ _).1).bitmap_child_indicator_bits,
      ((insLoop _ _ _ _ _).1).prefixkey_indicator_bits) =
      (b.bitmap_labels, b.bitmap_child_indicator_bits, b.prefixkey_indicator_bits)
    rw [bmaps_insLoop, bmaps_insertKeyByte]

theorem bmaps_buildSparseLoop (keys : List (List Nat)) :
    ∀ (fuel : Nat) (b : Builder) (i : Nat),
    ((buildSparseLoop keys fuel b i).1.bitmap_labels,
     (buildSparseLoop keys fuel b i).1.bitmap_child_indicator_bits,
     (buildSparseLoop keys fuel b i).1.prefixkey_indicator_bits) =
    (b.bitmap_labels, b.bitmap_child_indicator_bits, b.prefixkey_indicator_bits)
  | 0, b, i => rfl
  | fuel + 1, b, i => by
    rw [buildSparseLoop]
    by_cases hc : i < keys.length
    · rw [if_pos hc]
      simp only []
      split_ifs with h2
      · rw [bmaps_buildSparseLoop keys fuel _ _, bmaps_insertUnique, skipCommonPref,
          bmaps_skipLoop]
      · rw [bmaps_buildSparseLoop keys fuel _ _, bmaps_insertUnique, skipCommonPref,
          bmaps_skipLoop]
    · rw [if_neg hc]

theorem cutoffLoop_le (b : Builder) (R : Nat) :
    ∀ (fuel L : Nat), L ≤ b.height → cutoffLoop b R fuel L ≤ b.height
  | 0, L, h => h
  | fuel + 1, L, h => by
    rw [cutoffLoop]
    split_ifs with hc
    · exact cutoffLoop_le b R fuel (L + 1) hc.1
    · exact h

theorem dcl_bl (b : Builder) :
    (determineCutoffLevel b).bitmap_labels = b.bitmap_labels := rfl

theorem dcl_bci (b : Builder) :
    (determineCutoffLevel b).bitmap_child_indicator_bits =
      b.bitmap_child_indicator_bits := rfl

theorem dcl_pk (b : Builder) :
    (determineCutoffLevel b).prefixkey_indicator_bits = b.prefixkey_indicator_bits := rfl

theorem dcl_labels (b : Builder) :
    (determineCutoffLevel b).labels = b.labels := rfl

theorem dcl_ssl (b : Builder) :
    (determineCutoffLevel b).sparse_start_level =
      cutoffLoop b b.sparse_dense_ratio (b.height + 1) 0 := rfl

theorem bitsOk_runBuild (dense : Bool) (ratio : Nat) (keys : List (List Nat)) :
    (runBuild dense ratio keys).bitsOk = true := by
  rw [runBuild, build]
  have hsafe : safeOk (buildSparse
      { mkBuilder dense ratio with
        assertsOk := (mkBuilder dense ratio).assertsOk && decide (keys.length > 0) } keys) := by
    rw [buildSparse]
    exact safeOk_buildSparseLoop keys keys.length _ 0
      (safeOk_congr _ (mkBuilder dense ratio) rfl rfl rfl rfl (safeOk_mkBuilder dense ratio))
  have hlou : loudsOk (buildSparse
      { mkBuilder dense ratio with
        assertsOk := (mkBuilder dense ratio).assertsOk && decide (keys.length > 0) } keys) := by
    rw [buildSparse]
    exact loudsOk_buildSparseLoop keys keys.length _ 0
      (loudsOk_congr _ (mkBuilder dense ratio) rfl rfl rfl (loudsOk_mkBuilder dense ratio))
  have hbm : ((buildSparse
      { mkBuilder dense ratio with
        assertsOk := (mkBuilder dense ratio).assertsOk && decide (keys.length > 0) }
      keys).bitmap_labels,
      (buildSparse
      { mkBuilder dense ratio with
        assertsOk := (mkBuilder dense ratio).assertsOk && decide (keys.length > 0) }
      keys).bitmap_child_indicator_bits,
      (buildSparse
      { mkBuilder dense ratio with
        assertsOk := (mkBuilder dense ratio).assertsOk && decide (keys.length > 0) }
      keys).prefixkey_indicator_bits) =
      (([] : List (List Nat)), ([] : List (List Nat)), ([] : List (List Nat))) := by
    rw [buildSparse, bmaps_buildSparseLoop]
    rfl
  simp only [Prod.mk.injEq] at hbm
  obtain ⟨hb1, hb2, hb3⟩ := hbm
  split_ifs with hd
  · rw [buildDense]
    refine denseLevels_ok _ _ 0
      (loudsOk_congr _ (buildSparse
        { mkBuilder dense ratio with
          assertsOk := (mkBuilder dense ratio).assertsOk && decide (keys.length > 0) } keys)
        rfl rfl rfl hlou)
      (safeOk_congr _ (buildSparse
        { mkBuilder dense ratio with
          assertsOk := (mkBuilder dense ratio).assertsOk && decide (keys.length > 0) } keys)
        rfl rfl rfl rfl hsafe)
      ?_ ?_ ?_ ?_
    · rw [dcl_bl, hb1]
      rfl
    · rw [dcl_bci, hb2]
      rfl
    · rw [dcl_pk, hb3]
      rfl
    · rw [dcl_ssl, dcl_labels]
      exact cutoffLoop_le _ _ _ 0 (Nat.zero_le _)
  · exact hsafe.1

end FST

namespace FST


theorem getD_replicate_zero : ∀ (n i : Nat), (List.replicate n 0).getD i 0 = 0
  | 0, 0 => rfl
  | 0, _ + 1 => rfl
  | _ + 1, 0 => rfl
  | n + 1, i + 1 => getD_replicate_zero n i

theorem readBit_replicate_zero (n p : Nat) : readBit (List.replicate n 0) p = false := by
  rw [readBit, getD_replicate_zero]
  simp

theorem readBit_setBitW_iff (v : List Nat) (s q : Nat) (hs : s < 64 * v.length) :
    (readBit (setBitW v s) q = true) ↔ (readBit v q = true ∨ q = s) := by
  by_cases hq : q = s
  · subst hq
    simp [readBit_setBitW_self v q hs]
  · rw [readBit_setBitW_ne v s q hq]
    constructor
    · exact Or.inl
    · rintro (h | h)
      · exact h
      · exact absurd h hq

theorem exists_shift (P : Nat → Prop) (pos L : Nat) (hpos : pos < L) :
    (∃ p, pos ≤ p ∧ p < L ∧ P p) ↔ (P pos ∨ ∃ p, pos + 1 ≤ p ∧ p < L ∧ P p) := by
  constructor
  · rintro ⟨p, h1, h2, h3⟩
    rcases Nat.eq_or_lt_of_le h1 with he | hl
    · exact Or.inl (by rw [he]; exact h3)
    · exact Or.inr ⟨p, hl, h2, h3⟩
  · rintro (h | ⟨p, h1, h2, h3⟩)
    · exact ⟨pos, le_refl _, hpos, h⟩
    · exact ⟨p, by omega, h2, h3⟩

theorem setPK_bits (b : Builder) (level n : Nat)
    (hin : level < b.prefixkey_indicator_bits.length) :
    (setPK b level n).prefixkey_indicator_bits.getD level [] =
      setBitW (b.prefixkey_indicator_bits.getD level []) n := by
  rw [(setPK_facts b level n).2.2.2.2.2.1, getD_set_self _ _ _ _ hin]

theorem setLCIB_bits (b : Builder) (level node_num pos : Nat)
    (hin1 : level < b.bitmap_labels.length)
    (hin2 : level < b.bitmap_child_indicator_bits.length) :
    (setLabelAndChildIndicatorBitmap b level node_num pos).bitmap_labels.getD level [] =
      setBitW (b.bitmap_labels.getD level [])
        (node_num * kFanout + (b.labels.getD level []).getD pos 0) ∧
    (setLabelAndChildIndicatorBitmap b level node_num pos).bitmap_child_indicator_bits.getD
        level [] =
      (if readBit (b.child_indicator_bits.getD level []) pos then
        setBitW (b.bitmap_child_indicator_bits.getD level [])
          (node_num * kFanout + (b.labels.getD level []).getD pos 0)
       else b.bitmap_child_indicator_bits.getD level []) ∧
    (setLabelAndChildIndicatorBitmap b level node_num pos).prefixkey_indicator_bits =
      b.prefixkey_indicator_bits := by
  rw [setLabelAndChildIndicatorBitmap]
  have hcond : readBit ((flagCI (setBL b level
      (node_num * kFanout + (b.labels.getD level []).getD pos 0))
      level pos).child_indicator_bits.getD level []) pos =
      readBit (b.child_indicator_bits.getD level []) pos := rfl
  rw [hcond]
  split_ifs with hc
  · refine ⟨?_, ?_, rfl⟩
    · rw [(setBCI_facts _ level _).2.2.2.1, (flagCI_facts _ level pos).2.2.2.1,
        (setBL_facts b level _).2.2.2.1, getD_set_self _ _ _ _ hin1]
    · have hx : (flagCI (setBL b level
          (node_num * kFanout + (b.labels.getD level []).getD pos 0))
          level pos).bitmap_child_indicator_bits = b.bitmap_child_indicator_bits := rfl
      rw [(setBCI_facts _ level _).2.2.2.2.1, hx, getD_set_self _ _ _ _ hin2]
  · refine ⟨?_, rfl, rfl⟩
    · rw [(flagCI_facts _ level pos).2.2.2.1, (setBL_facts b level _).2.2.2.1,
        getD_set_self _ _ _ _ hin1]

end FST

namespace FST

theorem denseInner_bits (level : Nat) (lab lv ci : List Nat) (nc : Nat)
    (hpc : popcountVec lv = nc)
    (hcapl : lab.length < 64 * lv.length)
    (hcapc : lab.length < 64 * ci.length)
    (hbit0 : readBit lv 0 = true)
    (hlab : ∀ x ∈ lab, x < 256)
    (hnc1 : 1 ≤ nc) :
    ∀ (fuel : Nat) (b : Builder) (pos node_num : Nat),
      b.labels.getD level [] = lab →
      b.louds_bits.getD level [] = lv →
      b.child_indicator_bits.getD level [] = ci →
      (b.bitmap_labels.getD level []).length = 4 * nc →
      (b.bitmap_child_indicator_bits.getD level []).length = 4 * nc →
      (b.prefixkey_indicator_bits.getD level []).length = (nc + 63) / 64 →
      b.bitsOk = true →
      1 ≤ pos →
      node_num = nodeNumAt lv (pos - 1) →
      lab.length ≤ pos + fuel →
      ∀ q : Nat,
      (readBit ((denseInner level fuel b pos node_num).bitmap_labels.getD level []) q = true ↔
        (readBit (b.bitmap_labels.getD level []) q = true ∨
          ∃ p, pos ≤ p ∧ p < lab.length ∧ ¬ termSlot lab lv ci p ∧
            q = nodeNumAt lv p * kFanout + lab.getD p 0)) ∧
      (readBit ((denseInner level fuel b pos
          node_num).bitmap_child_indicator_bits.getD level []) q = true ↔
        (readBit (b.bitmap_child_indicator_bits.getD level []) q = true ∨
          ∃ p, pos ≤ p ∧ p < lab.length ∧ ¬ termSlot lab lv ci p ∧ readBit ci p = true ∧
            q = nodeNumAt lv p * kFanout + lab.getD p 0)) ∧
      (readBit ((denseInner level fuel b pos
          node_num).prefixkey_indicator_bits.getD level []) q = true ↔
        (readBit (b.prefixkey_indicator_bits.getD level []) q = true ∨
          ∃ p, pos ≤ p ∧ p < lab.length ∧ termSlot lab lv ci p ∧ q = nodeNumAt lv p))
  | 0, b, pos, node_num, e1, e2, e3, e4, e5, e6, e7, e8, e9, hfuel => by
    intro q
    refine ⟨⟨Or.inl, ?_⟩, ⟨Or.inl, ?_⟩, ⟨Or.inl, ?_⟩⟩
    · rintro (h | ⟨p, h1, h2, _⟩)
      · exact h
      · exact absurd h2 (by omega)
    · rintro (h | ⟨p, h1, h2, _⟩)
      · exact h
      · exact absurd h2 (by omega)
    · rintro (h | ⟨p, h1, h2, _⟩)
      · exact h
      · exact absurd h2 (by omega)
  | fuel + 1, b, pos, node_num, e1, e2, e3, e4, e5, e6, e7, e8, e9, hfuel => by
    rw [denseInner]
    simp only []
    have hni : b.numItems level = lab.length := by
      rw [Builder.numItems, e1]
    have hinbl : level < b.bitmap_labels.length := by
      by_contra hcon
      rw [getD_oob _ _ _ (by omega)] at e4
      simp at e4
      omega
    have hinbc : level < b.bitmap_child_indicator_bits.length := by
      by_contra hcon
      rw [getD_oob _ _ _ (by omega)] at e5
      simp at e5
      omega
    have hinpk : level < b.prefixkey_indicator_bits.length := by
      by_contra hcon
      rw [getD_oob _ _ _ (by omega)] at e6
      simp at e6
      omega
    split_ifs with hlt hstart hterm
    all_goals rw [hni] at hlt
    -- node start, terminator slot: setPK at node_num + 1
    · have hrb : readBit lv pos = true := by
        rw [isStartOfNode, (flagLouds_facts b level pos).2.1, e2] at hstart
        exact hstart
      have hnn : node_num + 1 = nodeNumAt lv pos := by
        rw [nodeNumAt_succ lv pos e8, hrb, ← e9]
        rfl
      have hbound : nodeNumAt lv pos + 1 ≤ nc :=
        nodeNumAt_bound lv nc pos hpc hbit0 (by omega)
      have hokL : (flagLouds b level pos).bitsOk = true := by
        rw [(flagLouds_facts b level pos).2.2.2.2.2.2, e7, e2, bitOK_true _ _ (by omega)]
        rfl
      have hokC : (flagCI (flagLouds b level pos) level pos).bitsOk = true := by
        rw [(flagCI_facts _ level pos).2.2.2.2.2.2, hokL,
          (flagLouds_facts b level pos).2.2.1, e3, bitOK_true _ _ (by omega)]
        rfl
      have htermP : termSlot lab lv ci pos := by
        rw [isTerminator] at hterm
        have hx1 : (flagCI (flagLouds b level pos) level pos).labels = b.labels := rfl
        have hx2 : (flagCI (flagLouds b level pos) level pos).child_indicator_bits =
            b.child_indicator_bits := rfl
        rw [hx1, hx2, e1, e3, Bool.and_eq_true] at hterm
        obtain ⟨ht1, ht2⟩ := hterm
        refine ⟨Or.inr hrb, of_decide_eq_true ht1, ?_⟩
        cases hci : readBit ci pos
        · rfl
        · rw [hci] at ht2
          exact Bool.noConfusion ht2
      have hokP : (setPK (flagCI (flagLouds b level pos) level pos) level
          (node_num + 1)).bitsOk = true := by
        rw [(setPK_facts _ level _).2.2.2.2.2.2, hokC,
          (flagCI_facts _ level pos).2.2.2.2.2.1, (flagLouds_facts b level pos).2.2.2.2.2.1]
        rw [bitOK_true, Bool.true_and]
        rw [e6]
        omega
      have IH := denseInner_bits level lab lv ci nc hpc hcapl hcapc hbit0 hlab hnc1
        fuel (setPK (flagCI (flagLouds b level pos) level pos) level (node_num + 1)) (pos + 1)
        (node_num + 1)
        (by rw [(setPK_facts _ level _).1, (flagCI_facts _ level pos).1,
          (flagLouds_facts b level pos).1, e1])
        (by rw [(setPK_facts _ level _).2.1, (flagCI_facts _ level pos).2.1,
          (flagLouds_facts b level pos).2.1, e2])
        (by rw [(setPK_facts _ level _).2.2.1, (flagCI_facts _ level pos).2.2.1,
          (flagLouds_facts b level pos).2.2.1, e3])
        (by rw [(setPK_facts _ level _).2.2.2.1, (flagCI_facts _ level pos).2.2.2.1,
          (flagLouds_facts b level pos).2.2.2.1, e4])
        (by rw [(setPK_facts _ level _).2.2.2.2.1, (flagCI_facts _ level pos).2.2.2.2.1,
          (flagLouds_facts b level pos).2.2.2.2.1, e5])
        (by rw [(setPK_facts _ level _).2.2.2.2.2.1, getD_set_setBitW_len,
          (flagCI_facts _ level pos).2.2.2.2.2.1, (flagLouds_facts b level pos).2.2.2.2.2.1,
          e6])
        hokP (by omega) (by rw [hnn]; rfl) (by omega)
      have EA : (setPK (flagCI (flagLouds b level pos) level pos) level
          (node_num + 1)).bitmap_labels.getD level [] =
          b.bitmap_labels.getD level [] := rfl
      have EB : (setPK (flagCI (flagLouds b level pos) level pos) level
          (node_num + 1)).bitmap_child_indicator_bits.getD level [] =
          b.bitmap_child_indicator_bits.getD level [] := rfl
      have EC : (setPK (flagCI (flagLouds b level pos) level pos) level
          (node_num + 1)).prefixkey_indicator_bits.getD level [] =
          setBitW (b.prefixkey_indicator_bits.getD level []) (node_num + 1) := by
        rw [setPK_bits (flagCI (flagLouds b level pos) level pos) level (node_num + 1) hinpk]
        rfl
      intro q
      obtain ⟨IA, IB, IC⟩ := IH q
      refine ⟨?_, ?_, ?_⟩
      · rw [IA, EA]
        have hsh : (∃ p, pos ≤ p ∧ p < lab.length ∧ ¬ termSlot lab lv ci p ∧
            q = nodeNumAt lv p * kFanout + lab.getD p 0) ↔
            ((¬ termSlot lab lv ci pos ∧
              q = nodeNumAt lv pos * kFanout + lab.getD pos 0) ∨
             ∃ p, pos + 1 ≤ p ∧ p < lab.length ∧ ¬ termSlot lab lv ci p ∧
               q = nodeNumAt lv p * kFanout + lab.getD p 0) :=
          exists_shift _ pos lab.length hlt
        have hp0 : (¬ termSlot lab lv ci pos ∧
            q = nodeNumAt lv pos * kFanout + lab.getD pos 0) ↔ False :=
          ⟨fun h => h.1 htermP, False.elim⟩
        rw [hsh, hp0, false_or]
      · rw [IB, EB]
        have hsh : (∃ p, pos ≤ p ∧ p < lab.length ∧ ¬ termSlot lab lv ci p ∧
            readBit ci p = true ∧ q = nodeNumAt lv p * kFanout + lab.getD p 0) ↔
            ((¬ termSlot lab lv ci pos ∧ readBit ci pos = true ∧
              q = nodeNumAt lv pos * kFanout + lab.getD pos 0) ∨
             ∃ p, pos + 1 ≤ p ∧ p < lab.length ∧ ¬ termSlot lab lv ci p ∧
               readBit ci p = true ∧ q = nodeNumAt lv p * kFanout + lab.getD p 0) :=
          exists_shift _ pos lab.length hlt
        have hp0 : (¬ termSlot lab lv ci pos ∧ readBit ci pos = true ∧
            q = nodeNumAt lv pos * kFanout + lab.getD pos 0) ↔ False :=
          ⟨fun h => h.1 htermP, False.elim⟩
        rw [hsh, hp0, false_or]
      · rw [IC, EC, readBit_setBitW_iff _ _ _ (by rw [e6]; omega)]
        have hsh : (∃ p, pos ≤ p ∧ p < lab.length ∧ termSlot lab lv ci p ∧
            q = nodeNumAt lv p) ↔
            ((termSlot lab lv ci pos ∧ q = nodeNumAt lv pos) ∨
             ∃ p, pos + 1 ≤ p ∧ p < lab.length ∧ termSlot lab lv ci p ∧
               q = nodeNumAt lv p) :=
          exists_shift _ pos lab.length hlt
        have hp0 : (termSlot lab lv ci pos ∧ q = nodeNumAt lv pos) ↔ q = node_num + 1 :=
          ⟨fun h => by rw [h.2, ← hnn], fun h => ⟨htermP, by rw [h]; exact hnn⟩⟩
        rw [hsh, hp0]
        exact or_assoc
    -- node start, ordinary slot: setLabelAndChildIndicatorBitmap at node_num + 1
    · have hrb : readBit lv pos = true := by
        rw [isStartOfNode, (flagLouds_facts b level pos).2.1, e2] at hstart
        exact hstart
      have hnn : node_num + 1 = nodeNumAt lv pos := by
        rw [nodeNumAt_succ lv pos e8, hrb, ← e9]
        rfl
      have hbound : nodeNumAt lv pos + 1 ≤ nc :=
        nodeNumAt_bound lv nc pos hpc hbit0 (by omega)
      have hokL : (flagLouds b level pos).bitsOk = true := by
        rw [(flagLouds_facts b level pos).2.2.2.2.2.2, e7, e2, bitOK_true _ _ (by omega)]
        rfl
      have hokC : (flagCI (flagLouds b level pos) level pos).bitsOk = true := by
        rw [(flagCI_facts _ level pos).2.2.2.2.2.2, hokL,
          (flagLouds_facts b level pos).2.2.1, e3, bitOK_true _ _ (by omega)]
        rfl
      have hlabel0 : lab.getD pos 0 < 256 := hlab _ (getD_mem _ _ _ hlt)
      have htermF : ¬ termSlot lab lv ci pos := by
        intro hts
        apply hterm
        rw [isTerminator]
        have hx1 : (flagCI (flagLouds b level pos) level pos).labels = b.labels := rfl
        have hx2 : (flagCI (flagLouds b level pos) level pos).child_indicator_bits =
            b.child_indicator_bits := rfl
        rw [hx1, hx2, e1, e3, hts.2.1, hts.2.2]
        simp
      have hlabel : ((flagCI (flagLouds b level pos) level pos).labels.getD
          level []).getD pos 0 < 256 := by
        rw [(flagCI_facts _ level pos).1, (flagLouds_facts b level pos).1, e1]
        exact hlabel0
      obtain ⟨s1, s2, s3, s4, s5, s6, s7, s8, s9⟩ :=
        setLCIB_facts (flagCI (flagLouds b level pos) level pos) level (node_num + 1) pos
          hokC
          (by
            rw [(flagCI_facts _ level pos).2.2.2.1, (flagLouds_facts b level pos).2.2.2.1, e4]
            rw [kFanout]
            have := hlabel
            omega)
          (by
            rw [(flagCI_facts _ level pos).2.2.2.2.1, (flagLouds_facts b level pos).2.2.2.2.1,
              e5]
            rw [kFanout]
            have := hlabel
            omega)
          (by
            rw [(flagCI_facts _ level pos).2.2.1, (flagLouds_facts b level pos).2.2.1, e3]
            omega)
      have IH := denseInner_bits level lab lv ci nc hpc hcapl hcapc hbit0 hlab hnc1
        fuel (setLabelAndChildIndicatorBitmap (flagCI (flagLouds b level pos) level pos)
          level (node_num + 1) pos) (pos + 1) (node_num + 1)
        (by rw [s1, (flagCI_facts _ level pos).1, (flagLouds_facts b level pos).1, e1])
        (by rw [s2, (flagCI_facts _ level pos).2.1, (flagLouds_facts b level pos).2.1, e2])
        (by rw [s3, (flagCI_facts _ level pos).2.2.1, (flagLouds_facts b level pos).2.2.1, e3])
        (by rw [s4, (flagCI_facts _ level pos).2.2.2.1, (flagLouds_facts b level pos).2.2.2.1,
          e4])
        (by rw [s5, (flagCI_facts _ level pos).2.2.2.2.1,
          (flagLouds_facts b level pos).2.2.2.2.1, e5])
        (by rw [s6, (flagCI_facts _ level pos).2.2.2.2.2.1,
          (flagLouds_facts b level pos).2.2.2.2.2.1, e6])
        s9 (by omega) (by rw [hnn]; rfl) (by omega)
      obtain ⟨FA, FB, FC⟩ := setLCIB_bits (flagCI (flagLouds b level pos) level pos) level
        (node_num + 1) pos hinbl hinbc
      have hx1 : (flagCI (flagLouds b level pos) level pos).labels = b.labels := rfl
      have hx2 : (flagCI (flagLouds b level pos) level pos).child_indicator_bits =
          b.child_indicator_bits := rfl
      have hx3 : (flagCI (flagLouds b level pos) level pos).bitmap_labels =
          b.bitmap_labels := rfl
      have hx4 : (flagCI (flagLouds b level pos) level pos).bitmap_child_indicator_bits =
          b.bitmap_child_indicator_bits := rfl
      have hx5 : (flagCI (flagLouds b level pos) level pos).prefixkey_indicator_bits =
          b.prefixkey_indicator_bits := rfl
      rw [hx1, hx3, e1] at FA
      rw [hx1, hx2, hx4, e1, e3] at FB
      rw [hx5] at FC
      intro q
      obtain ⟨IA, IB, IC⟩ := IH q
      refine ⟨?_, ?_, ?_⟩
      · rw [IA, FA, readBit_setBitW_iff _ _ _
          (by rw [e4, kFanout]; have h5 := hlabel0; omega)]
        have hsh : (∃ p, pos ≤ p ∧ p < lab.length ∧ ¬ termSlot lab lv ci p ∧
            q = nodeNumAt lv p * kFanout + lab.getD p 0) ↔
            ((¬ termSlot lab lv ci pos ∧
              q = nodeNumAt lv pos * kFanout + lab.getD pos 0) ∨
             ∃ p, pos + 1 ≤ p ∧ p < lab.length ∧ ¬ termSlot lab lv ci p ∧
               q = nodeNumAt lv p * kFanout + lab.getD p 0) :=
          exists_shift _ pos lab.length hlt
        have hp0 : (¬ termSlot lab lv ci pos ∧
            q = nodeNumAt lv pos * kFanout + lab.getD pos 0) ↔
            q = (node_num + 1) * kFanout + lab.getD pos 0 :=
          ⟨fun h => by rw [h.2, ← hnn], fun h => ⟨htermF, by rw [h, hnn]⟩⟩
        rw [hsh, hp0]
        exact or_assoc
      · rcases hci : readBit ci pos with _ | _
        · have hcf : ¬ (readBit ci pos = true) := by
            rw [hci]
            simp
          rw [if_neg hcf] at FB
          rw [IB, FB]
          have hsh : (∃ p, pos ≤ p ∧ p < lab.length ∧ ¬ termSlot lab lv ci p ∧
              readBit ci p = true ∧ q = nodeNumAt lv p * kFanout + lab.getD p 0) ↔
              ((¬ termSlot lab lv ci pos ∧ readBit ci pos = true ∧
                q = nodeNumAt lv pos * kFanout + lab.getD pos 0) ∨
               ∃ p, pos + 1 ≤ p ∧ p < lab.length ∧ ¬ termSlot lab lv ci p ∧
                 readBit ci p = true ∧ q = nodeNumAt lv p * kFanout + lab.getD p 0) :=
            exists_shift _ pos lab.length hlt
          have hp0 : (¬ termSlot lab lv ci pos ∧ readBit ci pos = true ∧
              q = nodeNumAt lv pos * kFanout + lab.getD pos 0) ↔ False :=
            ⟨fun h => hcf h.2.1, False.elim⟩
          rw [hsh, hp0, false_or]
        · rw [if_pos hci] at FB
          rw [IB, FB, readBit_setBitW_iff _ _ _
            (by rw [e5, kFanout]; have h5 := hlabel0; omega)]
          have hsh : (∃ p, pos ≤ p ∧ p < lab.length ∧ ¬ termSlot lab lv ci p ∧
              readBit ci p = true ∧ q = nodeNumAt lv p * kFanout + lab.getD p 0) ↔
              ((¬ termSlot lab lv ci pos ∧ readBit ci pos = true ∧
                q = nodeNumAt lv pos * kFanout + lab.getD pos 0) ∨
               ∃ p, pos + 1 ≤ p ∧ p < lab.length ∧ ¬ termSlot lab lv ci p ∧
                 readBit ci p = true ∧ q = nodeNumAt lv p * kFanout + lab.getD p 0) :=
            exists_shift _ pos lab.length hlt
          have hp0 : (¬ termSlot lab lv ci pos ∧ readBit ci pos = true ∧
              q = nodeNumAt lv pos * kFanout + lab.getD pos 0) ↔
              q = (node_num + 1) * kFanout + lab.getD pos 0 :=
            ⟨fun h => by rw [h.2.2, ← hnn], fun h => ⟨htermF, hci, by rw [h, hnn]⟩⟩
          rw [hsh, hp0]
          exact or_assoc
      · rw [IC, FC]
        have hsh : (∃ p, pos ≤ p ∧ p < lab.length ∧ termSlot lab lv ci p ∧
            q = nodeNumAt lv p) ↔
            ((termSlot lab lv ci pos ∧ q = nodeNumAt lv pos) ∨
             ∃ p, pos + 1 ≤ p ∧ p < lab.length ∧ termSlot lab lv ci p ∧
               q = nodeNumAt lv p) :=
          exists_shift _ pos lab.length hlt
        have hp0 : (termSlot lab lv ci pos ∧ q = nodeNumAt lv pos) ↔ False :=
          ⟨fun h => htermF h.1, False.elim⟩
        rw [hsh, hp0, false_or]
    -- not a node start: setLabelAndChildIndicatorBitmap at node_num
    · have hrb : readBit lv pos = false := by
        rw [isStartOfNode, (flagLouds_facts b level pos).2.1, e2] at hstart
        exact Bool.of_not_eq_true hstart
      have hnn : node_num = nodeNumAt lv pos := by
        rw [nodeNumAt_succ lv pos e8, hrb, ← e9]
        rfl
      have hbound : nodeNumAt lv pos + 1 ≤ nc :=
        nodeNumAt_bound lv nc pos hpc hbit0 (by omega)
      have hokL : (flagLouds b level pos).bitsOk = true := by
        rw [(flagLouds_facts b level pos).2.2.2.2.2.2, e7, e2, bitOK_true _ _ (by omega)]
        rfl
      have hlabel0 : lab.getD pos 0 < 256 := hlab _ (getD_mem _ _ _ hlt)
      have htermF : ¬ termSlot lab lv ci pos := by
        rintro ⟨h1 | h1, _, _⟩
        · omega
        · rw [hrb] at h1
          exact Bool.noConfusion h1
      have hlabel : ((flagLouds b level pos).labels.getD level []).getD pos 0 < 256 := by
        rw [(flagLouds_facts b level pos).1, e1]
        exact hlabel0
      obtain ⟨s1, s2, s3, s4, s5, s6, s7, s8, s9⟩ :=
        setLCIB_facts (flagLouds b level pos) level node_num pos
          hokL
          (by
            rw [(flagLouds_facts b level pos).2.2.2.1, e4, kFanout]
            have := hlabel
            omega)
          (by
            rw [(flagLouds_facts b level pos).2.2.2.2.1, e5, kFanout]
            have := hlabel
            omega)
          (by
            rw [(flagLouds_facts b level pos).2.2.1, e3]
            omega)
      have IH := denseInner_bits level lab lv ci nc hpc hcapl hcapc hbit0 hlab hnc1
        fuel (setLabelAndChildIndicatorBitmap (flagLouds b level pos) level node_num pos)
        (pos + 1) node_num
        (by rw [s1, (flagLouds_facts b level pos).1, e1])
        (by rw [s2, (flagLouds_facts b level pos).2.1, e2])
        (by rw [s3, (flagLouds_facts b level pos).2.2.1, e3])
        (by rw [s4, (flagLouds_facts b level pos).2.2.2.1, e4])
        (by rw [s5, (flagLouds_facts b level pos).2.2.2.2.1, e5])
        (by rw [s6, (flagLouds_facts b level pos).2.2.2.2.2.1, e6])
        s9 (by omega) (by rw [hnn]; rfl) (by omega)
      obtain ⟨FA, FB, FC⟩ := setLCIB_bits (flagLouds b level pos) level node_num pos
        hinbl hinbc
      have hy1 : (flagLouds b level pos).labels = b.labels := rfl
      have hy2 : (flagLouds b level pos).child_indicator_bits = b.child_indicator_bits := rfl
      have hy3 : (flagLouds b level pos).bitmap_labels = b.bitmap_labels := rfl
      have hy4 : (flagLouds b level pos).bitmap_child_indicator_bits =
          b.bitmap_child_indicator_bits := rfl
      have hy5 : (flagLouds b level pos).prefixkey_indicator_bits =
          b.prefixkey_indicator_bits := rfl
      rw [hy1, hy3, e1] at FA
      rw [hy1, hy2, hy4, e1, e3] at FB
      rw [hy5] at FC
      intro q
      obtain ⟨IA, IB, IC⟩ := IH q
      refine ⟨?_, ?_, ?_⟩
      · rw [IA, FA, readBit_setBitW_iff _ _ _
          (by rw [e4, kFanout]; have h5 := hlabel0; omega)]
        have hsh : (∃ p, pos ≤ p ∧ p < lab.length ∧ ¬ termSlot lab lv ci p ∧
            q = nodeNumAt lv p * kFanout + lab.getD p 0) ↔
            ((¬ termSlot lab lv ci pos ∧
              q = nodeNumAt lv pos * kFanout + lab.getD pos 0) ∨
             ∃ p, pos + 1 ≤ p ∧ p < lab.length ∧ ¬ termSlot lab lv ci p ∧
               q = nodeNumAt lv p * kFanout + lab.getD p 0) :=
          exists_shift _ pos lab.length hlt
        have hp0 : (¬ termSlot lab lv ci pos ∧
            q = nodeNumAt lv pos * kFanout + lab.getD pos 0) ↔
            q = node_num * kFanout + lab.getD pos 0 :=
          ⟨fun h => by rw [h.2, ← hnn], fun h => ⟨htermF, by rw [h, hnn]⟩⟩
        rw [hsh, hp0]
        exact or_assoc
      · rcases hci : readBit ci pos with _ | _
        · have hcf : ¬ (readBit ci pos = true) := by
            rw [hci]
            simp
          rw [if_neg hcf] at FB
          rw [IB, FB]
          have hsh : (∃ p, pos ≤ p ∧ p < lab.length ∧ ¬ termSlot lab lv ci p ∧
              readBit ci p = true ∧ q = nodeNumAt lv p * kFanout + lab.getD p 0) ↔
              ((¬ termSlot lab lv ci pos ∧ readBit ci pos = true ∧
                q = nodeNumAt lv pos * kFanout + lab.getD pos 0) ∨
               ∃ p, pos + 1 ≤ p ∧ p < lab.length ∧ ¬ termSlot lab lv ci p ∧
                 readBit ci p = true ∧ q = nodeNumAt lv p * kFanout + lab.getD p 0) :=
            exists_shift _ pos lab.length hlt
          have hp0 : (¬ termSlot lab lv ci pos ∧ readBit ci pos = true ∧
              q = nodeNumAt lv pos * kFanout + lab.getD pos 0) ↔ False :=
            ⟨fun h => hcf h.2.1, False.elim⟩
          rw [hsh, hp0, false_or]
        · rw [if_pos hci] at FB
          rw [IB, FB, readBit_setBitW_iff _ _ _
            (by rw [e5, kFanout]; have h5 := hlabel0; omega)]
          have hsh : (∃ p, pos ≤ p ∧ p < lab.length ∧ ¬ termSlot lab lv ci p ∧
              readBit ci p = true ∧ q = nodeNumAt lv p * kFanout + lab.getD p 0) ↔
              ((¬ termSlot lab lv ci pos ∧ readBit ci pos = true ∧
                q = nodeNumAt lv pos * kFanout + lab.getD pos 0) ∨
               ∃ p, pos + 1 ≤ p ∧ p < lab.length ∧ ¬ termSlot lab lv ci p ∧
                 readBit ci p = true ∧ q = nodeNumAt lv p * kFanout + lab.getD p 0) :=
            exists_shift _ pos lab.length hlt
          have hp0 : (¬ termSlot lab lv ci pos ∧ readBit ci pos = true ∧
              q = nodeNumAt lv pos * kFanout + lab.getD pos 0) ↔
              q = node_num * kFanout + lab.getD pos 0 :=
            ⟨fun h => by rw [h.2.2, ← hnn], fun h => ⟨htermF, hci, by rw [h, hnn]⟩⟩
          rw [hsh, hp0]
          exact or_assoc
      · rw [IC, FC]
        have hsh : (∃ p, pos ≤ p ∧ p < lab.length ∧ termSlot lab lv ci p ∧
            q = nodeNumAt lv p) ↔
            ((termSlot lab lv ci pos ∧ q = nodeNumAt lv pos) ∨
             ∃ p, pos + 1 ≤ p ∧ p < lab.length ∧ termSlot lab lv ci p ∧
               q = nodeNumAt lv p) :=
          exists_shift _ pos lab.length hlt
        have hp0 : (termSlot lab lv ci pos ∧ q = nodeNumAt lv pos) ↔ False :=
          ⟨fun h => htermF h.1, False.elim⟩
        rw [hsh, hp0, false_or]
    -- loop done
    · intro q
      refine ⟨⟨Or.inl, ?_⟩, ⟨Or.inl, ?_⟩, ⟨Or.inl, ?_⟩⟩
      · rintro (h | ⟨p, h1, h2, _⟩)
        · exact h
        · exact absurd h2 (by omega)
      · rintro (h | ⟨p, h1, h2, _⟩)
        · exact h
        · exact absurd h2 (by omega)
      · rintro (h | ⟨p, h1, h2, _⟩)
        · exact h
        · exact absurd h2 (by omega)

end FST

namespace FST

theorem exists_zero (P : Nat → Prop) (L : Nat) (hL : 0 < L) :
    (∃ p, p < L ∧ P p) ↔ (P 0 ∨ ∃ p, 1 ≤ p ∧ p < L ∧ P p) := by
  constructor
  · rintro ⟨p, h1, h2⟩
    rcases Nat.eq_zero_or_pos p with he | hp
    · exact Or.inl (by rw [← he]; exact h2)
    · exact Or.inr ⟨p, hp, h1, h2⟩
  · rintro (h | ⟨p, h1, h2, h3⟩)
    · exact ⟨0, hL, h⟩
    · exact ⟨p, h2, h3⟩

theorem setLCIB_pres (b : Builder) (level node_num pos L : Nat) (hne : L ≠ level) :
    (setLabelAndChildIndicatorBitmap b level node_num pos).bitmap_labels.getD L [] =
      b.bitmap_labels.getD L [] ∧
    (setLabelAndChildIndicatorBitmap b level node_num pos).bitmap_child_indicator_bits.getD
      L [] = b.bitmap_child_indicator_bits.getD L [] ∧
    (setLabelAndChildIndicatorBitmap b level node_num pos).prefixkey_indicator_bits.getD
      L [] = b.prefixkey_indicator_bits.getD L [] := by
  rw [setLabelAndChildIndicatorBitmap]
  split_ifs with hc
  · refine ⟨?_, ?_, rfl⟩
    · rw [(setBCI_facts _ level _).2.2.2.1, (flagCI_facts _ level pos).2.2.2.1,
        (setBL_facts b level _).2.2.2.1, getD_set_of_ne _ _ _ _ _ hne]
    · rw [(setBCI_facts _ level _).2.2.2.2.1, getD_set_of_ne _ _ _ _ _ hne]
      rfl
  · refine ⟨?_, rfl, rfl⟩
    · rw [(flagCI_facts _ level pos).2.2.2.1, (setBL_facts b level _).2.2.2.1,
        getD_set_of_ne _ _ _ _ _ hne]

theorem denseInner_pres (level L : Nat) (hne : L ≠ level) :
    ∀ (fuel : Nat) (b : Builder) (pos nn : Nat),
    (denseInner level fuel b pos nn).bitmap_labels.getD L [] =
      b.bitmap_labels.getD L [] ∧
    (denseInner level fuel b pos nn).bitmap_child_indicator_bits.getD L [] =
      b.bitmap_child_indicator_bits.getD L [] ∧
    (denseInner level fuel b pos nn).prefixkey_indicator_bits.getD L [] =
      b.prefixkey_indicator_bits.getD L []
  | 0, b, pos, nn => ⟨rfl, rfl, rfl⟩
  | fuel + 1, b, pos, nn => by
    rw [denseInner]
    simp only []
    split_ifs with h1 h2 h3
    · obtain ⟨a1, a2, a3⟩ := denseInner_pres level L hne fuel
        (setPK (flagCI (flagLouds b level pos) level pos) level (nn + 1)) (pos + 1) (nn + 1)
      refine ⟨a1, a2, ?_⟩
      rw [a3, (setPK_facts _ level _).2.2.2.2.2.1, getD_set_of_ne _ _ _ _ _ hne]
      rfl
    · obtain ⟨a1, a2, a3⟩ := denseInner_pres level L hne fuel
        (setLabelAndChildIndicatorBitmap (flagCI (flagLouds b level pos) level pos)
          level (nn + 1) pos) (pos + 1) (nn + 1)
      obtain ⟨c1, c2, c3⟩ := setLCIB_pres (flagCI (flagLouds b level pos) level pos)
        level (nn + 1) pos L hne
      exact ⟨by rw [a1, c1]; rfl, by rw [a2, c2]; rfl, by rw [a3, c3]; rfl⟩
    · obtain ⟨a1, a2, a3⟩ := denseInner_pres level L hne fuel
        (setLabelAndChildIndicatorBitmap (flagLouds b level pos) level nn pos) (pos + 1) nn
      obtain ⟨c1, c2, c3⟩ := setLCIB_pres (flagLouds b level pos) level nn pos L hne
      exact ⟨by rw [a1, c1]; rfl, by rw [a2, c2]; rfl, by rw [a3, c3]; rfl⟩
    · exact ⟨rfl, rfl, rfl⟩

theorem denseLevel_pres (b : Builder) (level L : Nat) (hne : L < level)
    (hin1 : L < b.bitmap_labels.length)
    (hin2 : L < b.bitmap_child_indicator_bits.length)
    (hin3 : L < b.prefixkey_indicator_bits.length) :
    (denseLevel b level).bitmap_labels.getD L [] = b.bitmap_labels.getD L [] ∧
    (denseLevel b level).bitmap_child_indicator_bits.getD L [] =
      b.bitmap_child_indicator_bits.getD L [] ∧
    (denseLevel b level).prefixkey_indicator_bits.getD L [] =
      b.prefixkey_indicator_bits.getD L [] := by
  have hni : L ≠ level := by omega
  have j1 : (initDenseVectors b level).bitmap_labels.getD L [] =
      b.bitmap_labels.getD L [] := by
    rw [show (initDenseVectors b level).bitmap_labels =
      b.bitmap_labels ++ [List.replicate (4 * b.node_counts.getD level 0) 0] from rfl,
      getD_append_lt _ _ _ _ hin1]
  have j2 : (initDenseVectors b level).bitmap_child_indicator_bits.getD L [] =
      b.bitmap_child_indicator_bits.getD L [] := by
    rw [show (initDenseVectors b level).bitmap_child_indicator_bits =
      b.bitmap_child_indicator_bits ++
        [List.replicate (4 * b.node_counts.getD level 0) 0] from rfl,
      getD_append_lt _ _ _ _ hin2]
  have j3 : (initDenseVectors b level).prefixkey_indicator_bits.getD L [] =
      b.prefixkey_indicator_bits.getD L [] := by
    rw [show (initDenseVectors b level).prefixkey_indicator_bits =
      b.prefixkey_indicator_bits ++
        [List.replicate ((b.node_counts.getD level 0 + 63) / 64) 0] from rfl,
      getD_append_lt _ _ _ _ hin3]
  rw [denseLevel]
  simp only []
  split_ifs with h0 hterm
  · exact ⟨j1, j2, j3⟩
  · obtain ⟨a1, a2, a3⟩ := denseInner_pres level L hni
      (Builder.numItems (setPK (flagCI (initDenseVectors b level) level 0) level 0) level)
      (setPK (flagCI (initDenseVectors b level) level 0) level 0) 1 0
    refine ⟨by rw [a1]; exact j1, by rw [a2]; exact j2, ?_⟩
    rw [a3, (setPK_facts _ level 0).2.2.2.2.2.1, getD_set_of_ne _ _ _ _ _ hni]
    exact j3
  · obtain ⟨a1, a2, a3⟩ := denseInner_pres level L hni
      (Builder.numItems (setLabelAndChildIndicatorBitmap
        (flagCI (initDenseVectors b level) level 0) level 0 0) level)
      (setLabelAndChildIndicatorBitmap (flagCI (initDenseVectors b level) level 0) level 0 0)
      1 0
    obtain ⟨c1, c2, c3⟩ := setLCIB_pres (flagCI (initDenseVectors b level) level 0)
      level 0 0 L hni
    exact ⟨by rw [a1, c1]; exact j1, by rw [a2, c2]; exact j2, by rw [a3, c3]; exact j3⟩

theorem denseLevel_len (b : Builder) (level : Nat) :
    (denseLevel b level).bitmap_labels.length = b.bitmap_labels.length + 1 ∧
    (denseLevel b level).bitmap_child_indicator_bits.length =
      b.bitmap_child_indicator_bits.length + 1 ∧
    (denseLevel b level).prefixkey_indicator_bits.length =
      b.prefixkey_indicator_bits.length + 1 := by
  have j1 : (initDenseVectors b level).bitmap_labels.length =
      b.bitmap_labels.length + 1 := by
    rw [show (initDenseVectors b level).bitmap_labels =
      b.bitmap_labels ++ [List.replicate (4 * b.node_counts.getD level 0) 0] from rfl,
      List.length_append]
    rfl
  have j2 : (initDenseVectors b level).bitmap_child_indicator_bits.length =
      b.bitmap_child_indicator_bits.length + 1 := by
    rw [show (initDenseVectors b level).bitmap_child_indicator_bits =
      b.bitmap_child_indicator_bits ++
        [List.replicate (4 * b.node_counts.getD level 0) 0] from rfl,
      List.length_append]
    rfl
  have j3 : (initDenseVectors b level).prefixkey_indicator_bits.length =
      b.prefixkey_indicator_bits.length + 1 := by
    rw [show (initDenseVectors b level).prefixkey_indicator_bits =
      b.prefixkey_indicator_bits ++
        [List.replicate ((b.node_counts.getD level 0 + 63) / 64) 0] from rfl,
      List.length_append]
    rfl
  rw [denseLevel]
  simp only []
  split_ifs with h0 hterm
  · exact ⟨j1, j2, j3⟩
  · obtain ⟨a1, a2, a3⟩ := lengths_denseInner level
      (Builder.numItems (setPK (flagCI (initDenseVectors b level) level 0) level 0) level)
      (setPK (flagCI (initDenseVectors b level) level 0) level 0) 1 0
    refine ⟨by rw [a1]; exact j1, by rw [a2]; exact j2, ?_⟩
    rw [a3, (setPK_facts _ level 0).2.2.2.2.2.1, List.length_set]
    exact j3
  · obtain ⟨a1, a2, a3⟩ := lengths_denseInner level
      (Builder.numItems (setLabelAndChildIndicatorBitmap
        (flagCI (initDenseVectors b level) level 0) level 0 0) level)
      (setLabelAndChildIndicatorBitmap (flagCI (initDenseVectors b level) level 0) level 0 0)
      1 0
    obtain ⟨c1, c2, c3⟩ := lengths_setLCIB (flagCI (initDenseVectors b level) level 0)
      level 0 0
    exact ⟨by rw [a1, c1]; exact j1, by rw [a2, c2]; exact j2, by rw [a3, c3]; exact j3⟩

theorem denseLevels_pres :
    ∀ (fuel : Nat) (b : Builder) (level L : Nat), L < level →
    L < b.bitmap_labels.length →
    L < b.bitmap_child_indicator_bits.length →
    L < b.prefixkey_indicator_bits.length →
    (denseLevels fuel b level).bitmap_labels.getD L [] = b.bitmap_labels.getD L [] ∧
    (denseLevels fuel b level).bitmap_child_indicator_bits.getD L [] =
      b.bitmap_child_indicator_bits.getD L [] ∧
    (denseLevels fuel b level).prefixkey_indicator_bits.getD L [] =
      b.prefixkey_indicator_bits.getD L []
  | 0, b, level, L, h, h1, h2, h3 => ⟨rfl, rfl, rfl⟩
  | fuel + 1, b, level, L, h, h1, h2, h3 => by
    rw [denseLevels]
    split_ifs with hc
    · obtain ⟨l1, l2, l3⟩ := denseLevel_len b level
      obtain ⟨a1, a2, a3⟩ := denseLevels_pres fuel (denseLevel b level) (level + 1) L
        (by omega) (by omega) (by omega) (by omega)
      obtain ⟨c1, c2, c3⟩ := denseLevel_pres b level L h h1 h2 h3
      exact ⟨by rw [a1, c1], by rw [a2, c2], by rw [a3, c3]⟩
    · exact ⟨rfl, rfl, rfl⟩

end FST

namespace FST

theorem denseLevel_bits (b : Builder) (level : Nat)
    (hlou : loudsOk b) (hsafe : safeOk b)
    (hbl : b.bitmap_labels.length = level)
    (hbc : b.bitmap_child_indicator_bits.length = level)
    (hpk : b.prefixkey_indicator_bits.length = level)
    (hlev : level < b.labels.length) :
    ∀ q : Nat,
    (readBit ((denseLevel b level).bitmap_labels.getD level []) q = true ↔
      ∃ p, p < (b.labels.getD level []).length ∧
        ¬ termSlot (b.labels.getD level []) (b.louds_bits.getD level [])
          (b.child_indicator_bits.getD level []) p ∧
        q = nodeNumAt (b.louds_bits.getD level []) p * kFanout +
          (b.labels.getD level []).getD p 0) ∧
    (readBit ((denseLevel b level).bitmap_child_indicator_bits.getD level []) q = true ↔
      ∃ p, p < (b.labels.getD level []).length ∧
        ¬ termSlot (b.labels.getD level []) (b.louds_bits.getD level [])
          (b.child_indicator_bits.getD level []) p ∧
        readBit (b.child_indicator_bits.getD level []) p = true ∧
        q = nodeNumAt (b.louds_bits.getD level []) p * kFanout +
          (b.labels.getD level []).getD p 0) ∧
    (readBit ((denseLevel b level).prefixkey_indicator_bits.getD level []) q = true ↔
      ∃ p, p < (b.labels.getD level []).length ∧
        termSlot (b.labels.getD level []) (b.louds_bits.getD level [])
          (b.child_indicator_bits.getD level []) p ∧
        q = nodeNumAt (b.louds_bits.getD level []) p) := by
  obtain ⟨hok, hcl, hll, hne, hcap5, hcap6, hb0, h256⟩ := hsafe
  obtain ⟨hw1, hw2, hw3⟩ := hlou
  have hpc : popcountVec (b.louds_bits.getD level []) = b.node_counts.getD level 0 :=
    (hw3 level).1
  have hcapl : (b.labels.getD level []).length < 64 * (b.louds_bits.getD level []).length :=
    hcap6 level hlev
  have hcapc : (b.labels.getD level []).length <
      64 * (b.child_indicator_bits.getD level []).length := hcap5 level hlev
  have hneq : b.labels.getD level [] ≠ [] := hne level hlev
  have hbit0 : readBit (b.louds_bits.getD level []) 0 = true := hb0 level hneq
  have hlab : ∀ x ∈ b.labels.getD level [], x < 256 := h256 level
  have hlen1 : 1 ≤ (b.labels.getD level []).length := ne_nil_length _ hneq
  have hnc1 : 1 ≤ b.node_counts.getD level 0 := by
    rw [← hpc]
    exact popcountVec_pos _ hbit0 (by omega)
  have i1 : (initDenseVectors b level).bitmap_labels =
      b.bitmap_labels ++ [List.replicate (4 * b.node_counts.getD level 0) 0] := rfl
  have i2 : (initDenseVectors b level).bitmap_child_indicator_bits =
      b.bitmap_child_indicator_bits ++
        [List.replicate (4 * b.node_counts.getD level 0) 0] := rfl
  have i3 : (initDenseVectors b level).prefixkey_indicator_bits =
      b.prefixkey_indicator_bits ++
        [List.replicate ((b.node_counts.getD level 0 + 63) / 64) 0] := rfl
  have i4 : (initDenseVectors b level).labels = b.labels := rfl
  have i5 : (initDenseVectors b level).louds_bits = b.louds_bits := rfl
  have i6 : (initDenseVectors b level).child_indicator_bits = b.child_indicator_bits := rfl
  have i7 : (initDenseVectors b level).bitsOk = b.bitsOk := rfl
  have hg1L : (initDenseVectors b level).bitmap_labels.getD level [] =
      List.replicate (4 * b.node_counts.getD level 0) 0 := by
    rw [i1, getD_append_at _ _ _ _ hbl]
  have hg2L : (initDenseVectors b level).bitmap_child_indicator_bits.getD level [] =
      List.replicate (4 * b.node_counts.getD level 0) 0 := by
    rw [i2, getD_append_at _ _ _ _ hbc]
  have hg3L : (initDenseVectors b level).prefixkey_indicator_bits.getD level [] =
      List.replicate ((b.node_counts.getD level 0 + 63) / 64) 0 := by
    rw [i3, getD_append_at _ _ _ _ hpk]
  have hg1 : ((initDenseVectors b level).bitmap_labels.getD level []).length =
      4 * b.node_counts.getD level 0 := by
    rw [hg1L, List.length_replicate]
  have hg2 : ((initDenseVectors b level).bitmap_child_indicator_bits.getD level []).length =
      4 * b.node_counts.getD level 0 := by
    rw [hg2L, List.length_replicate]
  have hg3 : ((initDenseVectors b level).prefixkey_indicator_bits.getD level []).length =
      (b.node_counts.getD level 0 + 63) / 64 := by
    rw [hg3L, List.length_replicate]
  have hokC : (flagCI (initDenseVectors b level) level 0).bitsOk = true := by
    rw [(flagCI_facts _ level 0).2.2.2.2.2.2, i7, hok, i6]
    rw [bitOK_true, Bool.true_and]
    omega
  have hinpk1 : level < (flagCI (initDenseVectors b level) level
      0).prefixkey_indicator_bits.length := by
    rw [show (flagCI (initDenseVectors b level) level 0).prefixkey_indicator_bits =
      b.prefixkey_indicator_bits ++
        [List.replicate ((b.node_counts.getD level 0 + 63) / 64) 0] from rfl,
      List.length_append, List.length_singleton]
    omega
  have hinbl1 : level < (flagCI (initDenseVectors b level) level 0).bitmap_labels.length := by
    rw [show (flagCI (initDenseVectors b level) level 0).bitmap_labels =
      b.bitmap_labels ++ [List.replicate (4 * b.node_counts.getD level 0) 0] from rfl,
      List.length_append, List.length_singleton]
    omega
  have hinbc1 : level < (flagCI (initDenseVectors b level) level
      0).bitmap_child_indicator_bits.length := by
    rw [show (flagCI (initDenseVectors b level) level 0).bitmap_child_indicator_bits =
      b.bitmap_child_indicator_bits ++
        [List.replicate (4 * b.node_counts.getD level 0) 0] from rfl,
      List.length_append, List.length_singleton]
    omega
  rw [denseLevel]
  simp only []
  split_ifs with h0 hterm
  · have h0a : (b.labels.getD level []).length = 0 := h0
    exact absurd h0a (by omega)
  -- slot 0 is a node-start terminator
  · have hokP : (setPK (flagCI (initDenseVectors b level) level 0) level 0).bitsOk
        = true := by
      rw [(setPK_facts _ level 0).2.2.2.2.2.2, hokC,
        (flagCI_facts _ level 0).2.2.2.2.2.1]
      rw [bitOK_true, Bool.true_and]
      rw [hg3]
      omega
    have hterm0 : termSlot (b.labels.getD level []) (b.louds_bits.getD level [])
        (b.child_indicator_bits.getD level []) 0 := by
      rw [isTerminator] at hterm
      have hx1 : (flagCI (initDenseVectors b level) level 0).labels = b.labels := rfl
      have hx2 : (flagCI (initDenseVectors b level) level 0).child_indicator_bits =
          b.child_indicator_bits := rfl
      rw [hx1, hx2, Bool.and_eq_true] at hterm
      obtain ⟨ht1, ht2⟩ := hterm
      refine ⟨Or.inl rfl, of_decide_eq_true ht1, ?_⟩
      cases hci : readBit (b.child_indicator_bits.getD level []) 0
      · rfl
      · rw [hci] at ht2
        exact Bool.noConfusion ht2
    have IH := denseInner_bits level (b.labels.getD level []) (b.louds_bits.getD level [])
      (b.child_indicator_bits.getD level []) (b.node_counts.getD level 0)
      hpc hcapl hcapc hbit0 hlab hnc1
      (Builder.numItems (setPK (flagCI (initDenseVectors b level) level 0) level 0) level)
      (setPK (flagCI (initDenseVectors b level) level 0) level 0) 1 0
      (by rw [(setPK_facts _ level 0).1, (flagCI_facts _ level 0).1, i4])
      (by rw [(setPK_facts _ level 0).2.1, (flagCI_facts _ level 0).2.1, i5])
      (by rw [(setPK_facts _ level 0).2.2.1, (flagCI_facts _ level 0).2.2.1, i6])
      (by rw [(setPK_facts _ level 0).2.2.2.1, (flagCI_facts _ level 0).2.2.2.1]
          exact hg1)
      (by rw [(setPK_facts _ level 0).2.2.2.2.1, (flagCI_facts _ level 0).2.2.2.2.1]
          exact hg2)
      (by rw [(setPK_facts _ level 0).2.2.2.2.2.1, getD_set_setBitW_len,
          (flagCI_facts _ level 0).2.2.2.2.2.1]
          exact hg3)
      hokP (by omega)
      (by show (0 : Nat) = nodeNumAt (b.louds_bits.getD level []) 0
          rw [nodeNumAt_zero])
      (by
        have hni2 : Builder.numItems (setPK (flagCI (initDenseVectors b level) level 0)
          level 0) level = (b.labels.getD level []).length := rfl
        rw [hni2]
        omega)
    have EA : (setPK (flagCI (initDenseVectors b level) level 0) level
        0).bitmap_labels.getD level [] =
        List.replicate (4 * b.node_counts.getD level 0) 0 := hg1L
    have EB : (setPK (flagCI (initDenseVectors b level) level 0) level
        0).bitmap_child_indicator_bits.getD level [] =
        List.replicate (4 * b.node_counts.getD level 0) 0 := hg2L
    have hg3X : (flagCI (initDenseVectors b level) level 0).prefixkey_indicator_bits.getD
        level [] = List.replicate ((b.node_counts.getD level 0 + 63) / 64) 0 := hg3L
    have EC : (setPK (flagCI (initDenseVectors b level) level 0) level
        0).prefixkey_indicator_bits.getD level [] =
        setBitW (List.replicate ((b.node_counts.getD level 0 + 63) / 64) 0) 0 := by
      rw [setPK_bits (flagCI (initDenseVectors b level) level 0) level 0 hinpk1, hg3X]
    intro q
    obtain ⟨IA, IB, IC⟩ := IH q
    refine ⟨?_, ?_, ?_⟩
    · rw [IA, EA]
      simp only [readBit_replicate_zero, Bool.false_eq_true, false_or]
      have hsh : (∃ p, p < (b.labels.getD level []).length ∧
          ¬ termSlot (b.labels.getD level []) (b.louds_bits.getD level [])
            (b.child_indicator_bits.getD level []) p ∧
          q = nodeNumAt (b.louds_bits.getD level []) p * kFanout +
            (b.labels.getD level []).getD p 0) ↔
          ((¬ termSlot (b.labels.getD level []) (b.louds_bits.getD level [])
            (b.child_indicator_bits.getD level []) 0 ∧
            q = nodeNumAt (b.louds_bits.getD level []) 0 * kFanout +
              (b.labels.getD level []).getD 0 0) ∨
           ∃ p, 1 ≤ p ∧ p < (b.labels.getD level []).length ∧
            ¬ termSlot (b.labels.getD level []) (b.louds_bits.getD level [])
              (b.child_indicator_bits.getD level []) p ∧
            q = nodeNumAt (b.louds_bits.getD level []) p * kFanout +
              (b.labels.getD level []).getD p 0) :=
        exists_zero _ _ (by omega)
      have hp0 : (¬ termSlot (b.labels.getD level []) (b.louds_bits.getD level [])
          (b.child_indicator_bits.getD level []) 0 ∧
          q = nodeNumAt (b.louds_bits.getD level []) 0 * kFanout +
            (b.labels.getD level []).getD 0 0) ↔ False :=
        ⟨fun h => h.1 hterm0, False.elim⟩
      rw [hsh, hp0, false_or]
    · rw [IB, EB]
      simp only [readBit_replicate_zero, Bool.false_eq_true, false_or]
      have hsh : (∃ p, p < (b.labels.getD level []).length ∧
          ¬ termSlot (b.labels.getD level []) (b.louds_bits.getD level [])
            (b.child_indicator_bits.getD level []) p ∧
          readBit (b.child_indicator_bits.getD level []) p = true ∧
          q = nodeNumAt (b.louds_bits.getD level []) p * kFanout +
            (b.labels.getD level []).getD p 0) ↔
          ((¬ termSlot (b.labels.getD level []) (b.louds_bits.getD level [])
            (b.child_indicator_bits.getD level []) 0 ∧
            readBit (b.child_indicator_bits.getD level []) 0 = true ∧
            q = nodeNumAt (b.louds_bits.getD level []) 0 * kFanout +
              (b.labels.getD level []).getD 0 0) ∨
           ∃ p, 1 ≤ p ∧ p < (b.labels.getD level []).length ∧
            ¬ termSlot (b.labels.getD level []) (b.louds_bits.getD level [])
              (b.child_indicator_bits.getD level []) p ∧
            readBit (b.child_indicator_bits.getD level []) p = true ∧
            q = nodeNumAt (b.louds_bits.getD level []) p * kFanout +
              (b.labels.getD level []).getD p 0) :=
        exists_zero _ _ (by omega)
      have hp0 : (¬ termSlot (b.labels.getD level []) (b.louds_bits.getD level [])
          (b.child_indicator_bits.getD level []) 0 ∧
          readBit (b.child_indicator_bits.getD level []) 0 = true ∧
          q = nodeNumAt (b.louds_bits.getD level []) 0 * kFanout +
            (b.labels.getD level []).getD 0 0) ↔ False :=
        ⟨fun h => h.1 hterm0, False.elim⟩
      rw [hsh, hp0, false_or]
    · rw [IC, EC, readBit_setBitW_iff _ _ _
        (by rw [List.length_replicate]; omega)]
      simp only [readBit_replicate_zero, Bool.false_eq_true, false_or]
      have hsh : (∃ p, p < (b.labels.getD level []).length ∧
          termSlot (b.labels.getD level []) (b.louds_bits.getD level [])
            (b.child_indicator_bits.getD level []) p ∧
          q = nodeNumAt (b.louds_bits.getD level []) p) ↔
          ((termSlot (b.labels.getD level []) (b.louds_bits.getD level [])
            (b.child_indicator_bits.getD level []) 0 ∧
            q = nodeNumAt (b.louds_bits.getD level []) 0) ∨
           ∃ p, 1 ≤ p ∧ p < (b.labels.getD level []).length ∧
            termSlot (b.labels.getD level []) (b.louds_bits.getD level [])
              (b.child_indicator_bits.getD level []) p ∧
            q = nodeNumAt (b.louds_bits.getD level []) p) :=
        exists_zero _ _ (by omega)
      have hp0 : (termSlot (b.labels.getD level []) (b.louds_bits.getD level [])
          (b.child_indicator_bits.getD level []) 0 ∧
          q = nodeNumAt (b.louds_bits.getD level []) 0) ↔ q = 0 :=
        ⟨fun h => by rw [h.2, nodeNumAt_zero], fun h => ⟨hterm0, by rw [h, nodeNumAt_zero]⟩⟩
      rw [hsh, hp0]
  -- slot 0 is an ordinary slot
  · have hlabel0 : (b.labels.getD level []).getD 0 0 < 256 :=
      hlab _ (getD_mem _ _ _ (by omega))
    have hterm0F : ¬ termSlot (b.labels.getD level []) (b.louds_bits.getD level [])
        (b.child_indicator_bits.getD level []) 0 := by
      intro hts
      apply hterm
      rw [isTerminator]
      have hx1 : (flagCI (initDenseVectors b level) level 0).labels = b.labels := rfl
      have hx2 : (flagCI (initDenseVectors b level) level 0).child_indicator_bits =
          b.child_indicator_bits := rfl
      rw [hx1, hx2, hts.2.1, hts.2.2]
      simp
    have hlabel : ((flagCI (initDenseVectors b level) level 0).labels.getD
        level []).getD 0 0 < 256 := by
      rw [(flagCI_facts _ level 0).1, i4]
      exact hlabel0
    obtain ⟨s1, s2, s3, s4, s5, s6, s7, s8, s9⟩ :=
      setLCIB_facts (flagCI (initDenseVectors b level) level 0) level 0 0
        hokC
        (by
          rw [(flagCI_facts _ level 0).1, i4, (flagCI_facts _ level 0).2.2.2.1, hg1, kFanout]
          omega)
        (by
          rw [(flagCI_facts _ level 0).1, i4, (flagCI_facts _ level 0).2.2.2.2.1, hg2,
            kFanout]
          omega)
        (by
          rw [(flagCI_facts _ level 0).2.2.1, i6]
          omega)
    have IH := denseInner_bits level (b.labels.getD level []) (b.louds_bits.getD level [])
      (b.child_indicator_bits.getD level []) (b.node_counts.getD level 0)
      hpc hcapl hcapc hbit0 hlab hnc1
      (Builder.numItems (setLabelAndChildIndicatorBitmap
        (flagCI (initDenseVectors b level) level 0) level 0 0) level)
      (setLabelAndChildIndicatorBitmap (flagCI (initDenseVectors b level) level 0) level 0 0)
      1 0
      (by rw [s1, (flagCI_facts _ level 0).1, i4])
      (by rw [s2, (flagCI_facts _ level 0).2.1, i5])
      (by rw [s3, (flagCI_facts _ level 0).2.2.1, i6])
      (by rw [s4, (flagCI_facts _ level 0).2.2.2.1]
          exact hg1)
      (by rw [s5, (flagCI_facts _ level 0).2.2.2.2.1]
          exact hg2)
      (by rw [s6, (flagCI_facts _ level 0).2.2.2.2.2.1]
          exact hg3)
      s9 (by omega)
      (by show (0 : Nat) = nodeNumAt (b.louds_bits.getD level []) 0
          rw [nodeNumAt_zero])
      (by
        have hni3 : Builder.numItems (setLabelAndChildIndicatorBitmap
          (flagCI (initDenseVectors b level) level 0) level 0 0) level =
          (b.labels.getD level []).length := by
          rw [Builder.numItems, s1, (flagCI_facts _ level 0).1, i4]
        rw [hni3]
        omega)
    obtain ⟨FA, FB, FC⟩ := setLCIB_bits (flagCI (initDenseVectors b level) level 0)
      level 0 0 hinbl1 hinbc1
    have hx1 : (flagCI (initDenseVectors b level) level 0).labels = b.labels := rfl
    have hx2 : (flagCI (initDenseVectors b level) level 0).child_indicator_bits =
        b.child_indicator_bits := rfl
    have hx3 : (flagCI (initDenseVectors b level) level 0).bitmap_labels =
        (initDenseVectors b level).bitmap_labels := rfl
    have hx4 : (flagCI (initDenseVectors b level) level 0).bitmap_child_indicator_bits =
        (initDenseVectors b level).bitmap_child_indicator_bits := rfl
    have hx5 : (flagCI (initDenseVectors b level) level 0).prefixkey_indicator_bits =
        (initDenseVectors b level).prefixkey_indicator_bits := rfl
    rw [hx1, hx3, hg1L] at FA
    rw [hx1, hx2, hx4, hg2L] at FB
    intro q
    obtain ⟨IA, IB, IC⟩ := IH q
    refine ⟨?_, ?_, ?_⟩
    · rw [IA, FA, readBit_setBitW_iff _ _ _
        (by rw [List.length_replicate, kFanout]; have h5 := hlabel0; omega)]
      simp only [readBit_replicate_zero, Bool.false_eq_true, false_or]
      have hsh : (∃ p, p < (b.labels.getD level []).length ∧
          ¬ termSlot (b.labels.getD level []) (b.louds_bits.getD level [])
            (b.child_indicator_bits.getD level []) p ∧
          q = nodeNumAt (b.louds_bits.getD level []) p * kFanout +
            (b.labels.getD level []).getD p 0) ↔
          ((¬ termSlot (b.labels.getD level []) (b.louds_bits.getD level [])
            (b.child_indicator_bits.getD level []) 0 ∧
            q = nodeNumAt (b.louds_bits.getD level []) 0 * kFanout +
              (b.labels.getD level []).getD 0 0) ∨
           ∃ p, 1 ≤ p ∧ p < (b.labels.getD level []).length ∧
            ¬ termSlot (b.labels.getD level []) (b.louds_bits.getD level [])
              (b.child_indicator_bits.getD level []) p ∧
            q = nodeNumAt (b.louds_bits.getD level []) p * kFanout +
              (b.labels.getD level []).getD p 0) :=
        exists_zero _ _ (by omega)
      have hp0 : (¬ termSlot (b.labels.getD level []) (b.louds_bits.getD level [])
          (b.child_indicator_bits.getD level []) 0 ∧
          q = nodeNumAt (b.louds_bits.getD level []) 0 * kFanout +
            (b.labels.getD level []).getD 0 0) ↔
          q = 0 * kFanout + (b.labels.getD level []).getD 0 0 :=
        ⟨fun h => by rw [h.2, nodeNumAt_zero], fun h => ⟨hterm0F, by rw [h, nodeNumAt_zero]⟩⟩
      rw [hsh, hp0]
    · rcases hci0 : readBit (b.child_indicator_bits.getD level []) 0 with _ | _
      · have hcf : ¬ (readBit (b.child_indicator_bits.getD level []) 0 = true) := by
          rw [hci0]
          simp
        rw [if_neg hcf] at FB
        rw [IB, FB]
        simp only [readBit_replicate_zero, Bool.false_eq_true, false_or]
        have hsh : (∃ p, p < (b.labels.getD level []).length ∧
            ¬ termSlot (b.labels.getD level []) (b.louds_bits.getD level [])
              (b.child_indicator_bits.getD level []) p ∧
            readBit (b.child_indicator_bits.getD level []) p = true ∧
            q = nodeNumAt (b.louds_bits.getD level []) p * kFanout +
              (b.labels.getD level []).getD p 0) ↔
            ((¬ termSlot (b.labels.getD level []) (b.louds_bits.getD level [])
              (b.child_indicator_bits.getD level []) 0 ∧
              readBit (b.child_indicator_bits.getD level []) 0 = true ∧
              q = nodeNumAt (b.louds_bits.getD level []) 0 * kFanout +
                (b.labels.getD level []).getD 0 0) ∨
             ∃ p, 1 ≤ p ∧ p < (b.labels.getD level []).length ∧
              ¬ termSlot (b.labels.getD level []) (b.louds_bits.getD level [])
                (b.child_indicator_bits.getD level []) p ∧
              readBit (b.child_indicator_bits.getD level []) p = true ∧
              q = nodeNumAt (b.louds_bits.getD level []) p * kFanout +
                (b.labels.getD level []).getD p 0) :=
          exists_zero _ _ (by omega)
        have hp0 : (¬ termSlot (b.labels.getD level []) (b.louds_bits.getD level [])
            (b.child_indicator_bits.getD level []) 0 ∧
            readBit (b.child_indicator_bits.getD level []) 0 = true ∧
            q = nodeNumAt (b.louds_bits.getD level []) 0 * kFanout +
              (b.labels.getD level []).getD 0 0) ↔ False :=
          ⟨fun h => hcf h.2.1, False.elim⟩
        rw [hsh, hp0, false_or]
      · rw [if_pos hci0] at FB
        rw [IB, FB, readBit_setBitW_iff _ _ _
          (by rw [List.length_replicate, kFanout]; have h5 := hlabel0; omega)]
        simp only [readBit_replicate_zero, Bool.false_eq_true, false_or]
        have hsh : (∃ p, p < (b.labels.getD level []).length ∧
            ¬ termSlot (b.labels.getD level []) (b.louds_bits.getD level [])
              (b.child_indicator_bits.getD level []) p ∧
            readBit (b.child_indicator_bits.getD level []) p = true ∧
            q = nodeNumAt (b.louds_bits.getD level []) p * kFanout +
              (b.labels.getD level []).getD p 0) ↔
            ((¬ termSlot (b.labels.getD level []) (b.louds_bits.getD level [])
              (b.child_indicator_bits.getD level []) 0 ∧
              readBit (b.child_indicator_bits.getD level []) 0 = true ∧
              q = nodeNumAt (b.louds_bits.getD level []) 0 * kFanout +
                (b.labels.getD level []).getD 0 0) ∨
             ∃ p, 1 ≤ p ∧ p < (b.labels.getD level []).length ∧
              ¬ termSlot (b.labels.getD level []) (b.louds_bits.getD level [])
                (b.child_indicator_bits.getD level []) p ∧
              readBit (b.child_indicator_bits.getD level []) p = true ∧
              q = nodeNumAt (b.louds_bits.getD level []) p * kFanout +
                (b.labels.getD level []).getD p 0) :=
          exists_zero _ _ (by omega)
        have hp0 : (¬ termSlot (b.labels.getD level []) (b.louds_bits.getD level [])
            (b.child_indicator_bits.getD level []) 0 ∧
            readBit (b.child_indicator_bits.getD level []) 0 = true ∧
            q = nodeNumAt (b.louds_bits.getD level []) 0 * kFanout +
              (b.labels.getD level []).getD 0 0) ↔
            q = 0 * kFanout + (b.labels.getD level []).getD 0 0 :=
          ⟨fun h => by rw [h.2.2, nodeNumAt_zero],
           fun h => ⟨hterm0F, hci0, by rw [h, nodeNumAt_zero]⟩⟩
        rw [hsh, hp0]
    · rw [IC, FC, hx5, hg3L]
      simp only [readBit_replicate_zero, Bool.false_eq_true, false_or]
      have hsh : (∃ p, p < (b.labels.getD level []).length ∧
          termSlot (b.labels.getD level []) (b.louds_bits.getD level [])
            (b.child_indicator_bits.getD level []) p ∧
          q = nodeNumAt (b.louds_bits.getD level []) p) ↔
          ((termSlot (b.labels.getD level []) (b.louds_bits.getD level [])
            (b.child_indicator_bits.getD level []) 0 ∧
            q = nodeNumAt (b.louds_bits.getD level []) 0) ∨
           ∃ p, 1 ≤ p ∧ p < (b.labels.getD level []).length ∧
            termSlot (b.labels.getD level []) (b.louds_bits.getD level [])
              (b.child_indicator_bits.getD level []) p ∧
            q = nodeNumAt (b.louds_bits.getD level []) p) :=
        exists_zero _ _ (by omega)
      have hp0 : (termSlot (b.labels.getD level []) (b.louds_bits.getD level [])
          (b.child_indicator_bits.getD level []) 0 ∧
          q = nodeNumAt (b.louds_bits.getD level []) 0) ↔ False :=
        ⟨fun h => hterm0F h.1, False.elim⟩
      rw [hsh, hp0, false_or]

end FST

namespace FST

theorem denseLevels_bits :
    ∀ (fuel : Nat) (b : Builder) (level : Nat),
      loudsOk b → safeOk b →
      b.bitmap_labels.length = level →
      b.bitmap_child_indicator_bits.length = level →
      b.prefixkey_indicator_bits.length = level →
      b.sparse_start_level ≤ b.labels.length →
      b.sparse_start_level ≤ level + fuel →
      ∀ L : Nat, level ≤ L → L < b.sparse_start_level →
      ∀ q : Nat,
      (readBit ((denseLevels fuel b level).bitmap_labels.getD L []) q = true ↔
        ∃ p, p < (b.labels.getD L []).length ∧
          ¬ termSlot (b.labels.getD L []) (b.louds_bits.getD L [])
            (b.child_indicator_bits.getD L []) p ∧
          q = nodeNumAt (b.louds_bits.getD L []) p * kFanout +
            (b.labels.getD L []).getD p 0) ∧
      (readBit ((denseLevels fuel b level).bitmap_child_indicator_bits.getD L []) q = true ↔
        ∃ p, p < (b.labels.getD L []).length ∧
          ¬ termSlot (b.labels.getD L []) (b.louds_bits.getD L [])
            (b.child_indicator_bits.getD L []) p ∧
          readBit (b.child_indicator_bits.getD L []) p = true ∧
          q = nodeNumAt (b.louds_bits.getD L []) p * kFanout +
            (b.labels.getD L []).getD p 0) ∧
      (readBit ((denseLevels fuel b level).prefixkey_indicator_bits.getD L []) q = true ↔
        ∃ p, p < (b.labels.getD L []).length ∧
          termSlot (b.labels.getD L []) (b.louds_bits.getD L [])
            (b.child_indicator_bits.getD L []) p ∧
          q = nodeNumAt (b.louds_bits.getD L []) p)
  | 0, b, level, hlou, hsafe, h1, h2, h3, hssl, hssl2, L, hL1, hL2, q =>
    absurd hL2 (by omega)
  | fuel + 1, b, level, hlou, hsafe, h1, h2, h3, hssl, hssl2, L, hL1, hL2, q => by
    rw [denseLevels]
    split_ifs with hc
    · rcases Nat.eq_or_lt_of_le hL1 with he | hlt2
      · obtain ⟨l1, l2, l3⟩ := denseLevel_len b level
        obtain ⟨P1, P2, P3⟩ := denseLevels_pres fuel (denseLevel b level) (level + 1) L
          (by omega) (by omega) (by omega) (by omega)
        obtain ⟨D1, D2, D3⟩ := denseLevel_bits b level hlou hsafe h1 h2 h3 (by omega) q
        rw [← he] at P1 P2 P3
        rw [← he]
        refine ⟨?_, ?_, ?_⟩
        · rw [P1]
          exact D1
        · rw [P2]
          exact D2
        · rw [P3]
          exact D3
      · have hs := sparse_denseLevel b level
        simp only [Prod.mk.injEq] at hs
        obtain ⟨e_lab, e_nc, e_lo, e_ci, e_ssl, _⟩ := hs
        obtain ⟨d1, d2, d3, d4⟩ := denseLevel_ok b level hlou hsafe h1 h2 h3 (by omega)
        have R := denseLevels_bits fuel (denseLevel b level) (level + 1)
          (loudsOk_congr _ b e_lo e_lab e_nc hlou)
          (safeOk_of_fields _ b d1 e_ci e_lab e_lo hsafe)
          d2 d3 d4
          (by rw [e_ssl, e_lab]; exact hssl)
          (by rw [e_ssl]; omega)
          L hlt2 (by rw [e_ssl]; exact hL2) q
        rw [e_lab, e_lo, e_ci] at R
        exact R
    · exact absurd hL2 (by omega)

end FST

namespace FST

end FST
namespace FST

/-- Claim C10: during every build (any configuration and key list, in
particular every sorted one), every bit read and write the builder performs
through `readBit`/`setBit` — on the per-level child-indicator and LOUDS
word vectors during the sparse phase and on the dense bitmap and prefix-key
word vectors during the dense conversion — has its position strictly less
than the vector's size in words times the word size, so the out-of-range
assertion in `readBit`/`setBit` can never fire: `bitsOk` conjoins the
bounds check `bitOK` of every such access and stays `true`. -/
theorem c10_theorem (dense : Bool) (ratio : Nat) (keys : List (List Nat)) :
    (runBuild dense ratio keys).bitsOk = true :=
  bitsOk_runBuild dense ratio keys

end FST
namespace FST

/-- Claim C9: in the dense conversion, for every dense level `L` (every
`L` below `sparse_start_level`) the final dense bitmaps are exactly the
bits contributed by the walk over the sparse slots of that level, with
`node_num` counting the set LOUDS bits: a slot that is a node start (slot
0, or a slot whose LOUDS bit is set) whose label is the reserved
terminator with clear child indicator sets `prefixkey_indicator_bits[L]`
at `node_num` and contributes no label bit; every other slot sets
`bitmap_labels[L]` at `node_num * 256 + label`, and sets
`bitmap_child_indicator_bits[L]` at the same position iff its sparse
child-indicator bit is set. -/
theorem c9_theorem (ratio : Nat) (keys : List (List Nat)) (L : Nat)
    (hL : L < (runBuild true ratio keys).sparse_start_level) :
    ∀ q : Nat,
    (readBit ((runBuild true ratio keys).bitmap_labels.getD L []) q = true ↔
      ∃ p, p < ((runBuild true ratio keys).labels.getD L []).length ∧
        ¬ termSlot ((runBuild true ratio keys).labels.getD L [])
          ((runBuild true ratio keys).louds_bits.getD L [])
          ((runBuild true ratio keys).child_indicator_bits.getD L []) p ∧
        q = nodeNumAt ((runBuild true ratio keys).louds_bits.getD L []) p * kFanout +
          ((runBuild true ratio keys).labels.getD L []).getD p 0) ∧
    (readBit ((runBuild true ratio keys).bitmap_child_indicator_bits.getD L []) q = true ↔
      ∃ p, p < ((runBuild true ratio keys).labels.getD L []).length ∧
        ¬ termSlot ((runBuild true ratio keys).labels.getD L [])
          ((runBuild true ratio keys).louds_bits.getD L [])
          ((runBuild true ratio keys).child_indicator_bits.getD L []) p ∧
        readBit ((runBuild true ratio keys).child_indicator_bits.getD L []) p = true ∧
        q = nodeNumAt ((runBuild true ratio keys).louds_bits.getD L []) p * kFanout +
          ((runBuild true ratio keys).labels.getD L []).getD p 0) ∧
    (readBit ((runBuild true ratio keys).prefixkey_indicator_bits.getD L []) q = true ↔
      ∃ p, p < ((runBuild true ratio keys).labels.getD L []).length ∧
        termSlot ((runBuild true ratio keys).labels.getD L [])
          ((runBuild true ratio keys).louds_bits.getD L [])
          ((runBuild true ratio keys).child_indicator_bits.getD L []) p ∧
        q = nodeNumAt ((runBuild true ratio keys).louds_bits.getD L []) p) := by
  rw [runBuild, build] at hL ⊢
  have hsafe : safeOk (buildSparse
      { mkBuilder true ratio with
        assertsOk := (mkBuilder true ratio).assertsOk && decide (keys.length > 0) } keys) := by
    rw [buildSparse]
    exact safeOk_buildSparseLoop keys keys.length _ 0
      (safeOk_congr _ (mkBuilder true ratio) rfl rfl rfl rfl (safeOk_mkBuilder true ratio))
  have hlou : loudsOk (buildSparse
      { mkBuilder true ratio with
        assertsOk := (mkBuilder true ratio).assertsOk && decide (keys.length > 0) } keys) := by
    rw [buildSparse]
    exact loudsOk_buildSparseLoop keys keys.length _ 0
      (loudsOk_congr _ (mkBuilder true ratio) rfl rfl rfl (loudsOk_mkBuilder true ratio))
  have hbm : ((buildSparse
      { mkBuilder true ratio with
        assertsOk := (mkBuilder true ratio).assertsOk && decide (keys.length > 0) }
      keys).bitmap_labels,
      (buildSparse
      { mkBuilder true ratio with
        assertsOk := (mkBuilder true ratio).assertsOk && decide (keys.length > 0) }
      keys).bitmap_child_indicator_bits,
      (buildSparse
      { mkBuilder true ratio with
        assertsOk := (mkBuilder true ratio).assertsOk && decide (keys.length > 0) }
      keys).prefixkey_indicator_bits) =
      (([] : List (List Nat)), ([] : List (List Nat)), ([] : List (List Nat))) := by
    rw [buildSparse, bmaps_buildSparseLoop]
    rfl
  simp only [Prod.mk.injEq] at hbm
  obtain ⟨hb1, hb2, hb3⟩ := hbm
  split_ifs at hL ⊢ with hd
  · rw [buildDense] at hL ⊢
    have hs := sparse_denseLevels (determineCutoffLevel (buildSparse
      { mkBuilder true ratio with
        assertsOk := (mkBuilder true ratio).assertsOk && decide (keys.length > 0) }
      keys)).sparse_start_level
      (determineCutoffLevel (buildSparse
      { mkBuilder true ratio with
        assertsOk := (mkBuilder true ratio).assertsOk && decide (keys.length > 0) }
      keys)) 0
    simp only [Prod.mk.injEq] at hs
    obtain ⟨f_lab, f_nc, f_lo, f_ci, f_ssl, _⟩ := hs
    rw [f_ssl] at hL
    intro q
    have R := denseLevels_bits (determineCutoffLevel (buildSparse
      { mkBuilder true ratio with
        assertsOk := (mkBuilder true ratio).assertsOk && decide (keys.length > 0) }
      keys)).sparse_start_level
      (determineCutoffLevel (buildSparse
      { mkBuilder true ratio with
        assertsOk := (mkBuilder true ratio).assertsOk && decide (keys.length > 0) }
      keys)) 0
      (loudsOk_congr _ (buildSparse
        { mkBuilder true ratio with
          assertsOk := (mkBuilder true ratio).assertsOk && decide (keys.length > 0) } keys)
        rfl rfl rfl hlou)
      (safeOk_congr _ (buildSparse
        { mkBuilder true ratio with
          assertsOk := (mkBuilder true ratio).assertsOk && decide (keys.length > 0) } keys)
        rfl rfl rfl rfl hsafe)
      (by rw [dcl_bl, hb1]; rfl)
      (by rw [dcl_bci, hb2]; rfl)
      (by rw [dcl_pk, hb3]; rfl)
      (by rw [dcl_ssl, dcl_labels]; exact cutoffLoop_le _ _ _ 0 (Nat.zero_le _))
      (by omega)
      L (Nat.zero_le L) hL q
    rw [f_lab, f_lo, f_ci]
    exact R
  · have hid : (buildSparse
        { mkBuilder true ratio with
          assertsOk := (mkBuilder true ratio).assertsOk && decide (keys.length > 0) }
        keys).include_dense = true := by
      rw [buildSparse]
      have h := cfg_buildSparseLoop keys keys.length
        { mkBuilder true ratio with
          assertsOk := (mkBuilder true ratio).assertsOk && decide (keys.length > 0) } 0
      simp only [Prod.mk.injEq] at h
      exact h.1.trans rfl
    exact absurd hid hd

theorem c9_theorem_witness :
    0 < (runBuild true 1 [[97]]).sparse_start_level ∧
    ((readBit ((runBuild true 1 [[97]]).bitmap_labels.getD 0 []) 97 = true ↔
      ∃ p, p < ((runBuild true 1 [[97]]).labels.getD 0 []).length ∧
        ¬ termSlot ((runBuild true 1 [[97]]).labels.getD 0 [])
          ((runBuild true 1 [[97]]).louds_bits.getD 0 [])
          ((runBuild true 1 [[97]]).child_indicator_bits.getD 0 []) p ∧
        97 = nodeNumAt ((runBuild true 1 [[97]]).louds_bits.getD 0 []) p * kFanout +
          ((runBuild true 1 [[97]]).labels.getD 0 []).getD p 0) ∧
    (readBit ((runBuild true 1 [[97]]).bitmap_child_indicator_bits.getD 0 []) 97 = true ↔
      ∃ p, p < ((runBuild true 1 [[97]]).labels.getD 0 []).length ∧
        ¬ termSlot ((runBuild true 1 [[97]]).labels.getD 0 [])
          ((runBuild true 1 [[97]]).louds_bits.getD 0 [])
          ((runBuild true 1 [[97]]).child_indicator_bits.getD 0 []) p ∧
        readBit ((runBuild true 1 [[97]]).child_indicator_bits.getD 0 []) p = true ∧
        97 = nodeNumAt ((runBuild true 1 [[97]]).louds_bits.getD 0 []) p * kFanout +
          ((runBuild true 1 [[97]]).labels.getD 0 []).getD p 0) ∧
    (readBit ((runBuild true 1 [[97]]).prefixkey_indicator_bits.getD 0 []) 97 = true ↔
      ∃ p, p < ((runBuild true 1 [[97]]).labels.getD 0 []).length ∧
        termSlot ((runBuild true 1 [[97]]).labels.getD 0 [])
          ((runBuild true 1 [[97]]).louds_bits.getD 0 [])
          ((runBuild true 1 [[97]]).child_indicator_bits.getD 0 []) p ∧
        97 = nodeNumAt ((runBuild true 1 [[97]]).louds_bits.getD 0 []) p)) :=
  ⟨by decide, c9_theorem 1 [[97]] 0 (by decide) 97⟩

end FST
